import Mathlib

/-! # Conway's Game of Life: simulation engine of `life.cpp`

A shallow embedding of the simulation engine of `src/src/life.cpp`
(class `life::LifeCfg`) and the properties proved about it.

Conventions of the embedding

* `std::vector<std::vector<unsigned int>>` is `List (List Nat)`; a snapshot
  (`std::string`) is `List Char`.
* `unsigned int` / `size_t` values are natural numbers, `int` values are
  integers; every conversion between them that the source performs is written
  out (`toInt32`, `toSizeT`, `% 2 ^ 32`).
* `operator[]` outside the bounds of a vector is undefined behaviour in the
  source; the embedding returns `none` there, so a result `some _` also says
  that no such access happened.
* Console output and image files are effects outside the state; the fields
  that only feed them (colours, file names, frame rate, canvas) are not part
  of the state record. The pixel buffer of `src/lib/canvas.cpp` is embedded on
  its own (`Canvas`), together with what the controller does to it.
-/

namespace life

/-! ## Data model -/

/-- The states of the controller, `LifeCfg::state_e`. -/
inductive state_e where
  | STARTING
  | RUNNING
  | END
  | UNDEFINED
  deriving DecidableEq, Repr

/-- The causes of termination, `LifeCfg::ending_e`. -/
inductive ending_e where
  | UNDEFINED
  | EXTINCTION
  | MAXGEN
  | STABILITY
  deriving DecidableEq, Repr

/-- The simulation fields of `class LifeCfg`. -/
structure LifeCfg where
  m_ending : ending_e
  m_state : state_e
  m_stop : Bool
  m_extinct : Bool
  m_exit : Bool
  m_n_gen : Nat
  m_cols : Nat
  m_rows : Nat
  m_maxgen : Nat
  m_table : List (List Nat)
  m_old_tables : List (List Char)
  deriving DecidableEq, Repr

/-! ## Machine integers -/

/-- Conversion of an integer value to `int` (32 bit, two's complement). -/
def toInt32 (z : Int) : Int := (z + 2147483648) % 4294967296 - 2147483648

/-- Conversion of an integer value to `size_t` (64 bit, unsigned). -/
def toSizeT (z : Int) : Nat := (z % 18446744073709551616).toNat

/-! ## The transition rule: `LifeCfg::set_alive` -/

/-- The read `table[r][c]`. -/
def cell_at (table : List (List Nat)) (r c : Nat) : Option Nat :=
  (table[r]?).bind (fun row => row[c]?)

/-- One coordinate of a neighbour, lines 338-344 of `life.cpp`:
`int nb = idx + d; if (nb < 0) nb = n - 1; if (static_cast<size_t>(nb) >= n) nb = 0;`
followed by the conversion of `nb` to the index type of `operator[]`. -/
def neighbor_index (idx : Nat) (d : Int) (n : Nat) : Nat :=
  let nb0 : Int := toInt32 ((idx : Int) + d)
  let nb1 : Int := if nb0 < 0 then toInt32 ((n : Int) - 1) else nb0
  let nb2 : Int := if toSizeT nb1 ≥ n then 0 else nb1
  toSizeT nb2

/-- The body of the inner loop of `set_alive` for one offset
`(cell_row, cell_col)`: the centre is skipped, any other offset reads one
neighbour and increments the counter when it is `1`. -/
def count_step (table : List (List Nat)) (rows cols row col : Nat)
    (cell_row cell_col : Int) (n_alives : Nat) : Option Nat :=
  if cell_row = 0 ∧ cell_col = 0 then some n_alives
  else
    (cell_at table (neighbor_index row cell_row rows) (neighbor_index col cell_col cols)).bind
      (fun v => some (if v = 1 then n_alives + 1 else n_alives))

/-- The neighbour count `n_alives` of `set_alive`, lines 326-350: the two
nested loops over `cell_row, cell_col = -1, 0, 1`. -/
def set_alive_n_alives (table : List (List Nat)) (row col : Nat) : Option Nat :=
  (table[0]?).bind (fun first =>
    let rows := table.length
    let cols := first.length
    [(-1 : Int), 0, 1].foldlM
      (fun n cell_row =>
        [(-1 : Int), 0, 1].foldlM
          (fun n cell_col => count_step table rows cols row col cell_row cell_col n) n)
      0)

/-- The rule of lines 352-361 applied to the neighbour count. -/
def rule (cell n_alives : Nat) : Bool :=
  if cell = 1 then
    if n_alives = 2 ∨ n_alives = 3 then true else false
  else
    if n_alives = 3 then true else false

/-- The function `LifeCfg::set_alive(table, row, col, cell)`. -/
def set_alive (table : List (List Nat)) (row col cell : Nat) : Option Bool :=
  (set_alive_n_alives table row col).bind (fun n_alives => some (rule cell n_alives))

/-! ## Snapshots and the history: `table_to_string`, `compare`, `all_dead` -/

/-- The function `LifeCfg::table_to_string`: every cell is written in decimal,
every row is closed by a newline. -/
def table_to_string (table : List (List Nat)) : List Char :=
  table.flatMap (fun row => row.flatMap (fun cell => Nat.toDigits 10 cell) ++ ['\n'])

/-- The function `LifeCfg::compare(olds, table)`: the linear scan of the
history, front to back. -/
def compare : List (List Char) → List Char → Bool
  | [], _ => false
  | old :: olds, table => if old = table then true else compare olds table

/-- The function `LifeCfg::all_dead(table)`: false at the first character `1`. -/
def all_dead : List Char → Bool
  | [] => true
  | c :: cs => if c = '1' then false else all_dead cs

/-! ## One generation: `LifeCfg::update_gen` -/

/-- The write `table[i][j] = v`. -/
def set_cell (table : List (List Nat)) (i j v : Nat) : Option (List (List Nat)) :=
  (table[i]?).bind (fun row =>
    if j < row.length then some (table.set i (row.set j v)) else none)

/-- The body of the inner loop of `update_gen`, line 311-312: cell `(i, j)` of
`m_table` is written from `set_alive` on the copy `temp_table`. -/
def update_cell (temp_table : List (List Nat)) (i j : Nat) (m_table : List (List Nat)) :
    Option (List (List Nat)) :=
  (cell_at temp_table i j).bind (fun cell =>
    (set_alive temp_table i j cell).bind (fun alive =>
      set_cell m_table i j (if alive then 1 else 0)))

/-- The inner loop `for (j = 0; j < n; j++)` of `update_gen` on row `i`:
`m_table` after the iterations `j = 0, ..., n - 1`. -/
def update_row_loop (temp_table : List (List Nat)) (i : Nat) :
    Nat → List (List Nat) → Option (List (List Nat))
  | 0, m_table => some m_table
  | n + 1, m_table =>
    (update_row_loop temp_table i n m_table).bind (update_cell temp_table i n)

/-- The outer loop `for (i = 0; i < n; i++)` of `update_gen`: `m_table` after
the iterations `i = 0, ..., n - 1`, each running the inner loop up to `cols`. -/
def update_table_loop (temp_table : List (List Nat)) (cols : Nat) :
    Nat → List (List Nat) → Option (List (List Nat))
  | 0, m_table => some m_table
  | n + 1, m_table =>
    (update_table_loop temp_table cols n m_table).bind
      (fun t => update_row_loop temp_table n cols t)

/-- The value the loop body of `update_gen` writes to cell `(i, j)`: `1` or `0`
after `set_alive(temp_table, i, j, temp_table[i][j])`. -/
def written_cell (temp_table : List (List Nat)) (i j : Nat) : Option Nat :=
  (cell_at temp_table i j).bind (fun cell =>
    (set_alive temp_table i j cell).bind (fun alive => some (if alive then 1 else 0)))

/-- The function `LifeCfg::update_gen`. -/
def update_gen (s : LifeCfg) : Option LifeCfg :=
  let s := { s with m_n_gen := (s.m_n_gen + 1) % 4294967296 }
  let old_table := table_to_string s.m_table
  let s := if compare s.m_old_tables old_table
    then { s with m_stop := true, m_ending := ending_e.STABILITY } else s
  let s := if s.m_n_gen = s.m_maxgen
    then { s with m_stop := true, m_ending := ending_e.MAXGEN } else s
  let s := if all_dead old_table
    then { s with m_stop := true, m_ending := ending_e.EXTINCTION } else s
  let s := { s with m_old_tables := s.m_old_tables ++ [old_table] }
  let temp_table := s.m_table
  (update_table_loop temp_table s.m_cols s.m_rows s.m_table).map
    (fun t => { s with m_table := t })

/-! ## Loading: `LifeCfg::read_file` -/

/-- The input file as `read_file` consumes it: whether it could be opened, the
integers `std::stoi` yields for the tokens of the first line, the second line
(its first character marks a live cell) and the remaining lines. -/
structure GridFile where
  is_open : Bool
  header : List Int
  alive_line : List Char
  body : List (List Char)
  deriving Repr

/-- The ways a call can fail to return: `std::exit(EXIT_FAILURE)`, or an
access outside the bounds of a vector or string. -/
inductive Halt where
  | EXIT_FAILURE
  | OUT_OF_BOUNDS
  deriving DecidableEq, Repr

/-- The read `line[j]` of a `std::string`: position `size()` holds the null
character, positions beyond it are outside the string. -/
def line_char (str : List Char) (j : Nat) : Option Char :=
  if j < str.length then str[j]?
  else if j = str.length then some (Char.ofNat 0)
  else none

/-- The loop `for (j = 0; j < n; j++)` of `read_file` on row `i`, lines 218-223. -/
def read_row_loop (line : List Char) (alive : Char) (i : Nat) :
    Nat → List (List Nat) → Option (List (List Nat))
  | 0, m_table => some m_table
  | n + 1, m_table =>
    (read_row_loop line alive i n m_table).bind (fun t =>
      (line_char line n).bind (fun ch =>
        set_cell t i n (if ch = alive then 1 else 0)))

/-- The loop `while (std::getline(file, line))` of `read_file`, lines 217-226,
from row `i` on. -/
def read_lines_loop (cols rows : Nat) (alive : Char) :
    List (List Char) → Nat → List (List Nat) → Option (List (List Nat))
  | [], _, m_table => some m_table
  | line :: rest, i, m_table =>
    (read_row_loop line alive i cols m_table).bind (fun t =>
      if i + 1 ≥ rows then some t else read_lines_loop cols rows alive rest (i + 1) t)

/-- The call `m_table.resize(rows, std::vector<unsigned int>(cols, 0))`. -/
def resize_table (table : List (List Nat)) (rows cols : Nat) : List (List Nat) :=
  table.take rows ++ List.replicate (rows - table.length) (List.replicate cols 0)

/-- The function `LifeCfg::read_file`. -/
def read_file (file : GridFile) (s : LifeCfg) : Except Halt LifeCfg :=
  if file.is_open = false then Except.error Halt.EXIT_FAILURE
  else
    match file.header with
    | [] => Except.error Halt.EXIT_FAILURE
    | [_] => Except.error Halt.EXIT_FAILURE
    | r :: c :: _ =>
      let m_rows := (r % 4294967296).toNat
      let m_cols := (c % 4294967296).toNat
      if m_cols < 3 ∨ m_rows < 3 then Except.error Halt.EXIT_FAILURE
      else
        let table := resize_table s.m_table m_rows m_cols
        let alive := file.alive_line.headD (Char.ofNat 0)
        match read_lines_loop m_cols m_rows alive file.body 0 table with
        | none => Except.error Halt.OUT_OF_BOUNDS
        | some t => Except.ok { s with m_rows := m_rows, m_cols := m_cols, m_table := t }

/-! ## The controller: constructor, `start`, `update` -/

/-- The constructor `LifeCfg::LifeCfg()`. -/
def LifeCfg.init : LifeCfg where
  m_ending := ending_e.UNDEFINED
  m_state := state_e.STARTING
  m_stop := false
  m_extinct := false
  m_exit := false
  m_n_gen := 1
  m_cols := 0
  m_rows := 0
  m_maxgen := 10
  m_table := []
  m_old_tables := []

/-- The function `LifeCfg::start`, restricted to the simulation fields: it
stores the maximum number of generations. -/
def start (gen : Nat) (s : LifeCfg) : LifeCfg :=
  { s with m_maxgen := gen }

/-- The function `LifeCfg::update`: one transition of the controller. The
calls that print or write image files (`display_welcome`, `display_conway`,
the branch on `m_image_dir`, `display_end`) write none of the fields of the
state record; a run that one of them aborts is a prefix of the run given
here. -/
def update (file : GridFile) (s : LifeCfg) : Except Halt LifeCfg :=
  match s.m_state with
  | state_e.STARTING =>
    match read_file file s with
    | Except.error e => Except.error e
    | Except.ok s1 => Except.ok { s1 with m_state := state_e.RUNNING }
  | state_e.RUNNING =>
    if s.m_stop = true then Except.ok { s with m_state := state_e.END }
    else
      match update_gen s with
      | none => Except.error Halt.OUT_OF_BOUNDS
      | some s1 => Except.ok s1
  | state_e.END => Except.ok { s with m_exit := true }
  | state_e.UNDEFINED => Except.ok s

/-- The state after `k` successive calls of `update`, the calls the loop of
`main` makes one after the other. -/
def updates (file : GridFile) : Nat → LifeCfg → Except Halt LifeCfg
  | 0, s => Except.ok s
  | k + 1, s =>
    match update file s with
    | Except.error e => Except.error e
    | Except.ok s1 => updates file k s1

/-- The state after `k` successive calls of `update_gen`, the advance steps of
a run. -/
def update_gens : Nat → LifeCfg → Option LifeCfg
  | 0, s => some s
  | k + 1, s => (update_gen s).bind (update_gens k)

/-! ## The pixel buffer: `class Canvas` and `LifeCfg::paint_pixel` -/

/-- Modelled from the spec: the type `Color` of `common.h`, a header that is
not among the sources. A colour is an RGB triple of byte channels; the code
reads it as `channels[Color::R]`, `channels[Color::G]`, `channels[Color::B]`
and builds it as `Color(r, g, b)`. -/
structure Color where
  r : Nat
  g : Nat
  b : Nat
  deriving DecidableEq, Repr

/-- Modelled from the spec: the constant `BLACK` of `common.h`, the default
colour of the canvas. -/
def BLACK : Color := ⟨0, 0, 0⟩

/-- The members of `class Canvas`: `m_pixels` holds one byte per entry. -/
structure Canvas where
  m_width : Nat
  m_height : Nat
  m_block_size : Int
  m_pixels : List Nat
  deriving DecidableEq, Repr

/-- Conversion of an integer value to `short` (16 bit, two's complement). -/
def toInt16 (z : Int) : Int := (z + 32768) % 65536 - 32768

/-- The write `m_pixels[i] = v`. -/
def write_byte (pixels : List Nat) (i v : Nat) : Option (List Nat) :=
  if i < pixels.length then some (pixels.set i v) else none

/-- The four writes of one pixel at `index`, shared by `clear` and the pixel
setter: red, green, blue and the alpha byte `255`. -/
def write_pixel (pixels : List Nat) (index : Nat) (color : Color) : Option (List Nat) :=
  (write_byte pixels index color.r).bind (fun p1 =>
    (write_byte p1 (index + 1) color.g).bind (fun p2 =>
      (write_byte p2 (index + 2) color.b).bind (fun p3 =>
        write_byte p3 (index + 3) 255)))

/-- The loop `for (i = 0; i < m_pixels.size(); i += image_depth)` of
`Canvas::clear`: the buffer after the first `n` iterations, `i = 0, 4, ...`. -/
def clear_loop (color : Color) : Nat → List Nat → Option (List Nat)
  | 0, pixels => some pixels
  | n + 1, pixels => (clear_loop color n pixels).bind (fun p => write_pixel p (4 * n) color)

/-- The function `Canvas::clear(color)`; the loop runs once for every
multiple of 4 below the size of the buffer. -/
def Canvas.clear (cv : Canvas) (color : Color) : Option Canvas :=
  (clear_loop color ((cv.m_pixels.length + 3) / 4) cv.m_pixels).map
    (fun p => { cv with m_pixels := p })

/-- The constructor `Canvas::Canvas(w, h, bs)`: a buffer of `w * h * image_depth`
zero bytes (a `size_t` product), then `clear(BLACK)`. -/
def Canvas.new (w h : Nat) (bs : Int) : Option Canvas :=
  Canvas.clear
    { m_width := w, m_height := h, m_block_size := bs,
      m_pixels := List.replicate ((w * h * 4) % 18446744073709551616) 0 }
    BLACK

/-- The copy constructor `Canvas::Canvas(const Canvas&)`. -/
def Canvas.copy (clone : Canvas) : Canvas :=
  { m_width := clone.m_width, m_height := clone.m_height,
    m_block_size := clone.m_block_size, m_pixels := clone.m_pixels }

/-- The assignment `Canvas::operator=`. -/
def Canvas.assign (target source : Canvas) : Canvas :=
  { target with
    m_width := source.m_width
    m_height := source.m_height
    m_block_size := source.m_block_size
    m_pixels := source.m_pixels }

/-- The setter `Canvas::pixel(x, y, color)`. -/
def Canvas.pixel_set (cv : Canvas) (x y : Nat) (color : Color) : Option Canvas :=
  if x < cv.m_width ∧ y < cv.m_height then
    (write_pixel cv.m_pixels (((y * cv.m_width + x) * 4) % 18446744073709551616) color).map
      (fun p => { cv with m_pixels := p })
  else some cv

/-- The getter `Canvas::pixel(x, y)`. -/
def Canvas.pixel_get (cv : Canvas) (x y : Nat) : Option Color :=
  if x < cv.m_width ∧ y < cv.m_height then
    let index := ((y * cv.m_width + x) * 4) % 18446744073709551616
    (cv.m_pixels[index]?).bind (fun r =>
      (cv.m_pixels[index + 1]?).bind (fun g =>
        (cv.m_pixels[index + 2]?).bind (fun b => some (Color.mk r g b))))
  else some BLACK

/-- The function `Canvas::start_canva(size, width, height)`. -/
def Canvas.start_canva (cv : Canvas) (size : Int) (width height : Nat) : Canvas :=
  { cv with m_block_size := size, m_height := height, m_width := width }

/-- The member `m_canvas` of the controller after the constructor `LifeCfg()`
(`m_canvas(0, 0, 5)`) and the call of line 58 in the STARTING branch of
`update`, `m_canvas.start_canva(static_cast<short>(m_pixel), m_cols, m_rows)`. -/
def starting_canvas (m_pixel m_cols m_rows : Nat) : Option Canvas :=
  (Canvas.new 0 0 5).map (fun cv => cv.start_canva (toInt16 m_pixel) m_cols m_rows)

/-- The body of the inner loop of `paint_pixel`, lines 432-433; `cell_color`
and `back_color` are the colours `color_pallet` holds for `m_cell_color` and
`m_back_color`. -/
def paint_cell (table : List (List Nat)) (cell_color back_color : Color) (i j : Nat)
    (canvas : Canvas) : Option Canvas :=
  (cell_at table i j).bind (fun v =>
    if v = 1 then canvas.pixel_set j i cell_color
    else if v = 0 then canvas.pixel_set j i back_color
    else some canvas)

/-- The inner loop `for (j = 0; j < n; j++)` of `paint_pixel` on row `i`. -/
def paint_row_loop (table : List (List Nat)) (cell_color back_color : Color) (i : Nat) :
    Nat → Canvas → Option Canvas
  | 0, canvas => some canvas
  | n + 1, canvas =>
    (paint_row_loop table cell_color back_color i n canvas).bind
      (paint_cell table cell_color back_color i n)

/-- The outer loop `for (i = 0; i < n; i++)` of `paint_pixel`. -/
def paint_table_loop (table : List (List Nat)) (cell_color back_color : Color) (col : Nat) :
    Nat → Canvas → Option Canvas
  | 0, canvas => some canvas
  | n + 1, canvas =>
    (paint_table_loop table cell_color back_color col n canvas).bind
      (fun cv => paint_row_loop table cell_color back_color n col cv)

/-- The function `LifeCfg::paint_pixel(table, canvas)`. -/
def paint_pixel (table : List (List Nat)) (cell_color back_color : Color) (canvas : Canvas) :
    Option Canvas :=
  (table[0]?).bind (fun first =>
    paint_table_loop table cell_color back_color first.length table.length canvas)

/-- The canvas of one generation, lines 69-73 of `update`: a fresh
`Canvas canvas(width, height, block_size)` with the dimensions of `m_canvas`,
filled by `paint_pixel(m_table, canvas)`. -/
def render_generation (m_table : List (List Nat)) (m_canvas : Canvas) (m_pixel : Nat)
    (cell_color back_color : Color) : Option Canvas :=
  let height := m_canvas.m_height
  let width := m_canvas.m_width
  (Canvas.new width height (toInt16 m_pixel)).bind (paint_pixel m_table cell_color back_color)

/-- One call on a canvas that keeps its dimensions: `clear` or the pixel
setter. -/
inductive CanvasOp where
  | clear (color : Color)
  | pixel (x y : Nat) (color : Color)
  deriving Repr

/-- The canvas after one call. -/
def apply_op (cv : Canvas) : CanvasOp → Option Canvas
  | CanvasOp.clear color => cv.clear color
  | CanvasOp.pixel x y color => cv.pixel_set x y color

/-- The canvas after a sequence of calls, first to last. -/
def apply_ops : Canvas → List CanvasOp → Option Canvas
  | cv, [] => some cv
  | cv, op :: ops => (apply_op cv op).bind (fun cv1 => apply_ops cv1 ops)

/-! ## Image file names: `LifeCfg::make_words` -/

/-- The array `letras` of `make_words`, without its terminating null. -/
def letras : List Char :=
  ['a', 'b', 'c', 'd', 'e', 'f', 'g', 'h', 'i', 'j', 'k', 'l', 'm', 'n', 'o', 'p', 'q', 'r',
    's', 't', 'u', 'v', 'w', 'x', 'y', 'z']

/-- One iteration of the loop of `make_words`:
`word += letras[counter % tamLetras]; counter++;` with `tamLetras = 26`. The
counter is a non-negative `int`; incrementing it past `2^31 - 1` is outside
the defined behaviour of the source and gives `none`. -/
def make_words_step (word : List Char) (counter : Nat) : Option (List Char × Nat) :=
  (letras[counter % 26]?).bind (fun ch =>
    if counter + 1 < 2147483648 then some (word ++ [ch], counter + 1) else none)

/-- The function `LifeCfg::make_words(filename)`, with the function-local
`static int counter` passed in and handed back: the result is the new
`m_file_path` and the counter after the call. -/
def make_words (filename : List Char) (counter : Nat) : Option (List Char × Nat) :=
  (make_words_step [] counter).bind (fun w1 =>
    (make_words_step w1.1 w1.2).bind (fun w2 =>
      (make_words_step w2.1 w2.2).bind (fun w3 =>
        some (filename ++ '/' :: w3.1, w3.2))))

/-- Successive calls of `make_words`, one for each directory of the list: the
file paths they make, in order, and the counter after the last call. -/
def make_words_run : List (List Char) → Nat → Option (List (List Char) × Nat)
  | [], counter => some ([], counter)
  | dir :: dirs, counter =>
    (make_words dir counter).bind (fun r =>
      (make_words_run dirs r.2).bind (fun rs => some (r.1 :: rs.1, rs.2)))

/-! ## The transition on grids -/

/-- The grid part of `update_gen`, lines 308-314: the loops that write the
next generation into `m_table` from the copy `temp_table`. -/
def next_grid (rows cols : Nat) (table : List (List Nat)) : Option (List (List Nat)) :=
  update_table_loop table cols rows table

/-- The grid after `k` applications of the transition. -/
def next_grids (rows cols : Nat) : Nat → List (List Nat) → Option (List (List Nat))
  | 0, table => some table
  | k + 1, table => (next_grid rows cols table).bind (next_grids rows cols k)

/-! ## Specification-side definitions -/

/-- A table is rectangular with `rows` rows of `cols` cells each. -/
def Rect (rows cols : Nat) (table : List (List Nat)) : Prop :=
  table.length = rows ∧ ∀ row ∈ table, row.length = cols

/-- Every cell of the table is `0` or `1`. -/
def Binary (table : List (List Nat)) : Prop :=
  ∀ row ∈ table, ∀ cell ∈ row, cell = 0 ∨ cell = 1

/-- The eight offsets of the Moore neighbourhood: `{-1, 0, 1}^2` without `(0, 0)`. -/
def moore_offsets : List (Int × Int) :=
  [(-1, -1), (-1, 0), (-1, 1), (0, -1), (0, 1), (1, -1), (1, 0), (1, 1)]

/-- The toroidal coordinate `(idx + d) mod n` of the specification. -/
def torus_index (idx : Nat) (d : Int) (n : Nat) : Nat :=
  (((idx : Int) + d) % (n : Int)).toNat

/-- The neighbour count of the specification: the number of offsets
`(dr, dc)` of the Moore neighbourhood for which the cell at
`((r + dr) mod rows, (c + dc) mod cols)` is `1`. -/
def torus_count (table : List (List Nat)) (rows cols r c : Nat) : Nat :=
  moore_offsets.countP
    (fun d => cell_at table (torus_index r d.1 rows) (torus_index c d.2 cols) = some 1)

instance (rows cols : Nat) (table : List (List Nat)) : Decidable (Rect rows cols table) := by
  unfold Rect
  infer_instance

instance (table : List (List Nat)) : Decidable (Binary table) := by
  unfold Binary
  infer_instance

/-- The value the transition rule gives cell `(r, c)` of a `rows x cols`
table: `rule` on the cell and its toroidal neighbour count. -/
def next_cell (table : List (List Nat)) (rows cols r c : Nat) : Option Nat :=
  (cell_at table r c).map
    (fun v => if rule v (torus_count table rows cols r c) then 1 else 0)

/-- The history of the specification, a set of snapshots, and its membership
test. -/
def history_set_contains (history : Finset (List Char)) (snapshot : List Char) : Bool :=
  decide (snapshot ∈ history)

/-- The invariant of the controller that ties the cause to the stop flag: a
cause other than UNDEFINED is only ever found with the stop flag set, after
the loading state. -/
def cause_set_inv (s : LifeCfg) : Prop :=
  s.m_ending ≠ ending_e.UNDEFINED → s.m_stop = true ∧ s.m_state ≠ state_e.STARTING

/-- The grid of generation `g` in the run of `update_gen` from `s0`;
generations are numbered from 1, as `m_n_gen` numbers them. -/
def generation (s0 : LifeCfg) : Nat → Option (List (List Nat))
  | 0 => none
  | g + 1 => (update_gens g s0).map LifeCfg.m_table

/-- The stability test of the `k`-th advance step in the run of `update_gen`
from `s0`: `compare` on the history and the snapshot of generation `k`. -/
def stability_at_step (s0 : LifeCfg) : Nat → Option Bool
  | 0 => none
  | k + 1 =>
    (update_gens k s0).map (fun s => compare s.m_old_tables (table_to_string s.m_table))

/-- The buffer after the four writes of one pixel at `index`. -/
def set_pixel_bytes (pixels : List Nat) (index : Nat) (color : Color) : List Nat :=
  (((pixels.set index color.r).set (index + 1) color.g).set (index + 2) color.b).set
    (index + 3) 255

/-- The alpha byte of every pixel of the buffer is `255`: every byte at an
index congruent to 3 modulo 4. -/
def AlphaOpaque (pixels : List Nat) : Prop :=
  ∀ i, i < pixels.length → i % 4 = 3 → pixels[i]? = some 255

/-- The invariant of the specification for a canvas: the buffer holds
`width * height * 4` bytes, a number that fits `size_t`. -/
def CanvasWF (cv : Canvas) : Prop :=
  cv.m_pixels.length = cv.m_width * cv.m_height * 4 ∧
    cv.m_width * cv.m_height * 4 < 18446744073709551616

/-- The colour the rasterizer gives cell `(i, j)`: the alive colour for `1`,
the dead colour otherwise. -/
def cell_colour (table : List (List Nat)) (cell_color back_color : Color) (i j : Nat) :
    Option Color :=
  (cell_at table i j).map (fun v => if v = 1 then cell_color else back_color)

/-- The table has an alive cell. -/
def has_alive (table : List (List Nat)) : Prop :=
  ∃ row ∈ table, (1 : Nat) ∈ row

instance (table : List (List Nat)) : Decidable (has_alive table) := by
  unfold has_alive
  infer_instance

/-- The `rows x cols` grid whose cell `(r, c)` is `f r c`. -/
def grid_of (rows cols : Nat) (f : Nat → Nat → Nat) : List (List Nat) :=
  (List.range rows).map (fun r => (List.range cols).map (fun c => f r c))

/-- The grid shifted cyclically by `a` rows and `b` columns: cell `(r, c)` of
the result is cell `((r - a) mod rows, (c - b) mod cols)` of the grid. -/
def shift_table (rows cols : Nat) (a b : Int) (table : List (List Nat)) : List (List Nat) :=
  grid_of rows cols (fun r c =>
    (cell_at table (torus_index r (-a) rows) (torus_index c (-b) cols)).getD 0)

/-- The binary grid whose alive cells are the cells at the relative positions
`cells` from `(r0, c0)`, indices taken modulo `rows` and `cols`; all other
cells are dead. -/
def place (cells : List (Nat × Nat)) (rows cols r0 c0 : Nat) : List (List Nat) :=
  grid_of rows cols (fun r c =>
    if cells.any (fun p => decide (r = (r0 + p.1) % rows ∧ c = (c0 + p.2) % cols))
    then 1 else 0)

/-- The 2x2 block. -/
def block_cells : List (Nat × Nat) := [(0, 0), (0, 1), (1, 0), (1, 1)]

/-- The glider of the specification. -/
def glider_cells : List (Nat × Nat) := [(0, 1), (1, 2), (2, 0), (2, 1), (2, 2)]

/-- The three generations of the glider between two translations, and the
glider translated by one row and one column. -/
def glider_phase2 : List (Nat × Nat) := [(1, 0), (1, 2), (2, 1), (2, 2), (3, 1)]

/-- The third generation of the glider. -/
def glider_phase3 : List (Nat × Nat) := [(1, 2), (2, 0), (2, 2), (3, 1), (3, 2)]

/-- The fourth generation of the glider. -/
def glider_phase4 : List (Nat × Nat) := [(1, 1), (2, 2), (2, 3), (3, 1), (3, 2)]

/-- The glider translated by one row down and one column right. -/
def glider_moved : List (Nat × Nat) := [(1, 2), (2, 3), (3, 1), (3, 2), (3, 3)]

/-- The offset `(r - r0) mod n` of a coordinate from an origin on the torus. -/
def offset (r r0 n : Nat) : Nat := torus_index r (-(r0 : Int)) n

/-- A pattern given by its alive cells inside a `W x W` window: whether the
cell at offset `(i, j)` from the origin is alive. -/
def in_window (W : Nat) (cells : List (Nat × Nat)) (i j : Nat) : Bool :=
  decide (i < W) && decide (j < W) && cells.contains (i, j)

/-- The same pattern on the unbounded plane, the window at `[0, W) x [0, W)`. -/
def plane_alive (W : Nat) (cells : List (Nat × Nat)) (x y : Int) : Bool :=
  decide (0 ≤ x) && decide (0 ≤ y) && in_window W cells x.toNat y.toNat

/-- The number of alive neighbours of a cell of the plane. -/
def plane_count (W : Nat) (cells : List (Nat × Nat)) (x y : Int) : Nat :=
  moore_offsets.countP (fun d => plane_alive W cells (x + d.1) (y + d.2))

/-- The next state of a cell of the plane under the rule. -/
def plane_next (W : Nat) (cells : List (Nat × Nat)) (x y : Int) : Bool :=
  rule (if plane_alive W cells x y then 1 else 0) (plane_count W cells x y)

/-- The pattern `cells'` is the next generation of the pattern `cells` on the
plane: checked on the window, the ring around it and one cell beyond. -/
def plane_check (W : Nat) (cells cells' : List (Nat × Nat)) : Bool :=
  (List.range (W + 4)).all (fun p =>
    (List.range (W + 4)).all (fun q =>
      plane_next W cells ((p : Int) - 1) ((q : Int) - 1) ==
        plane_alive W cells' ((p : Int) - 1) ((q : Int) - 1)))

/-- The plane coordinate that stands for the offset `i` on a torus of size
`n`: the offset itself up to the ring `W`, `-1` for the last offset, and a
coordinate away from the window for the rest. -/
def kappa (W n i : Nat) : Int :=
  if i ≤ W then (i : Int) else if i = n - 1 then -1 else (W : Int) + 2

/-- The letter at alphabet position `p` modulo 26. -/
def alphabet_letter (p : Nat) : Char := Char.ofNat (97 + p % 26)

/-- Every cell of the pattern lies inside the `W x W` window. -/
def fits_window (W : Nat) (cells : List (Nat × Nat)) : Bool :=
  cells.all (fun p => decide (p.1 < W) && decide (p.2 < W))

/-! ## Concrete inputs -/

/-- A 3x3 controller state in its first generation: one vertical line of
three live cells, which the torus folds onto itself. -/
def line_state : LifeCfg where
  m_ending := ending_e.UNDEFINED
  m_state := state_e.RUNNING
  m_stop := false
  m_extinct := false
  m_exit := false
  m_n_gen := 1
  m_cols := 3
  m_rows := 3
  m_maxgen := 10
  m_table := [[0, 1, 0], [0, 1, 0], [0, 1, 0]]
  m_old_tables := []

/-- A 5x5 state in its first generation holding the blinker, three live
cells in a column, which has period 2. -/
def blinker_state : LifeCfg where
  m_ending := ending_e.UNDEFINED
  m_state := state_e.RUNNING
  m_stop := false
  m_extinct := false
  m_exit := false
  m_n_gen := 1
  m_cols := 5
  m_rows := 5
  m_maxgen := 10
  m_table := [[0, 0, 0, 0, 0], [0, 0, 1, 0, 0], [0, 0, 1, 0, 0], [0, 0, 1, 0, 0],
    [0, 0, 0, 0, 0]]
  m_old_tables := []

/-- The input file of a 4x4 grid holding the 2x2 block, a still life. -/
def block_file : GridFile where
  is_open := true
  header := [4, 4]
  alive_line := ['*']
  body := [['.', '.', '.', '.'], ['.', '*', '*', '.'], ['.', '*', '*', '.'],
    ['.', '.', '.', '.']]

/-- The state of the run on `block_file` with maximum 3 before its second
advance step. -/
def block_state : LifeCfg where
  m_ending := ending_e.UNDEFINED
  m_state := state_e.RUNNING
  m_stop := false
  m_extinct := false
  m_exit := false
  m_n_gen := 2
  m_cols := 4
  m_rows := 4
  m_maxgen := 3
  m_table := [[0, 0, 0, 0], [0, 1, 1, 0], [0, 1, 1, 0], [0, 0, 0, 0]]
  m_old_tables := [table_to_string [[0, 0, 0, 0], [0, 1, 1, 0], [0, 1, 1, 0], [0, 0, 0, 0]]]

/-- The input file of a 3x3 grid without any live cell. -/
def dead_file : GridFile where
  is_open := true
  header := [3, 3]
  alive_line := ['*']
  body := []

/-- The state of the run on `dead_file` with maximum 2 before its first
advance step. -/
def dead_state : LifeCfg where
  m_ending := ending_e.UNDEFINED
  m_state := state_e.RUNNING
  m_stop := false
  m_extinct := false
  m_exit := false
  m_n_gen := 1
  m_cols := 3
  m_rows := 3
  m_maxgen := 2
  m_table := [[0, 0, 0], [0, 0, 0], [0, 0, 0]]
  m_old_tables := []

/-- The input file of a 5x5 grid holding the blinker, three live cells in a
row, which has period 2. -/
def blinker_file : GridFile where
  is_open := true
  header := [5, 5]
  alive_line := ['*']
  body := [['.', '.', '.', '.', '.'], ['.', '.', '.', '.', '.'], ['.', '*', '*', '*', '.'],
    ['.', '.', '.', '.', '.'], ['.', '.', '.', '.', '.']]

/-- An input file whose header declares `-1` rows and `3` columns. -/
def negative_file : GridFile where
  is_open := true
  header := [-1, 3]
  alive_line := ['*']
  body := []

/-- A 3x3 grid whose only live cell is at row 1, column 2. -/
def one_cell_table : List (List Nat) := [[0, 0, 0], [0, 0, 1], [0, 0, 0]]

/-- A 5x5 state in its first generation holding a glider, with the maximum
generation count 5. -/
def glider_state : LifeCfg where
  m_ending := ending_e.UNDEFINED
  m_state := state_e.RUNNING
  m_stop := false
  m_extinct := false
  m_exit := false
  m_n_gen := 1
  m_cols := 5
  m_rows := 5
  m_maxgen := 5
  m_table := [[0, 1, 0, 0, 0], [0, 0, 1, 0, 0], [1, 1, 1, 0, 0], [0, 0, 0, 0, 0],
    [0, 0, 0, 0, 0]]
  m_old_tables := []

/-! ## Machine integers and the torus -/

theorem torus_index_lt (idx : Nat) (d : Int) (n : Nat) (hn : 1 ≤ n) :
    torus_index idx d n < n := by
  unfold torus_index
  have h1 : (0 : Int) ≤ ((idx : Int) + d) % (n : Int) := Int.emod_nonneg _ (by omega)
  have h2 : ((idx : Int) + d) % (n : Int) < (n : Int) := Int.emod_lt_of_pos _ (by omega)
  omega

theorem torus_index_zero (idx n : Nat) (h : idx < n) : torus_index idx 0 n = idx := by
  unfold torus_index
  rw [Int.add_zero, Int.emod_eq_of_lt (by omega) (by omega)]
  omega

theorem torus_index_succ (idx n : Nat) (h : idx < n) :
    torus_index idx 1 n = if idx + 1 = n then 0 else idx + 1 := by
  unfold torus_index
  split
  · next he =>
    have : ((idx : Int) + 1) = (n : Int) := by omega
    rw [this, Int.emod_self]
    rfl
  · next he =>
    rw [Int.emod_eq_of_lt (by omega) (by omega)]
    omega

theorem torus_index_pred (idx n : Nat) (h : idx < n) :
    torus_index idx (-1) n = if idx = 0 then n - 1 else idx - 1 := by
  unfold torus_index
  split
  · next he =>
    subst he
    have h1 : ((0 : Nat) : Int) + -1 = ((n : Int) - 1) + (n : Int) * (-1) := by ring
    rw [h1, Int.add_mul_emod_self_left, Int.emod_eq_of_lt (by omega) (by omega)]
    omega
  · next he =>
    rw [Int.emod_eq_of_lt (by omega) (by omega)]
    omega

/-- On a dimension whose size fits `int`, the coordinate the code computes
is the toroidal coordinate. -/
theorem neighbor_index_eq_torus (idx : Nat) (d : Int) (n : Nat)
    (hd : d = -1 ∨ d = 0 ∨ d = 1) (hn : n < 2147483648) (h : idx < n) :
    neighbor_index idx d n = torus_index idx d n := by
  rcases hd with hd | hd | hd <;> subst hd
  · rw [torus_index_pred idx n h]
    unfold neighbor_index toInt32 toSizeT
    split <;> simp only [] <;> split <;> split <;> omega
  · rw [torus_index_zero idx n h]
    unfold neighbor_index toInt32 toSizeT
    simp only []
    split <;> split <;> omega
  · rw [torus_index_succ idx n h]
    unfold neighbor_index toInt32 toSizeT
    split <;> simp only [] <;> split <;> split <;> omega

/-- The coordinate the code computes is inside the dimension, whatever the
size of the dimension. -/
theorem neighbor_index_lt (idx : Nat) (d : Int) (n : Nat) (hn : 1 ≤ n) :
    neighbor_index idx d n < n := by
  unfold neighbor_index toInt32 toSizeT
  simp only []
  split <;> split <;> omega

/-! ## Rectangular tables -/

theorem Rect.cell_at_some {rows cols : Nat} {t : List (List Nat)} (h : Rect rows cols t)
    {r c : Nat} (hr : r < rows) (hc : c < cols) : ∃ v, cell_at t r c = some v := by
  obtain ⟨hlen, hrow⟩ := h
  have hr2 : r < t.length := by omega
  have hmem : t[r] ∈ t := List.getElem_mem hr2
  have hc2 : c < (t[r]).length := by rw [hrow _ hmem]; exact hc
  refine ⟨(t[r])[c], ?_⟩
  unfold cell_at
  rw [List.getElem?_eq_getElem hr2]
  simp [List.getElem?_eq_getElem hc2]

theorem Rect.head {rows cols : Nat} {t : List (List Nat)} (h : Rect rows cols t)
    (hr : 1 ≤ rows) : ∃ first, t[0]? = some first ∧ first.length = cols := by
  obtain ⟨hlen, hrow⟩ := h
  have hr2 : 0 < t.length := by omega
  exact ⟨t[0], List.getElem?_eq_getElem hr2, hrow _ (List.getElem_mem hr2)⟩

/-! ## The neighbour count -/

theorem count_step_center (t : List (List Nat)) (rows cols r c n : Nat) :
    count_step t rows cols r c 0 0 n = some n := by
  simp [count_step]

theorem count_step_eq {rows cols : Nat} {t : List (List Nat)} (h : Rect rows cols t)
    (hr1 : 1 ≤ rows) (hc1 : 1 ≤ cols) (hrb : rows < 2147483648) (hcb : cols < 2147483648)
    {r c : Nat} (hr : r < rows) (hc : c < cols) (dr dc : Int)
    (hdr : dr = -1 ∨ dr = 0 ∨ dr = 1) (hdc : dc = -1 ∨ dc = 0 ∨ dc = 1)
    (hne : ¬ (dr = 0 ∧ dc = 0)) (n : Nat) :
    count_step t rows cols r c dr dc n =
      some (n + if cell_at t (torus_index r dr rows) (torus_index c dc cols) = some 1
        then 1 else 0) := by
  unfold count_step
  rw [if_neg hne, neighbor_index_eq_torus r dr rows hdr hrb hr,
    neighbor_index_eq_torus c dc cols hdc hcb hc]
  obtain ⟨v, hv⟩ := h.cell_at_some (torus_index_lt r dr rows hr1) (torus_index_lt c dc cols hc1)
  rw [hv]
  by_cases h1 : v = 1 <;> simp [h1]

theorem count_step_total {rows cols : Nat} {t : List (List Nat)} (h : Rect rows cols t)
    (hr1 : 1 ≤ rows) (hc1 : 1 ≤ cols) (r c : Nat) (dr dc : Int) (n : Nat) :
    ∃ m, count_step t rows cols r c dr dc n = some m := by
  unfold count_step
  split
  · exact ⟨n, rfl⟩
  · obtain ⟨v, hv⟩ :=
      h.cell_at_some (neighbor_index_lt r dr rows hr1) (neighbor_index_lt c dc cols hc1)
    rw [hv]
    exact ⟨_, rfl⟩

/-- On a rectangular table with at least one cell the neighbour count of
`set_alive` returns, for every `row` and `col`. -/
theorem set_alive_n_alives_total {rows cols : Nat} {t : List (List Nat)}
    (h : Rect rows cols t) (hr1 : 1 ≤ rows) (hc1 : 1 ≤ cols) (r c : Nat) :
    ∃ n, set_alive_n_alives t r c = some n := by
  obtain ⟨first, hfirst, hflen⟩ := h.head hr1
  unfold set_alive_n_alives
  rw [hfirst, Option.bind, h.1, hflen]
  simp only [List.foldlM_cons, List.foldlM_nil]
  have e := fun (dr dc : Int) n => count_step_total h hr1 hc1 r c dr dc n
  obtain ⟨m1, h1⟩ := e (-1) (-1) 0
  obtain ⟨m2, h2⟩ := e (-1) 0 m1
  obtain ⟨m3, h3⟩ := e (-1) 1 m2
  obtain ⟨m4, h4⟩ := e 0 (-1) m3
  obtain ⟨m5, h5⟩ := e 0 0 m4
  obtain ⟨m6, h6⟩ := e 0 1 m5
  obtain ⟨m7, h7⟩ := e 1 (-1) m6
  obtain ⟨m8, h8⟩ := e 1 0 m7
  obtain ⟨m9, h9⟩ := e 1 1 m8
  refine ⟨m9, ?_⟩
  simp only [h1, h2, h3, h4, h5, h6, h7, h8, h9, Option.bind_eq_bind, Option.some_bind,
    Option.pure_def]

/-- On a rectangular table whose dimensions fit `int`, the neighbour count of
`set_alive` is the toroidal count of the specification. -/
theorem set_alive_n_alives_eq {rows cols : Nat} {t : List (List Nat)} (h : Rect rows cols t)
    (hr1 : 1 ≤ rows) (hc1 : 1 ≤ cols) (hrb : rows < 2147483648) (hcb : cols < 2147483648)
    {r c : Nat} (hr : r < rows) (hc : c < cols) :
    set_alive_n_alives t r c = some (torus_count t rows cols r c) := by
  obtain ⟨first, hfirst, hflen⟩ := h.head hr1
  unfold set_alive_n_alives
  rw [hfirst, Option.bind, h.1, hflen]
  simp only [List.foldlM_cons, List.foldlM_nil, count_step_center]
  have e := fun (dr dc : Int) hdr hdc hne n =>
    count_step_eq h hr1 hc1 hrb hcb hr hc dr dc hdr hdc hne n
  rw [e (-1) (-1) (by decide) (by decide) (by decide)]
  simp only [Option.bind_eq_bind, Option.some_bind, Option.pure_def]
  rw [e (-1) 0 (by decide) (by decide) (by decide)]
  simp only [Option.bind_eq_bind, Option.some_bind, Option.pure_def]
  rw [e (-1) 1 (by decide) (by decide) (by decide)]
  simp only [Option.bind_eq_bind, Option.some_bind, Option.pure_def]
  rw [e 0 (-1) (by decide) (by decide) (by decide)]
  simp only [Option.bind_eq_bind, Option.some_bind, Option.pure_def]
  rw [e 0 1 (by decide) (by decide) (by decide)]
  simp only [Option.bind_eq_bind, Option.some_bind, Option.pure_def]
  rw [e 1 (-1) (by decide) (by decide) (by decide)]
  simp only [Option.bind_eq_bind, Option.some_bind, Option.pure_def]
  rw [e 1 0 (by decide) (by decide) (by decide)]
  simp only [Option.bind_eq_bind, Option.some_bind, Option.pure_def]
  rw [e 1 1 (by decide) (by decide) (by decide)]
  simp only [torus_count, moore_offsets, List.countP_cons, List.countP_nil, decide_eq_true_eq,
    Nat.zero_add, Option.some_bind, Option.some.injEq]
  ac_rfl

/-! ## The loops of `update_gen` -/

theorem set_cell_spec {rows cols : Nat} {u : List (List Nat)} (hu : Rect rows cols u)
    {i j : Nat} (hi : i < rows) (hj : j < cols) (v : Nat) :
    ∃ u', set_cell u i j v = some u' ∧ Rect rows cols u' ∧
      ∀ r c, cell_at u' r c = if r = i ∧ c = j then some v else cell_at u r c := by
  obtain ⟨hlen, hrow⟩ := hu
  have hi2 : i < u.length := by omega
  have hj2 : j < (u[i]).length := by rw [hrow _ (List.getElem_mem hi2)]; exact hj
  refine ⟨u.set i ((u[i]).set j v), ?_, ⟨?_, ?_⟩, ?_⟩
  · unfold set_cell
    rw [List.getElem?_eq_getElem hi2]
    simp [hj2]
  · simp [hlen]
  · intro row hmem
    rcases List.mem_or_eq_of_mem_set hmem with h1 | h1
    · exact hrow _ h1
    · rw [h1, List.length_set]
      exact hrow _ (List.getElem_mem hi2)
  · intro r c
    unfold cell_at
    by_cases hri : r = i
    · subst hri
      rw [List.getElem?_set_self hi2, List.getElem?_eq_getElem hi2]
      simp only [Option.some_bind, true_and]
      by_cases hcj : c = j
      · subst hcj
        rw [List.getElem?_set_self hj2, if_pos rfl]
      · rw [List.getElem?_set_ne (Ne.symm hcj), if_neg hcj]
    · rw [List.getElem?_set_ne (Ne.symm hri), if_neg (fun h => hri h.1)]

theorem written_cell_binary {rows cols : Nat} {t : List (List Nat)} (ht : Rect rows cols t)
    {i j : Nat} (hi : i < rows) (hj : j < cols) :
    ∃ b : Bool, written_cell t i j = some (if b then 1 else 0) := by
  obtain ⟨v, hv⟩ := ht.cell_at_some hi hj
  obtain ⟨n, hn⟩ := set_alive_n_alives_total ht (by omega) (by omega) i j
  refine ⟨rule v n, ?_⟩
  simp [written_cell, set_alive, hv, hn]

theorem written_cell_eq_next_cell {rows cols : Nat} {t : List (List Nat)}
    (ht : Rect rows cols t) (hrb : rows < 2147483648) (hcb : cols < 2147483648)
    {i j : Nat} (hi : i < rows) (hj : j < cols) :
    written_cell t i j = next_cell t rows cols i j := by
  obtain ⟨v, hv⟩ := ht.cell_at_some hi hj
  have hn := set_alive_n_alives_eq ht (by omega) (by omega) hrb hcb hi hj
  simp [written_cell, next_cell, set_alive, hv, hn]

theorem update_cell_spec {rows cols : Nat} {t u : List (List Nat)} (ht : Rect rows cols t)
    (hu : Rect rows cols u) {i j : Nat} (hi : i < rows) (hj : j < cols) :
    ∃ u', update_cell t i j u = some u' ∧ Rect rows cols u' ∧
      ∀ r c, cell_at u' r c =
        if r = i ∧ c = j then written_cell t i j else cell_at u r c := by
  obtain ⟨v, hv⟩ := ht.cell_at_some hi hj
  obtain ⟨n, hn⟩ := set_alive_n_alives_total ht (by omega) (by omega) i j
  obtain ⟨u', h1, h2, h3⟩ := set_cell_spec hu hi hj (if rule v n then 1 else 0)
  refine ⟨u', ?_, h2, ?_⟩
  · unfold update_cell set_alive
    rw [hv, hn]
    simpa using h1
  · intro r c
    rw [h3 r c]
    simp [written_cell, set_alive, hv, hn]

theorem update_row_loop_spec {rows cols : Nat} {t u : List (List Nat)} (ht : Rect rows cols t)
    (hu : Rect rows cols u) {i : Nat} (hi : i < rows) (n : Nat) (hn : n ≤ cols) :
    ∃ u', update_row_loop t i n u = some u' ∧ Rect rows cols u' ∧
      ∀ r c, cell_at u' r c =
        if r = i ∧ c < n then written_cell t i c else cell_at u r c := by
  induction n with
  | zero => exact ⟨u, rfl, hu, fun r c => by simp⟩
  | succ n ih =>
    obtain ⟨u1, h1, h2, h3⟩ := ih (by omega)
    obtain ⟨u2, k1, k2, k3⟩ := update_cell_spec ht h2 hi (show n < cols by omega)
    refine ⟨u2, ?_, k2, ?_⟩
    · simp [update_row_loop, h1, k1]
    · intro r c
      rw [k3 r c, h3 r c]
      by_cases hri : r = i
      · by_cases hcn : c = n
        · simp [hri, hcn]
        · have : (c < n + 1) = (c < n) := by
            apply propext; constructor <;> intro h <;> omega
          simp [hri, hcn, this]
      · simp [hri]

theorem update_table_loop_spec {rows cols : Nat} {t : List (List Nat)} (ht : Rect rows cols t)
    (n : Nat) (hn : n ≤ rows) :
    ∃ u', update_table_loop t cols n t = some u' ∧ Rect rows cols u' ∧
      ∀ r c, cell_at u' r c =
        if r < n ∧ c < cols then written_cell t r c else cell_at t r c := by
  induction n with
  | zero => exact ⟨t, rfl, ht, fun r c => by simp⟩
  | succ n ih =>
    obtain ⟨u1, h1, h2, h3⟩ := ih (by omega)
    obtain ⟨u2, k1, k2, k3⟩ :=
      update_row_loop_spec ht h2 (show n < rows by omega) cols (Nat.le_refl _)
    refine ⟨u2, ?_, k2, ?_⟩
    · simp [update_table_loop, h1, k1]
    · intro r c
      rw [k3 r c, h3 r c]
      by_cases hrn : r = n
      · subst hrn
        by_cases hc : c < cols <;> simp [hc]
      · have : (r < n + 1) = (r < n) := by
          apply propext; constructor <;> intro h <;> omega
        simp [hrn, this]

/-- The loops of `update_gen` on a rectangular table: they return, the result
is rectangular of the same dimensions, and every cell holds the value the
loop body computes from the table as it was before the loops. -/
theorem update_table_spec {rows cols : Nat} {t : List (List Nat)} (ht : Rect rows cols t) :
    ∃ u', update_table_loop t cols rows t = some u' ∧ Rect rows cols u' ∧
      ∀ r c, r < rows → c < cols → cell_at u' r c = written_cell t r c := by
  obtain ⟨u', h1, h2, h3⟩ := update_table_loop_spec ht rows (Nat.le_refl _)
  refine ⟨u', h1, h2, fun r c hr hc => ?_⟩
  rw [h3 r c, if_pos ⟨hr, hc⟩]

/-- What one call of `update_gen` does to a state whose table is rectangular
with the dimensions the state records. -/
theorem update_gen_spec (s : LifeCfg) (h : Rect s.m_rows s.m_cols s.m_table) :
    ∃ s', update_gen s = some s' ∧
      s'.m_n_gen = (s.m_n_gen + 1) % 4294967296 ∧
      s'.m_old_tables = s.m_old_tables ++ [table_to_string s.m_table] ∧
      s'.m_rows = s.m_rows ∧ s'.m_cols = s.m_cols ∧ s'.m_maxgen = s.m_maxgen ∧
      s'.m_state = s.m_state ∧ s'.m_exit = s.m_exit ∧
      Rect s.m_rows s.m_cols s'.m_table ∧
      (∀ r c, r < s.m_rows → c < s.m_cols →
        cell_at s'.m_table r c = written_cell s.m_table r c) ∧
      s'.m_stop = (s.m_stop || compare s.m_old_tables (table_to_string s.m_table)
        || decide ((s.m_n_gen + 1) % 4294967296 = s.m_maxgen)
        || all_dead (table_to_string s.m_table)) ∧
      s'.m_ending =
        (if all_dead (table_to_string s.m_table) = true then ending_e.EXTINCTION
        else if (s.m_n_gen + 1) % 4294967296 = s.m_maxgen then ending_e.MAXGEN
        else if compare s.m_old_tables (table_to_string s.m_table) = true
          then ending_e.STABILITY
        else s.m_ending) := by
  obtain ⟨u', h1, h2, h3⟩ := update_table_spec h
  by_cases c1 : compare s.m_old_tables (table_to_string s.m_table) = true <;>
  by_cases c2 : (s.m_n_gen + 1) % 4294967296 = s.m_maxgen <;>
  by_cases c3 : all_dead (table_to_string s.m_table) = true <;>
  (simp [update_gen, c1, c2, c3, h1, h2]; exact h3)

/-- Whenever `update_gen` returns, the flags, the counter and the history of
the result are these functions of the state it was called on. -/
theorem update_gen_fields (s s' : LifeCfg) (h : update_gen s = some s') :
    s'.m_n_gen = (s.m_n_gen + 1) % 4294967296 ∧
    s'.m_old_tables = s.m_old_tables ++ [table_to_string s.m_table] ∧
    s'.m_rows = s.m_rows ∧ s'.m_cols = s.m_cols ∧ s'.m_maxgen = s.m_maxgen ∧
    s'.m_state = s.m_state ∧ s'.m_exit = s.m_exit ∧
    s'.m_stop = (s.m_stop || compare s.m_old_tables (table_to_string s.m_table)
      || decide ((s.m_n_gen + 1) % 4294967296 = s.m_maxgen)
      || all_dead (table_to_string s.m_table)) ∧
    s'.m_ending =
      (if all_dead (table_to_string s.m_table) = true then ending_e.EXTINCTION
      else if (s.m_n_gen + 1) % 4294967296 = s.m_maxgen then ending_e.MAXGEN
      else if compare s.m_old_tables (table_to_string s.m_table) = true
        then ending_e.STABILITY
      else s.m_ending) := by
  cases hl : update_table_loop s.m_table s.m_cols s.m_rows s.m_table with
  | none =>
    exfalso
    by_cases c1 : compare s.m_old_tables (table_to_string s.m_table) = true <;>
    by_cases c2 : (s.m_n_gen + 1) % 4294967296 = s.m_maxgen <;>
    by_cases c3 : all_dead (table_to_string s.m_table) = true <;>
    simp [update_gen, c1, c2, c3, hl] at h
  | some u =>
    by_cases c1 : compare s.m_old_tables (table_to_string s.m_table) = true <;>
    by_cases c2 : (s.m_n_gen + 1) % 4294967296 = s.m_maxgen <;>
    by_cases c3 : all_dead (table_to_string s.m_table) = true <;>
    (simp [update_gen, c1, c2, c3, hl] at h; subst h; simp [c1, c2, c3])

/-! ## The history scan and the extinction test -/

theorem compare_iff_mem (olds : List (List Char)) (t : List Char) :
    compare olds t = true ↔ t ∈ olds := by
  induction olds with
  | nil => simp [compare]
  | cons old olds ih =>
    unfold compare
    by_cases h : old = t
    · simp [h]
    · simp [h, ih, Ne.symm h]

theorem all_dead_iff (str : List Char) : all_dead str = true ↔ ∀ ch ∈ str, ch ≠ '1' := by
  induction str with
  | nil => simp [all_dead]
  | cons c cs ih =>
    unfold all_dead
    by_cases h : c = '1'
    · simp [h]
    · simp [h, ih]

/-! ## Snapshots of binary tables -/

theorem table_to_string_cons (row : List Nat) (t : List (List Nat)) :
    table_to_string (row :: t) =
      row.flatMap (fun cell => Nat.toDigits 10 cell) ++ '\n' :: table_to_string t := by
  simp [table_to_string]

theorem row_digits_binary (row : List Nat) (h : ∀ cell ∈ row, cell = 0 ∨ cell = 1) :
    row.flatMap (fun cell => Nat.toDigits 10 cell) =
      row.map (fun cell => if cell = 1 then '1' else '0') := by
  induction row with
  | nil => rfl
  | cons v vs ih =>
    have hv := h v (List.mem_cons_self _ _)
    have hvs := ih (fun cell hc => h cell (List.mem_cons_of_mem _ hc))
    rw [List.flatMap_cons, hvs, List.map_cons]
    rcases hv with hv | hv <;> subst hv <;> rfl

theorem newline_not_mem_row (row : List Nat) (h : ∀ cell ∈ row, cell = 0 ∨ cell = 1) :
    '\n' ∉ row.flatMap (fun cell => Nat.toDigits 10 cell) := by
  rw [row_digits_binary row h]
  intro hmem
  obtain ⟨v, _, hv⟩ := List.mem_map.mp hmem
  by_cases h1 : v = 1
  · rw [if_pos h1] at hv
    exact absurd hv (by decide)
  · rw [if_neg h1] at hv
    exact absurd hv (by decide)

theorem append_sep_inj {α : Type} (x : α) :
    ∀ (a a' b b' : List α), x ∉ a → x ∉ a' → a ++ x :: b = a' ++ x :: b' → a = a' ∧ b = b'
  | [], [], _, _, _, _, h => by simpa using h
  | [], y :: a', _, _, _, h2, h => by
    simp only [List.nil_append, List.cons_append, List.cons.injEq] at h
    exact absurd (List.mem_cons_self _ _) (h.1 ▸ h2)
  | y :: a, [], _, _, h1, _, h => by
    simp only [List.nil_append, List.cons_append, List.cons.injEq] at h
    exact absurd (List.mem_cons_self _ _) (h.1 ▸ h1)
  | y :: a, z :: a', b, b', h1, h2, h => by
    simp only [List.cons_append, List.cons.injEq] at h
    obtain ⟨e1, e2⟩ := append_sep_inj x a a' b b'
      (fun hm => h1 (List.mem_cons_of_mem _ hm)) (fun hm => h2 (List.mem_cons_of_mem _ hm)) h.2
    exact ⟨by rw [h.1, e1], e2⟩

theorem row_chars_inj :
    ∀ (r1 r2 : List Nat), (∀ cell ∈ r1, cell = 0 ∨ cell = 1) →
      (∀ cell ∈ r2, cell = 0 ∨ cell = 1) →
      r1.map (fun cell => if cell = 1 then '1' else '0') =
        r2.map (fun cell => if cell = 1 then '1' else '0') → r1 = r2
  | [], [], _, _, _ => rfl
  | [], w :: ws, _, _, h => by simp at h
  | v :: vs, [], _, _, h => by simp at h
  | v :: vs, w :: ws, h1, h2, h => by
    simp only [List.map_cons, List.cons.injEq] at h
    have e := row_chars_inj vs ws (fun cell hc => h1 cell (List.mem_cons_of_mem _ hc))
      (fun cell hc => h2 cell (List.mem_cons_of_mem _ hc)) h.2
    have hv := h1 v (List.mem_cons_self _ _)
    have hw := h2 w (List.mem_cons_self _ _)
    have e2 : v = w := by
      rcases hv with hv | hv <;> rcases hw with hw | hw <;> subst hv <;> subst hw <;>
        first | rfl | exact absurd h.1 (by decide)
    rw [e, e2]

/-- The snapshot determines a binary table: `table_to_string` is injective on
tables whose cells are all `0` or `1`. -/
theorem table_to_string_inj_of_binary :
    ∀ (t1 t2 : List (List Nat)), Binary t1 → Binary t2 →
      table_to_string t1 = table_to_string t2 → t1 = t2
  | [], [], _, _, _ => rfl
  | [], row :: t, _, _, h => by
    rw [table_to_string_cons] at h
    simp [table_to_string] at h
  | row :: t, [], _, _, h => by
    rw [table_to_string_cons] at h
    simp [table_to_string] at h
  | r1 :: t1, r2 :: t2, h1, h2, h => by
    rw [table_to_string_cons, table_to_string_cons] at h
    have b1 := h1 r1 (List.mem_cons_self _ _)
    have b2 := h2 r2 (List.mem_cons_self _ _)
    obtain ⟨e1, e2⟩ := append_sep_inj '\n' _ _ _ _ (newline_not_mem_row r1 b1)
      (newline_not_mem_row r2 b2) h
    rw [row_digits_binary r1 b1, row_digits_binary r2 b2] at e1
    have e3 := row_chars_inj r1 r2 b1 b2 e1
    have e4 := table_to_string_inj_of_binary t1 t2
      (fun row hr => h1 row (List.mem_cons_of_mem _ hr))
      (fun row hr => h2 row (List.mem_cons_of_mem _ hr)) e2
    rw [e3, e4]

/-- On a binary table the extinction test of the snapshot holds exactly when
every cell is `0`. -/
theorem all_dead_snapshot_iff (t : List (List Nat)) (hb : Binary t) :
    all_dead (table_to_string t) = true ↔ ∀ row ∈ t, ∀ cell ∈ row, cell = 0 := by
  rw [all_dead_iff]
  induction t with
  | nil => simp [table_to_string]
  | cons row t ih =>
    have b1 := hb row (List.mem_cons_self _ _)
    have ih2 := ih (fun r hr => hb r (List.mem_cons_of_mem _ hr))
    rw [table_to_string_cons, row_digits_binary row b1]
    constructor
    · intro h r hr cell hc
      rcases List.mem_cons.mp hr with hr | hr
      · subst hr
        rcases b1 cell hc with h0 | h1
        · exact h0
        · exfalso
          refine h '1' ?_ rfl
          apply List.mem_append_left
          exact List.mem_map.mpr ⟨cell, hc, by simp [h1]⟩
      · exact (ih2.mp (fun ch hch => h ch
          (List.mem_append_right _ (List.mem_cons_of_mem _ hch)))) r hr cell hc
    · intro h ch hch
      rcases List.mem_append.mp hch with hm | hm
      · obtain ⟨v, hv, e⟩ := List.mem_map.mp hm
        have hv0 := h row (List.mem_cons_self _ _) v hv
        subst hv0
        rw [← e]
        decide
      · rcases List.mem_cons.mp hm with hm | hm
        · rw [hm]
          decide
        · exact ih2.mpr (fun r hr => h r (List.mem_cons_of_mem _ hr)) ch hm

theorem cell_at_getElem (t : List (List Nat)) (r c : Nat) (hr : r < t.length)
    (hc : c < (t[r]).length) : cell_at t r c = some ((t[r])[c]) := by
  unfold cell_at
  rw [List.getElem?_eq_getElem hr]
  simp [List.getElem?_eq_getElem hc]

theorem binary_of_cells {rows cols : Nat} {t : List (List Nat)} (h : Rect rows cols t)
    (hcells : ∀ r c, r < rows → c < cols →
      ∃ b : Bool, cell_at t r c = some (if b then 1 else 0)) : Binary t := by
  intro row hrow cell hcell
  obtain ⟨r, hr, e1⟩ := List.getElem_of_mem hrow
  obtain ⟨c, hc, e2⟩ := List.getElem_of_mem hcell
  subst e1
  have hlen := h.2 _ hrow
  obtain ⟨b, hb⟩ := hcells r c (by rw [← h.1]; exact hr) (by rw [← hlen]; exact hc)
  rw [cell_at_getElem t r c hr hc, e2] at hb
  cases b
  · left; simpa using hb
  · right; simpa using hb

theorem rule_iff (v n : Nat) :
    rule v n = true ↔ (v = 1 ∧ (n = 2 ∨ n = 3)) ∨ (v ≠ 1 ∧ n = 3) := by
  unfold rule
  by_cases h1 : v = 1 <;> by_cases h2 : n = 2 <;> by_cases h3 : n = 3 <;> simp [h1, h2, h3]

/-! ## The controller -/

theorem read_file_fields (file : GridFile) (s s1 : LifeCfg)
    (h : read_file file s = Except.ok s1) :
    s1.m_ending = s.m_ending ∧ s1.m_stop = s.m_stop ∧ s1.m_state = s.m_state := by
  unfold read_file at h
  split at h
  · cases h
  · split at h
    · cases h
    · cases h
    · simp only [] at h
      split at h
      · cases h
      · split at h
        · cases h
        · cases h
          exact ⟨rfl, rfl, rfl⟩

theorem update_inv (file : GridFile) (s s' : LifeCfg) (h : update file s = Except.ok s')
    (hinv : cause_set_inv s) : cause_set_inv s' := by
  unfold update at h
  split at h
  · next hst =>
    split at h
    · cases h
    · next s1 hrf =>
      cases h
      obtain ⟨e1, e2, e3⟩ := read_file_fields file s s1 hrf
      intro hc
      exact absurd hst (hinv (by rw [← e1]; exact hc)).2
  · next hst =>
    split at h
    · next hstop =>
      cases h
      intro _
      exact ⟨hstop, by simp⟩
    · next hstop =>
      split at h
      · cases h
      · next s1 hug =>
        cases h
        obtain ⟨-, -, -, -, -, e6, -, e8, e9⟩ := update_gen_fields s s' hug
        intro hc
        refine ⟨?_, by rw [e6, hst]; simp⟩
        have hund : s.m_ending = ending_e.UNDEFINED := by
          by_contra hne
          exact hstop (hinv hne).1
        rw [e8]
        rw [e9, hund] at hc
        by_cases c3 : all_dead (table_to_string s.m_table) = true
        · simp [c3]
        · by_cases c2 : (s.m_n_gen + 1) % 4294967296 = s.m_maxgen
          · simp [c2]
          · by_cases c1 : compare s.m_old_tables (table_to_string s.m_table) = true
            · simp [c1]
            · simp [c1, c2, c3] at hc
  · next hst =>
    cases h
    intro hc
    exact ⟨(hinv hc).1, by simp [hst]⟩
  · cases h
    exact hinv

theorem update_of_cause_set (file : GridFile) (s : LifeCfg)
    (hc : s.m_ending ≠ ending_e.UNDEFINED) (hinv : cause_set_inv s) :
    ∃ s', update file s = Except.ok s' ∧ s'.m_ending = s.m_ending := by
  obtain ⟨hstop, hst⟩ := hinv hc
  unfold update
  split
  · next h => exact absurd h hst
  · rw [if_pos hstop]
    exact ⟨_, rfl, rfl⟩
  · exact ⟨_, rfl, rfl⟩
  · exact ⟨_, rfl, rfl⟩

theorem updates_inv (file : GridFile) :
    ∀ (n : Nat) (s0 s : LifeCfg), cause_set_inv s0 → updates file n s0 = Except.ok s →
      cause_set_inv s
  | 0, s0, s, hinv, h => by
    cases h
    exact hinv
  | n + 1, s0, s, hinv, h => by
    unfold updates at h
    split at h
    · cases h
    · next s1 hu => exact updates_inv file n s1 s (update_inv file s0 s1 hu hinv) h

theorem updates_of_cause_set (file : GridFile) :
    ∀ (k : Nat) (s : LifeCfg), s.m_ending ≠ ending_e.UNDEFINED → cause_set_inv s →
      ∃ s', updates file k s = Except.ok s' ∧ s'.m_ending = s.m_ending
  | 0, s, _, _ => ⟨s, rfl, rfl⟩
  | k + 1, s, hc, hinv => by
    obtain ⟨s1, h1, e1⟩ := update_of_cause_set file s hc hinv
    obtain ⟨s2, h2, e2⟩ := updates_of_cause_set file k s1 (by rw [e1]; exact hc)
      (update_inv file s s1 h1 hinv)
    refine ⟨s2, ?_, by rw [e2, e1]⟩
    unfold updates
    rw [h1]
    exact h2

/-- One call of `update_gen` on a rectangular grid returns a state with the
same dimensions and a rectangular, binary grid. -/
theorem update_gen_rect_binary (s : LifeCfg) (h : Rect s.m_rows s.m_cols s.m_table) :
    ∃ s', update_gen s = some s' ∧ s'.m_rows = s.m_rows ∧ s'.m_cols = s.m_cols ∧
      Rect s'.m_rows s'.m_cols s'.m_table ∧ Binary s'.m_table := by
  obtain ⟨s', h1, -, -, hrows, hcols, -, -, -, hrect, hcells, -⟩ := update_gen_spec s h
  refine ⟨s', h1, hrows, hcols, by rw [hrows, hcols]; exact hrect, ?_⟩
  refine binary_of_cells hrect (fun r c hr hc => ?_)
  obtain ⟨b, hb⟩ := written_cell_binary h hr hc
  exact ⟨b, by rw [hcells r c hr hc, hb]⟩

/-! ## Runs of `update_gen` -/

theorem update_gens_succ :
    ∀ (k : Nat) (s : LifeCfg), update_gens (k + 1) s = (update_gens k s).bind update_gen
  | 0, s => by
    simp [update_gens]
  | k + 1, s => by
    rw [update_gens, update_gens]
    cases h : update_gen s with
    | none => rfl
    | some s1 =>
      simp only [Option.some_bind]
      exact update_gens_succ k s1

theorem update_gens_add (j : Nat) :
    ∀ (m : Nat) (s : LifeCfg), update_gens (j + m) s = (update_gens j s).bind (update_gens m)
  | 0, s => by
    cases h : update_gens j s <;> simp [update_gens, h]
  | m + 1, s => by
    rw [← Nat.add_assoc, update_gens_succ, update_gens_add j m s]
    cases h : update_gens j s with
    | none => rfl
    | some sj =>
      simp only [Option.some_bind]
      rw [update_gens_succ]

/-- The run of `update_gen` from a state whose grid is rectangular: every
step returns, the dimensions and the shape are kept, a binary grid stays
binary, and each step appends the snapshot of the grid it was called on. -/
theorem update_gens_spec (s0 : LifeCfg) (h : Rect s0.m_rows s0.m_cols s0.m_table) :
    ∀ k : Nat, ∃ sk, update_gens k s0 = some sk ∧
      sk.m_rows = s0.m_rows ∧ sk.m_cols = s0.m_cols ∧
      Rect s0.m_rows s0.m_cols sk.m_table ∧
      (Binary s0.m_table → Binary sk.m_table) ∧
      (s0.m_n_gen < 4294967296 → sk.m_n_gen = (s0.m_n_gen + k) % 4294967296) ∧
      sk.m_old_tables.length = s0.m_old_tables.length + k ∧
      s0.m_old_tables <+: sk.m_old_tables ∧
      (∀ i, i < k → ∃ si, update_gens i s0 = some si ∧
        sk.m_old_tables[s0.m_old_tables.length + i]? = some (table_to_string si.m_table))
  | 0 => ⟨s0, rfl, rfl, rfl, h, id, fun hlt => (Nat.mod_eq_of_lt hlt).symm, rfl,
      List.prefix_refl _,
      fun i hi => absurd hi (Nat.not_lt_zero i)⟩
  | k + 1 => by
    obtain ⟨sk, h1, hrows, hcols, hrect, hbin, hgen, hlen, hpre, hent⟩ :=
      update_gens_spec s0 h k
    have hrect2 : Rect sk.m_rows sk.m_cols sk.m_table := by rw [hrows, hcols]; exact hrect
    obtain ⟨s', k1, krows, kcols, krect, kbin⟩ := update_gen_rect_binary sk hrect2
    obtain ⟨e1, e2, -⟩ := update_gen_fields sk s' k1
    refine ⟨s', ?_, by rw [krows, hrows], by rw [kcols, hcols], ?_, fun _ => kbin, ?_, ?_, ?_,
      ?_⟩
    · rw [update_gens_succ, h1]
      exact k1
    · rw [← hrows, ← hcols, ← krows, ← kcols]
      exact krect
    · intro hlt
      rw [e1, hgen hlt]
      omega
    · rw [e2, List.length_append, hlen]
      rfl
    · rw [e2]
      exact hpre.trans (List.prefix_append _ _)
    · intro i hi
      rw [e2]
      by_cases hik : i < k
      · obtain ⟨si, hsi, hget⟩ := hent i hik
        refine ⟨si, hsi, ?_⟩
        rw [List.getElem?_append_left (by omega)]
        exact hget
      · have hik2 : i = k := by omega
        subst hik2
        refine ⟨sk, h1, ?_⟩
        rw [List.getElem?_append_right (by omega)]
        simp [hlen]

theorem update_gens_prefix (s0 : LifeCfg) (h : Rect s0.m_rows s0.m_cols s0.m_table)
    (j k : Nat) (hjk : j ≤ k) (sk : LifeCfg) (hk : update_gens k s0 = some sk) :
    ∃ sj, update_gens j s0 = some sj ∧ sj.m_old_tables <+: sk.m_old_tables := by
  obtain ⟨sj, h1, hrows, hcols, hrect, -⟩ := update_gens_spec s0 h j
  refine ⟨sj, h1, ?_⟩
  have hrect2 : Rect sj.m_rows sj.m_cols sj.m_table := by rw [hrows, hcols]; exact hrect
  obtain ⟨sm, m1, -, -, -, -, -, -, mpre, -⟩ := update_gens_spec sj hrect2 (k - j)
  have e : update_gens k s0 = some sm := by
    have hkj : k = j + (k - j) := by omega
    rw [hkj, update_gens_add, h1]
    exact m1
  rw [hk] at e
  cases e
  exact mpre

/-- In the run of `update_gen` from a binary grid with an empty history, the
stability test of a step holds exactly when the grid it is called on equals
the grid of an earlier step. -/
theorem compare_iff_earlier_grid (s0 : LifeCfg) (h : Rect s0.m_rows s0.m_cols s0.m_table)
    (hb : Binary s0.m_table) (hhist : s0.m_old_tables = []) (k : Nat) :
    ∃ sk, update_gens k s0 = some sk ∧
      (compare sk.m_old_tables (table_to_string sk.m_table) = true ↔
        ∃ i, i < k ∧ (update_gens i s0).map LifeCfg.m_table = some sk.m_table) := by
  obtain ⟨sk, h1, -, -, -, hbin, -, hlen, -, hent⟩ := update_gens_spec s0 h k
  rw [hhist, List.length_nil, Nat.zero_add] at hlen
  refine ⟨sk, h1, ?_⟩
  rw [compare_iff_mem]
  constructor
  · intro hmem
    obtain ⟨i, hi, hget⟩ := List.getElem_of_mem hmem
    rw [hlen] at hi
    obtain ⟨si, hsi, hgi⟩ := hent i hi
    rw [hhist, List.length_nil, Nat.zero_add, List.getElem?_eq_getElem (by omega), hget] at hgi
    obtain ⟨si', hsi', -, -, -, hbini, -⟩ := update_gens_spec s0 h i
    rw [hsi] at hsi'
    cases hsi'
    have e := table_to_string_inj_of_binary _ _ (hbin hb) (hbini hb) (Option.some.inj hgi)
    exact ⟨i, hi, by rw [hsi, Option.map_some', e]⟩
  · rintro ⟨i, hi, hgi⟩
    obtain ⟨si, hsi, hget⟩ := hent i hi
    rw [hsi, Option.map_some'] at hgi
    rw [hhist, List.length_nil, Nat.zero_add, Option.some.inj hgi] at hget
    exact List.getElem?_mem hget

/-! ## Loading -/

theorem set_cell_keeps (rows cols : Nat) {u u' : List (List Nat)} {i j v : Nat}
    (h : set_cell u i j v = some u') (hv : v = 0 ∨ v = 1) :
    (Rect rows cols u → Rect rows cols u') ∧ (Binary u → Binary u') := by
  unfold set_cell at h
  cases hrow : u[i]? with
  | none => simp [hrow] at h
  | some row =>
    rw [hrow, Option.some_bind] at h
    split at h
    · cases h
      have hmem : row ∈ u := List.getElem?_mem hrow
      constructor
      · rintro ⟨hlen, hrows⟩
        refine ⟨by simp [hlen], fun r hr => ?_⟩
        rcases List.mem_or_eq_of_mem_set hr with h1 | h1
        · exact hrows r h1
        · rw [h1, List.length_set]
          exact hrows row hmem
      · intro hb r hr cell hcell
        rcases List.mem_or_eq_of_mem_set hr with h1 | h1
        · exact hb r h1 cell hcell
        · rw [h1] at hcell
          rcases List.mem_or_eq_of_mem_set hcell with h2 | h2
          · exact hb row hmem cell h2
          · rw [h2]
            exact hv
    · cases h

theorem read_row_loop_keeps (rows cols : Nat) (str : List Char) (alive : Char) (i : Nat) :
    ∀ (n : Nat) (t t' : List (List Nat)), read_row_loop str alive i n t = some t' →
      (Rect rows cols t → Rect rows cols t') ∧ (Binary t → Binary t')
  | 0, t, t', h => by
    cases h
    exact ⟨id, id⟩
  | n + 1, t, t', h => by
    unfold read_row_loop at h
    cases h1 : read_row_loop str alive i n t with
    | none => simp [h1] at h
    | some t1 =>
      rw [h1, Option.some_bind] at h
      cases h2 : line_char str n with
      | none => simp [h2] at h
      | some ch =>
        rw [h2, Option.some_bind] at h
        obtain ⟨a1, a2⟩ := read_row_loop_keeps rows cols str alive i n t t1 h1
        obtain ⟨b1, b2⟩ := set_cell_keeps rows cols h
          (by by_cases hc : ch = alive <;> simp [hc])
        exact ⟨fun hr => b1 (a1 hr), fun hb => b2 (a2 hb)⟩

theorem read_lines_loop_keeps (rows cols : Nat) (m_cols m_rows : Nat) (alive : Char) :
    ∀ (body : List (List Char)) (i : Nat) (t t' : List (List Nat)),
      read_lines_loop m_cols m_rows alive body i t = some t' →
      (Rect rows cols t → Rect rows cols t') ∧ (Binary t → Binary t')
  | [], i, t, t', h => by
    cases h
    exact ⟨id, id⟩
  | str :: rest, i, t, t', h => by
    unfold read_lines_loop at h
    cases h1 : read_row_loop str alive i m_cols t with
    | none => simp [h1] at h
    | some t1 =>
      rw [h1, Option.some_bind] at h
      obtain ⟨a1, a2⟩ :=
        read_row_loop_keeps rows cols str alive i m_cols t t1 h1
      split at h
      · cases h
        exact ⟨a1, a2⟩
      · obtain ⟨b1, b2⟩ := read_lines_loop_keeps rows cols m_cols m_rows
          alive rest (i + 1) t1 t' h
        exact ⟨fun hr => b1 (a1 hr), fun hb => b2 (a2 hb)⟩

theorem resize_table_nil (rows cols : Nat) :
    Rect rows cols (resize_table [] rows cols) ∧ Binary (resize_table [] rows cols) := by
  unfold resize_table
  simp only [List.take_nil, List.nil_append, List.length_nil, Nat.sub_zero]
  refine ⟨⟨List.length_replicate _ _, fun row hrow => ?_⟩, fun row hrow cell hcell => ?_⟩
  · rw [List.eq_of_mem_replicate hrow, List.length_replicate]
  · rw [List.eq_of_mem_replicate hrow] at hcell
    exact Or.inl (List.eq_of_mem_replicate hcell)

/-- What a load that returns has done: the dimensions are the header values
taken as `unsigned int`, both at least 3, the table is rectangular with these
dimensions and binary, and no other field of the state has changed. -/
theorem read_file_spec (file : GridFile) (s s1 : LifeCfg) (hs : s.m_table = [])
    (h : read_file file s = Except.ok s1) :
    ∃ r c rest, file.header = r :: c :: rest ∧
      s1.m_rows = (r % 4294967296).toNat ∧ s1.m_cols = (c % 4294967296).toNat ∧
      3 ≤ s1.m_rows ∧ 3 ≤ s1.m_cols ∧
      Rect s1.m_rows s1.m_cols s1.m_table ∧ Binary s1.m_table ∧
      s1.m_n_gen = s.m_n_gen ∧ s1.m_maxgen = s.m_maxgen ∧ s1.m_stop = s.m_stop ∧
      s1.m_ending = s.m_ending ∧ s1.m_state = s.m_state ∧ s1.m_exit = s.m_exit ∧
      s1.m_old_tables = s.m_old_tables := by
  unfold read_file at h
  split at h
  · cases h
  · split at h
    · cases h
    · cases h
    · next r c rest hhead =>
      simp only [] at h
      split at h
      · cases h
      · next hsmall =>
        split at h
        · cases h
        · next t hloop =>
          cases h
          rw [hs] at hloop
          obtain ⟨a1, a2⟩ := read_lines_loop_keeps
            (r % 4294967296).toNat (c % 4294967296).toNat _ _ _ _ _ _ _ hloop
          obtain ⟨b1, b2⟩ := resize_table_nil (r % 4294967296).toNat (c % 4294967296).toNat
          exact ⟨r, c, rest, hhead, rfl, rfl, by simp only []; omega, by simp only []; omega,
            a1 b1, a2 b2, rfl, rfl, rfl, rfl, rfl, rfl, rfl⟩

/-- A header that declares non-negative dimensions of which one is below 3 is
rejected: the load ends with `EXIT_FAILURE`. -/
theorem read_file_rejects_small (file : GridFile) (s : LifeCfg) (r c : Int)
    (rest : List Int) (hhead : file.header = r :: c :: rest) (hr : 0 ≤ r) (hc : 0 ≤ c)
    (hsmall : r < 3 ∨ c < 3) : read_file file s = Except.error Halt.EXIT_FAILURE := by
  unfold read_file
  split
  · rfl
  · rw [hhead]
    simp only []
    rw [if_pos (by omega)]

/-! ## The flags along a run of `update_gen` -/

theorem update_gens_maxgen :
    ∀ (k : Nat) (s0 sk : LifeCfg), update_gens k s0 = some sk → sk.m_maxgen = s0.m_maxgen
  | 0, s0, sk, h => by
    cases h
    rfl
  | k + 1, s0, sk, h => by
    rw [update_gens_succ] at h
    cases h1 : update_gens k s0 with
    | none => simp [h1] at h
    | some s1 =>
      rw [h1, Option.some_bind] at h
      rw [(update_gen_fields s1 sk h).2.2.2.2.1, update_gens_maxgen k s0 s1 h1]

theorem all_dead_iff_not_has_alive (t : List (List Nat)) (hb : Binary t) :
    all_dead (table_to_string t) = true ↔ ¬ has_alive t := by
  rw [all_dead_snapshot_iff t hb]
  constructor
  · rintro h ⟨row, hrow, hone⟩
    have := h row hrow 1 hone
    omega
  · intro h row hrow cell hcell
    rcases hb row hrow cell hcell with h0 | h1
    · exact h0
    · exact absurd ⟨row, hrow, h1 ▸ hcell⟩ h

/-- One advance step inside a run from a binary grid with an empty history:
the state before it, the state after it, and the three tests of the step in
terms of the generations of the run. -/
theorem update_gens_step (s0 : LifeCfg) (h : Rect s0.m_rows s0.m_cols s0.m_table)
    (hb : Binary s0.m_table) (hhist : s0.m_old_tables = []) (hgen : s0.m_n_gen = 1)
    (k : Nat) (hk : k + 2 < 4294967296) :
    ∃ sk sk1, update_gens k s0 = some sk ∧ update_gens (k + 1) s0 = some sk1 ∧
      generation s0 (k + 1) = some sk.m_table ∧ Binary sk.m_table ∧
      sk1.m_n_gen = k + 2 ∧
      sk1.m_stop = (sk.m_stop || compare sk.m_old_tables (table_to_string sk.m_table)
        || decide (k + 2 = s0.m_maxgen) || all_dead (table_to_string sk.m_table)) ∧
      sk1.m_ending =
        (if all_dead (table_to_string sk.m_table) = true then ending_e.EXTINCTION
        else if k + 2 = s0.m_maxgen then ending_e.MAXGEN
        else if compare sk.m_old_tables (table_to_string sk.m_table) = true
          then ending_e.STABILITY
        else sk.m_ending) ∧
      (compare sk.m_old_tables (table_to_string sk.m_table) = true ↔
        ∃ j, 1 ≤ j ∧ j ≤ k ∧ generation s0 j = some sk.m_table) ∧
      (all_dead (table_to_string sk.m_table) = true ↔ ¬ has_alive sk.m_table) := by
  obtain ⟨sk, h1, hiff⟩ := compare_iff_earlier_grid s0 h hb hhist k
  obtain ⟨sk', h1', hrows, hcols, hrect, hbin, hn, -⟩ := update_gens_spec s0 h k
  rw [h1] at h1'
  cases h1'
  have hrect2 : Rect sk.m_rows sk.m_cols sk.m_table := by rw [hrows, hcols]; exact hrect
  obtain ⟨sk1, k1, e1, -, -, -, -, -, -, -, -, e10, e11⟩ := update_gen_spec sk hrect2
  have hmax := update_gens_maxgen k s0 sk h1
  have hnk : sk.m_n_gen = k + 1 := by
    rw [hn (by rw [hgen]; decide), hgen, Nat.add_comm 1 k]
    exact Nat.mod_eq_of_lt (by omega)
  have hcount : (sk.m_n_gen + 1) % 4294967296 = k + 2 := by
    rw [hnk]
    exact Nat.mod_eq_of_lt hk
  rw [hcount, hmax] at e10 e11
  refine ⟨sk, sk1, h1, by rw [update_gens_succ, h1]; exact k1, by simp [generation, h1],
    hbin hb, by rw [e1, hcount], e10, e11, ?_, all_dead_iff_not_has_alive _ (hbin hb)⟩
  rw [hiff]
  constructor
  · rintro ⟨i, hi, hgi⟩
    exact ⟨i + 1, by omega, by omega, hgi⟩
  · rintro ⟨j, hj1, hjk, hgj⟩
    obtain ⟨i, rfl⟩ : ∃ i, j = i + 1 := ⟨j - 1, by omega⟩
    exact ⟨i, by omega, hgj⟩

/-- While the generations of a run are pairwise different, have an alive cell
and leave the counter below the maximum, the stop flag stays clear and the
cause stays UNDEFINED. -/
theorem quiet_run (s0 : LifeCfg) (h : Rect s0.m_rows s0.m_cols s0.m_table)
    (hb : Binary s0.m_table) (hhist : s0.m_old_tables = []) (hgen : s0.m_n_gen = 1)
    (hstop : s0.m_stop = false) (hend : s0.m_ending = ending_e.UNDEFINED) (N : Nat)
    (hN : N + 2 < 4294967296) (hmax : ∀ k, k < N → k + 2 ≠ s0.m_maxgen)
    (hdist : ∀ j k, 1 ≤ j → j < k → k ≤ N → generation s0 j ≠ generation s0 k)
    (halive : ∀ k, 1 ≤ k → k ≤ N → ∃ g, generation s0 k = some g ∧ has_alive g) :
    ∀ k, k ≤ N → ∃ s, update_gens k s0 = some s ∧ s.m_stop = false ∧
      s.m_ending = ending_e.UNDEFINED ∧ s.m_n_gen = k + 1
  | 0, _ => ⟨s0, rfl, hstop, hend, by rw [hgen]⟩
  | k + 1, hk => by
    obtain ⟨s, h1, hs, he, -⟩ :=
      quiet_run s0 h hb hhist hgen hstop hend N hN hmax hdist halive k (by omega)
    obtain ⟨sk, sk1, k1, k2, kgen, -, kn, kstop, kend, kcmp, kdead⟩ :=
      update_gens_step s0 h hb hhist hgen k (by omega)
    rw [h1] at k1
    cases k1
    have c1 : ¬ compare s.m_old_tables (table_to_string s.m_table) = true := by
      intro hc
      obtain ⟨j, hj1, hjk, hgj⟩ := kcmp.mp hc
      exact hdist j (k + 1) hj1 (by omega) hk (by rw [hgj, kgen])
    have c2 : ¬ k + 2 = s0.m_maxgen := hmax k (by omega)
    have c3 : ¬ all_dead (table_to_string s.m_table) = true := by
      intro hd
      obtain ⟨g, hg, hga⟩ := halive (k + 1) (by omega) hk
      rw [kgen] at hg
      cases hg
      exact kdead.mp hd hga
    refine ⟨sk1, k2, ?_, ?_, kn⟩
    · rw [kstop, hs]
      simp [c1, c2, c3]
    · rw [kend, he]
      simp [c1, c2, c3]

/-! ## The run of the controller after a load that succeeds -/

theorem updates_succ (file : GridFile) :
    ∀ (n : Nat) (s0 s : LifeCfg), updates file n s0 = Except.ok s →
      updates file (n + 1) s0 = update file s
  | 0, s0, s, h => by
    cases h
    unfold updates
    cases hu : update file s0 with
    | error e => rfl
    | ok s1 => rfl
  | n + 1, s0, s, h => by
    unfold updates at h
    split at h
    · cases h
    · next s1 hu =>
      have ih := updates_succ file n s1 s h
      rw [updates, hu]
      exact ih

/-- The run of the controller with a maximum `M` between 2 and `2^32 - 1` on a
file whose load succeeds: every update call returns, the generation counter
never exceeds `M`, the stop flag is set as soon as the counter is `M`, and
after `n >= 1` calls the controller is in END or in RUNNING with the counter
at `n`. -/
theorem controller_run (file : GridFile) (M : Nat) (hM2 : 2 ≤ M) (hM : M < 4294967296)
    (s1 : LifeCfg) (hload : read_file file (start M LifeCfg.init) = Except.ok s1) :
    ∀ n, 1 ≤ n → ∃ s, updates file n (start M LifeCfg.init) = Except.ok s ∧
      s.m_maxgen = M ∧ Rect s.m_rows s.m_cols s.m_table ∧ s.m_n_gen ≤ M ∧
      (s.m_n_gen = M → s.m_stop = true) ∧
      (s.m_state = state_e.END ∨ (s.m_state = state_e.RUNNING ∧ s.m_n_gen = n))
  | 0, h0 => absurd h0 (by decide)
  | 1, _ => by
    obtain ⟨r, c, rest, -, -, -, -, -, hrect, -, hgen, hmax, hstop, -⟩ :=
      read_file_spec file (start M LifeCfg.init) s1 rfl hload
    have hg1 : s1.m_n_gen = 1 := by rw [hgen]; rfl
    refine ⟨{ s1 with m_state := state_e.RUNNING }, ?_, by rw [hmax]; rfl, hrect, ?_, ?_,
      Or.inr ⟨rfl, hg1⟩⟩
    · simp [updates, update, start, LifeCfg.init] at hload ⊢
      simp [hload]
    · show s1.m_n_gen ≤ M
      omega
    · intro he
      have : s1.m_n_gen = M := he
      omega
  | n + 2, _ => by
    obtain ⟨s, hrun, hmax, hrect, hle, hstop, hpos⟩ :=
      controller_run file M hM2 hM s1 hload (n + 1) (by omega)
    rw [updates_succ file (n + 1) _ s hrun]
    rcases hpos with hend | ⟨hrunning, hcount⟩
    · exact ⟨{ s with m_exit := true }, by simp [update, hend], hmax, hrect, hle, hstop,
        Or.inl hend⟩
    · by_cases hs : s.m_stop = true
      · exact ⟨{ s with m_state := state_e.END }, by simp [update, hrunning, hs], hmax,
          hrect, hle, hstop, Or.inl rfl⟩
      · obtain ⟨s', k1, e1, -, e3, e4, e5, e6, -, krect, -, e10, -⟩ := update_gen_spec s hrect
        have hlt : s.m_n_gen < M := by
          rcases Nat.lt_or_ge s.m_n_gen M with h1 | h1
          · exact h1
          · exact absurd (hstop (by omega)) hs
        have hn' : s'.m_n_gen = s.m_n_gen + 1 := by
          rw [e1]
          exact Nat.mod_eq_of_lt (by omega)
        refine ⟨s', by simp [update, hrunning, hs, k1], by rw [e5, hmax],
          by rw [e3, e4]; exact krect, by omega, ?_, Or.inr ⟨by rw [e6, hrunning], by omega⟩⟩
        intro he
        rw [e10]
        have : (s.m_n_gen + 1) % 4294967296 = s.m_maxgen := by
          rw [← e1, he, hmax]
        simp [this]

/-- With a maximum `M` between 2 and `2^32 - 1` and a load that succeeds, the
controller is in END after `M + 1` update calls, and after any larger number
of calls. -/
theorem controller_ends_by_maximum (file : GridFile) (M : Nat) (hM2 : 2 ≤ M)
    (hM : M < 4294967296) (s1 : LifeCfg)
    (hload : read_file file (start M LifeCfg.init) = Except.ok s1) (n : Nat)
    (hn : M + 1 ≤ n) :
    ∃ s, updates file n (start M LifeCfg.init) = Except.ok s ∧ s.m_state = state_e.END ∧
      s.m_n_gen ≤ M := by
  obtain ⟨s, hrun, -, -, hle, -, hpos⟩ := controller_run file M hM2 hM s1 hload n (by omega)
  refine ⟨s, hrun, ?_, hle⟩
  rcases hpos with hend | ⟨-, hcount⟩
  · exact hend
  · omega

/-! ## The pixel buffer -/

theorem set_pixel_bytes_length (px : List Nat) (idx : Nat) (c : Color) :
    (set_pixel_bytes px idx c).length = px.length := by
  simp [set_pixel_bytes]

theorem write_pixel_eq (px : List Nat) (idx : Nat) (c : Color) :
    write_pixel px idx c =
      if idx + 3 < px.length then some (set_pixel_bytes px idx c) else none := by
  unfold write_pixel write_byte
  by_cases h : idx + 3 < px.length
  · have h0 : idx < px.length := by omega
    have h1 : idx + 1 < px.length := by omega
    have h2 : idx + 2 < px.length := by omega
    simp [h, h0, h1, h2, set_pixel_bytes]
  · rw [if_neg h]
    by_cases h0 : idx < px.length
    · by_cases h1 : idx + 1 < px.length
      · by_cases h2 : idx + 2 < px.length
        · simp [h0, h1, h2, h]
        · simp [h0, h1, h2]
      · simp [h0, h1]
    · simp [h0]

theorem getElem?_set_pixel_bytes (px : List Nat) (idx : Nat) (c : Color)
    (h : idx + 3 < px.length) (k : Nat) :
    (set_pixel_bytes px idx c)[k]? =
      if k = idx then some c.r
      else if k = idx + 1 then some c.g
      else if k = idx + 2 then some c.b
      else if k = idx + 3 then some 255
      else px[k]? := by
  unfold set_pixel_bytes
  simp only [List.getElem?_set, List.length_set]
  by_cases k0 : k = idx
  · subst k0
    simp [show k < px.length by omega]
  · by_cases k1 : k = idx + 1
    · subst k1
      simp [show idx + 1 < px.length by omega]
    · by_cases k2 : k = idx + 2
      · subst k2
        simp [show idx + 2 < px.length by omega]
      · by_cases k3 : k = idx + 3
        · subst k3
          simp [h]
        · simp [k0, k1, k2, k3, Ne.symm k0, Ne.symm k1, Ne.symm k2, Ne.symm k3]

theorem getElem?_set_pixel_bytes_outside (px : List Nat) (idx : Nat) (c : Color)
    (h : idx + 3 < px.length) (k : Nat) (hk : k < idx ∨ idx + 3 < k) :
    (set_pixel_bytes px idx c)[k]? = px[k]? := by
  rw [getElem?_set_pixel_bytes px idx c h k]
  have n0 : ¬ k = idx := by omega
  have n1 : ¬ k = idx + 1 := by omega
  have n2 : ¬ k = idx + 2 := by omega
  have n3 : ¬ k = idx + 3 := by omega
  simp only [n0, n1, n2, n3, if_false]

theorem alphaOpaque_set_pixel_bytes (px : List Nat) (idx : Nat) (c : Color)
    (h : idx + 3 < px.length) (h4 : idx % 4 = 0) (ha : AlphaOpaque px) :
    AlphaOpaque (set_pixel_bytes px idx c) := by
  intro i hi hi3
  rw [set_pixel_bytes_length] at hi
  rw [getElem?_set_pixel_bytes px idx c h i]
  by_cases k3 : i = idx + 3
  · rw [if_neg (by omega), if_neg (by omega), if_neg (by omega), if_pos k3]
  · rw [if_neg (by omega), if_neg (by omega), if_neg (by omega), if_neg k3]
    exact ha i hi hi3

theorem clear_loop_spec (c : Color) (px : List Nat) (h4 : px.length % 4 = 0) :
    ∀ n, 4 * n ≤ px.length →
      ∃ px', clear_loop c n px = some px' ∧ px'.length = px.length ∧
        ∀ k, px'[k]? =
          if k < 4 * n then
            some (if k % 4 = 0 then c.r else if k % 4 = 1 then c.g
              else if k % 4 = 2 then c.b else 255)
          else px[k]?
  | 0, _ => ⟨px, rfl, rfl, fun k => by simp⟩
  | n + 1, hn => by
    obtain ⟨p1, h1, hlen, hget⟩ := clear_loop_spec c px h4 n (by omega)
    have hidx : 4 * n + 3 < p1.length := by omega
    refine ⟨set_pixel_bytes p1 (4 * n) c, ?_, ?_, ?_⟩
    · simp [clear_loop, h1, write_pixel_eq, hidx]
    · rw [set_pixel_bytes_length, hlen]
    · intro k
      rw [getElem?_set_pixel_bytes p1 (4 * n) c hidx k, hget k]
      by_cases k0 : k = 4 * n
      · rw [if_pos k0, if_pos (by omega), if_pos (by omega)]
      · rw [if_neg k0]
        by_cases k1 : k = 4 * n + 1
        · rw [if_pos k1, if_pos (by omega), if_neg (by omega), if_pos (by omega)]
        · rw [if_neg k1]
          by_cases k2 : k = 4 * n + 2
          · rw [if_pos k2, if_pos (by omega), if_neg (by omega), if_neg (by omega),
              if_pos (by omega)]
          · rw [if_neg k2]
            by_cases k3 : k = 4 * n + 3
            · rw [if_pos k3, if_pos (by omega), if_neg (by omega), if_neg (by omega),
                if_neg (by omega)]
            · rw [if_neg k3]
              by_cases hk : k < 4 * n
              · rw [if_pos hk, if_pos (show k < 4 * (n + 1) by omega)]
              · rw [if_neg hk, if_neg (show ¬ k < 4 * (n + 1) by omega)]

/-- On a buffer whose length is a multiple of 4, `clear` returns, keeps the
dimensions and the length, and leaves every alpha byte at `255`. -/
theorem Canvas.clear_spec (cv : Canvas) (c : Color) (h4 : cv.m_pixels.length % 4 = 0) :
    ∃ cv', cv.clear c = some cv' ∧ cv'.m_width = cv.m_width ∧ cv'.m_height = cv.m_height ∧
      cv'.m_block_size = cv.m_block_size ∧ cv'.m_pixels.length = cv.m_pixels.length ∧
      AlphaOpaque cv'.m_pixels := by
  have hn : (cv.m_pixels.length + 3) / 4 = cv.m_pixels.length / 4 := by omega
  obtain ⟨px', h1, hlen, hget⟩ :=
    clear_loop_spec c cv.m_pixels h4 (cv.m_pixels.length / 4) (by omega)
  refine ⟨{ cv with m_pixels := px' }, ?_, rfl, rfl, rfl, hlen, ?_⟩
  · simp [Canvas.clear, hn, h1]
  · intro i hi hi3
    show px'[i]? = some 255
    rw [hlen] at hi
    rw [hget i, if_pos (by omega), if_neg (by omega), if_neg (by omega), if_neg (by omega)]

/-- The constructor returns a canvas with the requested dimensions, a buffer
of `w * h * 4` bytes (as a `size_t` product) and every alpha byte at `255`. -/
theorem Canvas.new_spec (w h : Nat) (bs : Int) :
    ∃ cv, Canvas.new w h bs = some cv ∧ cv.m_width = w ∧ cv.m_height = h ∧
      cv.m_block_size = bs ∧
      cv.m_pixels.length = (w * h * 4) % 18446744073709551616 ∧
      AlphaOpaque cv.m_pixels := by
  obtain ⟨cv, h1, hw, hh, hb, hlen, ha⟩ := Canvas.clear_spec
    { m_width := w, m_height := h, m_block_size := bs,
      m_pixels := List.replicate ((w * h * 4) % 18446744073709551616) 0 } BLACK
    (by simp only [List.length_replicate]; omega)
  refine ⟨cv, h1, hw, hh, hb, ?_, ha⟩
  rw [hlen, List.length_replicate]

/-- Whenever the pixel setter returns, it keeps the dimensions and the length
of the buffer, and every alpha byte that was `255` still is. -/
theorem Canvas.pixel_set_keeps (cv cv' : Canvas) (x y : Nat) (c : Color)
    (h : cv.pixel_set x y c = some cv') :
    cv'.m_width = cv.m_width ∧ cv'.m_height = cv.m_height ∧
      cv'.m_block_size = cv.m_block_size ∧ cv'.m_pixels.length = cv.m_pixels.length ∧
      (AlphaOpaque cv.m_pixels → AlphaOpaque cv'.m_pixels) := by
  unfold Canvas.pixel_set at h
  split at h
  · rw [write_pixel_eq] at h
    split at h
    · next hidx =>
      simp only [Option.map_some', Option.some.injEq] at h
      subst h
      refine ⟨rfl, rfl, rfl, set_pixel_bytes_length _ _ _, fun ha => ?_⟩
      exact alphaOpaque_set_pixel_bytes _ _ c hidx (by omega) ha
    · simp at h
  · cases h
    exact ⟨rfl, rfl, rfl, rfl, id⟩

/-- On a canvas whose buffer holds `width * height * 4` bytes the pixel setter
returns and keeps that invariant. -/
theorem Canvas.pixel_set_total (cv : Canvas) (hwf : CanvasWF cv) (x y : Nat) (c : Color) :
    ∃ cv', cv.pixel_set x y c = some cv' ∧ CanvasWF cv' ∧ cv'.m_width = cv.m_width ∧
      cv'.m_height = cv.m_height := by
  obtain ⟨hlen, hsize⟩ := hwf
  by_cases hin : x < cv.m_width ∧ y < cv.m_height
  · have hlt : y * cv.m_width + x < cv.m_width * cv.m_height := by
      have : (y + 1) * cv.m_width ≤ cv.m_height * cv.m_width :=
        Nat.mul_le_mul_right _ (by omega)
      rw [Nat.mul_comm cv.m_height] at this
      rw [Nat.add_mul] at this
      omega
    have hidx : ((y * cv.m_width + x) * 4) % 18446744073709551616 + 3
        < cv.m_pixels.length := by
      rw [Nat.mod_eq_of_lt (by omega), hlen]
      omega
    generalize hi : ((y * cv.m_width + x) * 4) % 18446744073709551616 = idx at hidx
    refine ⟨{ cv with m_pixels := set_pixel_bytes cv.m_pixels idx c }, ?_, ?_, rfl, rfl⟩
    · simp [Canvas.pixel_set, hin, write_pixel_eq, hi, hidx]
    · exact ⟨by simp [set_pixel_bytes_length, hlen], hsize⟩
  · exact ⟨cv, by simp [Canvas.pixel_set, hin], ⟨hlen, hsize⟩, rfl, rfl⟩

theorem apply_op_keeps (cv cv' : Canvas) (op : CanvasOp) (h : apply_op cv op = some cv')
    (h4 : cv.m_pixels.length % 4 = 0) (ha : AlphaOpaque cv.m_pixels) :
    cv'.m_width = cv.m_width ∧ cv'.m_height = cv.m_height ∧
      cv'.m_pixels.length = cv.m_pixels.length ∧ AlphaOpaque cv'.m_pixels := by
  cases op with
  | clear color =>
    obtain ⟨cv1, h1, hw, hh, -, hlen, ha1⟩ := Canvas.clear_spec cv color h4
    simp only [apply_op, h1, Option.some.injEq] at h
    subst h
    exact ⟨hw, hh, hlen, ha1⟩
  | pixel x y color =>
    obtain ⟨hw, hh, -, hlen, ha1⟩ := Canvas.pixel_set_keeps cv cv' x y color h
    exact ⟨hw, hh, hlen, ha1 ha⟩

theorem apply_ops_keeps :
    ∀ (ops : List CanvasOp) (cv cv' : Canvas), apply_ops cv ops = some cv' →
      cv.m_pixels.length % 4 = 0 → AlphaOpaque cv.m_pixels →
      cv'.m_width = cv.m_width ∧ cv'.m_height = cv.m_height ∧
        cv'.m_pixels.length = cv.m_pixels.length ∧ AlphaOpaque cv'.m_pixels
  | [], cv, cv', h, _, ha => by
    cases h
    exact ⟨rfl, rfl, rfl, ha⟩
  | op :: ops, cv, cv', h, h4, ha => by
    unfold apply_ops at h
    cases h1 : apply_op cv op with
    | none => simp [h1] at h
    | some cv1 =>
      rw [h1, Option.some_bind] at h
      obtain ⟨hw, hh, hlen, ha1⟩ := apply_op_keeps cv cv1 op h1 h4 ha
      obtain ⟨kw, kh, klen, ka⟩ := apply_ops_keeps ops cv1 cv' h (by rw [hlen]; exact h4) ha1
      exact ⟨by rw [kw, hw], by rw [kh, hh], by rw [klen, hlen], ka⟩

theorem apply_ops_total :
    ∀ (ops : List CanvasOp) (cv : Canvas), CanvasWF cv → ∃ cv', apply_ops cv ops = some cv'
  | [], cv, _ => ⟨cv, rfl⟩
  | op :: ops, cv, hwf => by
    have step : ∃ cv1, apply_op cv op = some cv1 ∧ CanvasWF cv1 := by
      cases op with
      | clear color =>
        obtain ⟨cv1, h1, hw, hh, -, hlen, -⟩ :=
          Canvas.clear_spec cv color (by rw [hwf.1]; omega)
        exact ⟨cv1, h1, by rw [CanvasWF, hlen, hw, hh]; exact hwf⟩
      | pixel x y color =>
        obtain ⟨cv1, h1, hwf1, -⟩ := Canvas.pixel_set_total cv hwf x y color
        exact ⟨cv1, h1, hwf1⟩
    obtain ⟨cv1, h1, hwf1⟩ := step
    obtain ⟨cv2, h2⟩ := apply_ops_total ops cv1 hwf1
    exact ⟨cv2, by simp [apply_ops, h1, h2]⟩

/-- The constructor (when `w * h * 4` fits `size_t`), the copy constructor,
the assignment, `clear` and the pixel setter all leave the buffer at
`width * height * 4` bytes. -/
theorem canvas_size_kept :
    (∀ w h bs, w * h * 4 < 18446744073709551616 →
      ∃ cv, Canvas.new w h bs = some cv ∧ CanvasWF cv) ∧
    (∀ cv, CanvasWF cv → CanvasWF (Canvas.copy cv)) ∧
    (∀ target cv, CanvasWF cv → CanvasWF (Canvas.assign target cv)) ∧
    (∀ cv color, CanvasWF cv → ∃ cv', cv.clear color = some cv' ∧ CanvasWF cv') ∧
    (∀ cv x y color, CanvasWF cv → ∃ cv', cv.pixel_set x y color = some cv' ∧ CanvasWF cv') := by
  refine ⟨fun w h bs hsize => ?_, fun cv hwf => hwf, fun target cv hwf => hwf,
    fun cv color hwf => ?_, fun cv x y color hwf => ?_⟩
  · obtain ⟨cv, h0, hw, hh, -, hlen, -⟩ := Canvas.new_spec w h bs
    refine ⟨cv, h0, ?_⟩
    rw [CanvasWF, hw, hh, hlen, Nat.mod_eq_of_lt hsize]
    exact ⟨rfl, hsize⟩
  · obtain ⟨cv', h1, hw, hh, -, hlen, -⟩ := Canvas.clear_spec cv color (by rw [hwf.1]; omega)
    exact ⟨cv', h1, by rw [CanvasWF, hlen, hw, hh]; exact hwf⟩
  · obtain ⟨cv', h1, hwf', -⟩ := Canvas.pixel_set_total cv hwf x y color
    exact ⟨cv', h1, hwf'⟩

/-! ## The rasterizer -/

theorem pixel_offset_inj {w x y x' y' : Nat} (hx : x < w) (hx' : x' < w)
    (h : y * w + x = y' * w + x') : x = x' ∧ y = y' := by
  have e1 : (y * w + x) % w = x := by
    rw [Nat.add_comm, Nat.add_mul_mod_self_right, Nat.mod_eq_of_lt hx]
  have e2 : (y' * w + x') % w = x' := by
    rw [Nat.add_comm, Nat.add_mul_mod_self_right, Nat.mod_eq_of_lt hx']
  have ex : x = x' := by rw [← e1, ← e2, h]
  subst ex
  have hw : 0 < w := by omega
  exact ⟨rfl, Nat.eq_of_mul_eq_mul_right hw (by omega)⟩

theorem pixel_offset_lt {w h x y : Nat} (hx : x < w) (hy : y < h) : y * w + x < w * h := by
  have h1 : (y + 1) * w ≤ h * w := Nat.mul_le_mul_right _ (by omega)
  rw [Nat.mul_comm h, Nat.add_mul] at h1
  omega

/-- On a canvas whose buffer holds `width * height * 4` bytes, a pixel write
inside the canvas returns, keeps the invariant, and changes the pixel read at
the written coordinate only. -/
theorem Canvas.pixel_set_get (cv : Canvas) (hwf : CanvasWF cv) (x y : Nat) (c : Color)
    (hx : x < cv.m_width) (hy : y < cv.m_height) :
    ∃ cv', cv.pixel_set x y c = some cv' ∧ CanvasWF cv' ∧ cv'.m_width = cv.m_width ∧
      cv'.m_height = cv.m_height ∧ cv'.m_block_size = cv.m_block_size ∧
      ∀ x' y', x' < cv.m_width → y' < cv.m_height →
        cv'.pixel_get x' y' = if x' = x ∧ y' = y then some c else cv.pixel_get x' y' := by
  obtain ⟨hlen, hsize⟩ := hwf
  have hlt := pixel_offset_lt hx hy
  have hmod : ((y * cv.m_width + x) * 4) % 18446744073709551616 = (y * cv.m_width + x) * 4 :=
    Nat.mod_eq_of_lt (by omega)
  have hidx : (y * cv.m_width + x) * 4 + 3 < cv.m_pixels.length := by omega
  refine ⟨{ cv with m_pixels := set_pixel_bytes cv.m_pixels ((y * cv.m_width + x) * 4) c },
    ?_, ?_, rfl, rfl, rfl, ?_⟩
  · simp [Canvas.pixel_set, hx, hy, hmod, write_pixel_eq, hidx]
  · exact ⟨by simp [set_pixel_bytes_length, hlen], hsize⟩
  · intro x' y' hx' hy'
    have hlt' := pixel_offset_lt hx' hy'
    have hmod' : ((y' * cv.m_width + x') * 4) % 18446744073709551616
        = (y' * cv.m_width + x') * 4 := Nat.mod_eq_of_lt (by omega)
    unfold Canvas.pixel_get
    simp only [hx', hy', and_self, if_true, hmod']
    by_cases hsame : x' = x ∧ y' = y
    · obtain ⟨ex, ey⟩ := hsame
      subst ex
      subst ey
      rw [getElem?_set_pixel_bytes _ _ c hidx, getElem?_set_pixel_bytes _ _ c hidx,
        getElem?_set_pixel_bytes _ _ c hidx]
      simp
    · have hne : y' * cv.m_width + x' ≠ y * cv.m_width + x := by
        intro he
        exact hsame (pixel_offset_inj hx' hx he)
      have far0 := getElem?_set_pixel_bytes_outside cv.m_pixels _ c hidx
        ((y' * cv.m_width + x') * 4) (by omega)
      have far1 := getElem?_set_pixel_bytes_outside cv.m_pixels _ c hidx
        ((y' * cv.m_width + x') * 4 + 1) (by omega)
      have far2 := getElem?_set_pixel_bytes_outside cv.m_pixels _ c hidx
        ((y' * cv.m_width + x') * 4 + 2) (by omega)
      rw [if_neg hsame, far0, far1, far2]

theorem binary_cell_at {t : List (List Nat)} (hb : Binary t) {r c v : Nat}
    (h : cell_at t r c = some v) : v = 0 ∨ v = 1 := by
  unfold cell_at at h
  cases hrow : t[r]? with
  | none => simp [hrow] at h
  | some row =>
    rw [hrow, Option.some_bind] at h
    exact hb row (List.getElem?_mem hrow) v (List.getElem?_mem h)

theorem paint_cell_spec {rows cols : Nat} {t : List (List Nat)} (ht : Rect rows cols t)
    (hb : Binary t) (a d : Color) (cv : Canvas) (hwf : CanvasWF cv)
    (hw : cv.m_width = cols) (hh : cv.m_height = rows) {i j : Nat} (hi : i < rows)
    (hj : j < cols) :
    ∃ cv', paint_cell t a d i j cv = some cv' ∧ CanvasWF cv' ∧ cv'.m_width = cols ∧
      cv'.m_height = rows ∧ cv'.m_block_size = cv.m_block_size ∧
      ∀ x y, x < cols → y < rows →
        cv'.pixel_get x y = if x = j ∧ y = i then cell_colour t a d i j
          else cv.pixel_get x y := by
  obtain ⟨v, hv⟩ := ht.cell_at_some hi hj
  have hv01 := binary_cell_at hb hv
  obtain ⟨cv', h1, hwf', hw', hh', hb', hget⟩ := Canvas.pixel_set_get cv hwf j i
    (if v = 1 then a else d) (by rw [hw]; exact hj) (by rw [hh]; exact hi)
  refine ⟨cv', ?_, hwf', by rw [hw', hw], by rw [hh', hh], hb', ?_⟩
  · unfold paint_cell
    rw [hv, Option.some_bind]
    rcases hv01 with h0 | h1'
    · subst h0
      simpa using h1
    · subst h1'
      simpa using h1
  · intro x y hx hy
    rw [hget x y (by rw [hw]; exact hx) (by rw [hh]; exact hy)]
    simp [cell_colour, hv]

theorem paint_row_loop_spec {rows cols : Nat} {t : List (List Nat)} (ht : Rect rows cols t)
    (hb : Binary t) (a d : Color) (cv : Canvas) (hwf : CanvasWF cv)
    (hw : cv.m_width = cols) (hh : cv.m_height = rows) {i : Nat} (hi : i < rows) :
    ∀ n, n ≤ cols →
      ∃ cv', paint_row_loop t a d i n cv = some cv' ∧ CanvasWF cv' ∧ cv'.m_width = cols ∧
        cv'.m_height = rows ∧ cv'.m_block_size = cv.m_block_size ∧
        ∀ x y, x < cols → y < rows →
          cv'.pixel_get x y = if y = i ∧ x < n then cell_colour t a d i x
            else cv.pixel_get x y
  | 0, _ => ⟨cv, rfl, hwf, hw, hh, rfl, fun x y _ _ => by simp⟩
  | n + 1, hn => by
    obtain ⟨cv1, h1, hwf1, hw1, hh1, hb1, hget1⟩ :=
      paint_row_loop_spec ht hb a d cv hwf hw hh hi n (by omega)
    obtain ⟨cv2, h2, hwf2, hw2, hh2, hb2, hget2⟩ :=
      paint_cell_spec ht hb a d cv1 hwf1 hw1 hh1 hi (show n < cols by omega)
    refine ⟨cv2, by simp [paint_row_loop, h1, h2], hwf2, hw2, hh2, by rw [hb2, hb1], ?_⟩
    intro x y hx hy
    rw [hget2 x y hx hy, hget1 x y hx hy]
    by_cases hyi : y = i
    · by_cases hxn : x = n
      · simp [hyi, hxn]
      · have : (x < n + 1) = (x < n) := by
          apply propext; constructor <;> intro h <;> omega
        simp [hyi, hxn, this]
    · simp [hyi]

theorem paint_table_loop_spec {rows cols : Nat} {t : List (List Nat)} (ht : Rect rows cols t)
    (hb : Binary t) (a d : Color) (cv : Canvas) (hwf : CanvasWF cv)
    (hw : cv.m_width = cols) (hh : cv.m_height = rows) :
    ∀ n, n ≤ rows →
      ∃ cv', paint_table_loop t a d cols n cv = some cv' ∧ CanvasWF cv' ∧
        cv'.m_width = cols ∧ cv'.m_height = rows ∧ cv'.m_block_size = cv.m_block_size ∧
        ∀ x y, x < cols → y < rows →
          cv'.pixel_get x y = if y < n then cell_colour t a d y x else cv.pixel_get x y
  | 0, _ => ⟨cv, rfl, hwf, hw, hh, rfl, fun x y _ _ => by simp⟩
  | n + 1, hn => by
    obtain ⟨cv1, h1, hwf1, hw1, hh1, hb1, hget1⟩ :=
      paint_table_loop_spec ht hb a d cv hwf hw hh n (by omega)
    obtain ⟨cv2, h2, hwf2, hw2, hh2, hb2, hget2⟩ :=
      paint_row_loop_spec ht hb a d cv1 hwf1 hw1 hh1 (show n < rows by omega) cols
        (Nat.le_refl _)
    refine ⟨cv2, by simp [paint_table_loop, h1, h2], hwf2, hw2, hh2, by rw [hb2, hb1], ?_⟩
    intro x y hx hy
    rw [hget2 x y hx hy, hget1 x y hx hy]
    by_cases hyn : y = n
    · subst hyn
      simp [hx]
    · have : (y < n + 1) = (y < n) := by
        apply propext; constructor <;> intro h <;> omega
      simp [hyn, this]

/-- The canvas of one generation: on a binary `rows x cols` grid with at
least one row, `render_generation` returns a canvas of `cols x rows` pixels
on which the read at `(x, y)` is the colour of cell `(y, x)`. -/
theorem render_generation_spec {rows cols : Nat} {t : List (List Nat)}
    (ht : Rect rows cols t) (hb : Binary t) (hr1 : 1 ≤ rows)
    (hsize : cols * rows * 4 < 18446744073709551616) (m_canvas : Canvas)
    (hw : m_canvas.m_width = cols) (hh : m_canvas.m_height = rows) (m_pixel : Nat)
    (a d : Color) :
    ∃ cv, render_generation t m_canvas m_pixel a d = some cv ∧ CanvasWF cv ∧
      cv.m_width = cols ∧ cv.m_height = rows ∧ cv.m_block_size = toInt16 m_pixel ∧
      ∀ x y, x < cols → y < rows → cv.pixel_get x y = cell_colour t a d y x := by
  obtain ⟨cv0, h0, hw0, hh0, hb0, hlen0, -⟩ := Canvas.new_spec cols rows (toInt16 m_pixel)
  have hwf0 : CanvasWF cv0 := by
    rw [CanvasWF, hw0, hh0, hlen0, Nat.mod_eq_of_lt hsize]
    exact ⟨rfl, hsize⟩
  obtain ⟨first, hfirst, hflen⟩ := ht.head hr1
  obtain ⟨cv, h1, hwf, hw1, hh1, hb1, hget⟩ :=
    paint_table_loop_spec ht hb a d cv0 hwf0 hw0 hh0 rows (Nat.le_refl _)
  refine ⟨cv, ?_, hwf, hw1, hh1, by rw [hb1, hb0], ?_⟩
  · unfold render_generation paint_pixel
    simp only [hw, hh, h0, Option.some_bind, hfirst, hflen, ht.1, h1]
  · intro x y hx hy
    rw [hget x y hx hy, if_pos hy]

/-! ## Image file names -/

theorem letras_getElem? (c : Nat) : letras[c % 26]? = some (alphabet_letter c) := by
  have h : ∀ m, m < 26 → letras[m]? = some (Char.ofNat (97 + m)) := by decide
  exact h (c % 26) (Nat.mod_lt _ (by decide))

theorem alphabet_letter_inj (a b : Nat) (h : alphabet_letter a = alphabet_letter b) :
    a % 26 = b % 26 := by
  have key : ∀ m, m < 26 → ∀ m', m' < 26 →
      Char.ofNat (97 + m) = Char.ofNat (97 + m') → m = m' := by decide
  exact key _ (Nat.mod_lt _ (by decide)) _ (Nat.mod_lt _ (by decide)) h

theorem make_words_step_eq (word : List Char) (c : Nat) (h : c + 1 < 2147483648) :
    make_words_step word c = some (word ++ [alphabet_letter c], c + 1) := by
  unfold make_words_step
  rw [letras_getElem?, Option.some_bind, if_pos h]

theorem make_words_eq (dir : List Char) (c : Nat) (h : c + 3 < 2147483648) :
    make_words dir c =
      some (dir ++ '/' :: [alphabet_letter c, alphabet_letter (c + 1), alphabet_letter (c + 2)],
        c + 3) := by
  unfold make_words
  rw [make_words_step_eq [] c (by omega), Option.some_bind,
    make_words_step_eq _ (c + 1) (by omega), Option.some_bind,
    make_words_step_eq _ (c + 1 + 1) (by omega), Option.some_bind]
  rfl

theorem make_words_run_spec :
    ∀ (dirs : List (List Char)) (c : Nat), c + 3 * dirs.length < 2147483648 →
      ∃ names, make_words_run dirs c = some (names, c + 3 * dirs.length) ∧
        names.length = dirs.length ∧
        ∀ k dir, dirs[k]? = some dir →
          names[k]? = some (dir ++ '/' :: [alphabet_letter (c + 3 * k),
            alphabet_letter (c + 3 * k + 1), alphabet_letter (c + 3 * k + 2)])
  | [], c, _ => ⟨[], rfl, rfl, fun k dir h => by simp at h⟩
  | d :: ds, c, h => by
    simp only [List.length_cons] at h
    obtain ⟨names, h1, hlen, hget⟩ := make_words_run_spec ds (c + 3) (by omega)
    refine ⟨(d ++ '/' :: [alphabet_letter c, alphabet_letter (c + 1), alphabet_letter (c + 2)])
      :: names, ?_, by simp [hlen], ?_⟩
    · unfold make_words_run
      rw [make_words_eq d c (by omega), Option.some_bind, h1, Option.some_bind]
      simp only [List.length_cons, Option.some.injEq, Prod.mk.injEq, true_and]
      omega
    · intro k dir hk
      cases k with
      | zero =>
        simp only [List.getElem?_cons_zero, Option.some.injEq] at hk
        subst hk
        simp
      | succ k =>
        simp only [List.getElem?_cons_succ] at hk ⊢
        rw [hget k dir hk]
        have e : c + 3 + 3 * k = c + 3 * (k + 1) := by omega
        rw [e]

/-! ## Grids given cell by cell -/

theorem grid_of_rect (rows cols : Nat) (f : Nat → Nat → Nat) :
    Rect rows cols (grid_of rows cols f) := by
  refine ⟨by simp [grid_of], fun row hrow => ?_⟩
  simp only [grid_of, List.mem_map, List.mem_range] at hrow
  obtain ⟨r, -, rfl⟩ := hrow
  simp

theorem cell_at_grid_of (rows cols : Nat) (f : Nat → Nat → Nat) {r c : Nat}
    (hr : r < rows) (hc : c < cols) : cell_at (grid_of rows cols f) r c = some (f r c) := by
  simp [cell_at, grid_of, List.getElem?_map, List.getElem?_range hr, List.getElem?_range hc]

/-- Two rectangular tables of the same dimensions with the same cells are
equal. -/
theorem grid_ext {rows cols : Nat} {t u : List (List Nat)} (ht : Rect rows cols t)
    (hu : Rect rows cols u)
    (h : ∀ r c, r < rows → c < cols → cell_at t r c = cell_at u r c) : t = u := by
  apply List.ext_getElem (by rw [ht.1, hu.1])
  intro r hr1 hr2
  have hl1 : (t[r]).length = cols := ht.2 _ (List.getElem_mem hr1)
  have hl2 : (u[r]).length = cols := hu.2 _ (List.getElem_mem hr2)
  apply List.ext_getElem (by rw [hl1, hl2])
  intro c hc1 hc2
  have e := h r c (by rw [← ht.1]; exact hr1) (by rw [← hl1]; exact hc1)
  rw [cell_at_getElem t r c hr1 hc1, cell_at_getElem u r c hr2 hc2] at e
  exact Option.some.inj e

/-- The transition on a rectangular grid whose dimensions fit `int`: it
returns a grid of the same dimensions whose cells are the cells the rule
gives on the torus. -/
theorem next_grid_spec {rows cols : Nat} {t : List (List Nat)} (ht : Rect rows cols t)
    (hrb : rows < 2147483648) (hcb : cols < 2147483648) :
    ∃ u, next_grid rows cols t = some u ∧ Rect rows cols u ∧
      ∀ r c, r < rows → c < cols → cell_at u r c = next_cell t rows cols r c := by
  obtain ⟨u, h1, h2, h3⟩ := update_table_spec ht
  refine ⟨u, h1, h2, fun r c hr hc => ?_⟩
  rw [h3 r c hr hc, written_cell_eq_next_cell ht hrb hcb hr hc]

theorem torus_index_cast (idx : Nat) (d : Int) (n : Nat) (hn : 1 ≤ n) :
    ((torus_index idx d n : Nat) : Int) = ((idx : Int) + d) % (n : Int) := by
  unfold torus_index
  have h1 : (0 : Int) ≤ ((idx : Int) + d) % (n : Int) := Int.emod_nonneg _ (by omega)
  omega

theorem torus_index_add (idx : Nat) (a b : Int) (n : Nat) (hn : 1 ≤ n) :
    torus_index (torus_index idx a n) b n = torus_index idx (a + b) n := by
  have e : ((torus_index (torus_index idx a n) b n : Nat) : Int)
      = ((torus_index idx (a + b) n : Nat) : Int) := by
    rw [torus_index_cast _ _ _ hn, torus_index_cast _ _ _ hn, torus_index_cast _ _ _ hn,
      Int.emod_add_emod, Int.add_assoc]
  exact Int.ofNat.inj e

theorem torus_index_comm (idx : Nat) (a b : Int) (n : Nat) (hn : 1 ≤ n) :
    torus_index (torus_index idx a n) b n = torus_index (torus_index idx b n) a n := by
  rw [torus_index_add _ _ _ _ hn, torus_index_add _ _ _ _ hn, Int.add_comm]

/-! ## Cyclic shifts -/

theorem shift_table_rect (rows cols : Nat) (a b : Int) (t : List (List Nat)) :
    Rect rows cols (shift_table rows cols a b t) := grid_of_rect _ _ _

theorem cell_at_shift_table {rows cols : Nat} {t : List (List Nat)} (ht : Rect rows cols t)
    (a b : Int) {r c : Nat} (hr : r < rows) (hc : c < cols) :
    cell_at (shift_table rows cols a b t) r c
      = cell_at t (torus_index r (-a) rows) (torus_index c (-b) cols) := by
  unfold shift_table
  rw [cell_at_grid_of _ _ _ hr hc]
  obtain ⟨v, hv⟩ := ht.cell_at_some (torus_index_lt r (-a) rows (by omega))
    (torus_index_lt c (-b) cols (by omega))
  rw [hv]
  rfl

theorem torus_count_shift_table {rows cols : Nat} {t : List (List Nat)}
    (ht : Rect rows cols t) (a b : Int) {r c : Nat} (hr : r < rows) (hc : c < cols) :
    torus_count (shift_table rows cols a b t) rows cols r c
      = torus_count t rows cols (torus_index r (-a) rows) (torus_index c (-b) cols) := by
  unfold torus_count
  apply List.countP_congr
  intro d _
  rw [cell_at_shift_table ht a b (torus_index_lt r d.1 rows (by omega))
    (torus_index_lt c d.2 cols (by omega)),
    torus_index_comm r d.1 (-a) rows (by omega), torus_index_comm c d.2 (-b) cols (by omega)]

theorem next_cell_shift_table {rows cols : Nat} {t : List (List Nat)}
    (ht : Rect rows cols t) (a b : Int) {r c : Nat} (hr : r < rows) (hc : c < cols) :
    next_cell (shift_table rows cols a b t) rows cols r c
      = next_cell t rows cols (torus_index r (-a) rows) (torus_index c (-b) cols) := by
  unfold next_cell
  rw [cell_at_shift_table ht a b hr hc, torus_count_shift_table ht a b hr hc]

/-- The transition commutes with the cyclic shift. -/
theorem next_grid_shift_table {rows cols : Nat} {t : List (List Nat)}
    (ht : Rect rows cols t) (hrb : rows < 2147483648) (hcb : cols < 2147483648) (a b : Int) :
    ∃ u, next_grid rows cols t = some u ∧ Rect rows cols u ∧
      next_grid rows cols (shift_table rows cols a b t)
        = some (shift_table rows cols a b u) := by
  obtain ⟨u, h1, h2, h3⟩ := next_grid_spec ht hrb hcb
  obtain ⟨w, k1, k2, k3⟩ := next_grid_spec (shift_table_rect rows cols a b t) hrb hcb
  refine ⟨u, h1, h2, ?_⟩
  rw [k1]
  congr 1
  apply grid_ext k2 (shift_table_rect rows cols a b u)
  intro r c hr hc
  rw [k3 r c hr hc, next_cell_shift_table ht a b hr hc, cell_at_shift_table h2 a b hr hc,
    h3 _ _ (torus_index_lt r (-a) rows (by omega)) (torus_index_lt c (-b) cols (by omega))]

/-! ## Patterns on the torus -/

theorem offset_lt (r r0 n : Nat) (hn : 1 ≤ n) : offset r r0 n < n :=
  torus_index_lt r _ n hn

theorem offset_eq_iff {r i n : Nat} (r0 : Nat) (hr : r < n) (hi : i < n) :
    offset r r0 n = i ↔ r = (r0 + i) % n := by
  have hn : 1 ≤ n := by omega
  have e1 : ((offset r r0 n : Nat) : Int) = ((r : Int) + -(r0 : Int)) % (n : Int) :=
    torus_index_cast r _ n hn
  have e2 : (((r0 + i) % n : Nat) : Int) = ((r0 : Int) + (i : Int)) % (n : Int) := by
    push_cast
    rfl
  constructor
  · intro h
    have h' : ((r : Int) + -(r0 : Int)) % (n : Int) = (i : Int) := by rw [← e1, h]
    have : ((r : Nat) : Int) = (((r0 + i) % n : Nat) : Int) := by
      rw [e2, ← h', Int.add_emod_emod]
      have : (r0 : Int) + ((r : Int) + -(r0 : Int)) = (r : Int) := by ring
      rw [this, Int.emod_eq_of_lt (by omega) (by omega)]
    exact Int.ofNat.inj this
  · intro h
    have h' : (r : Int) = ((r0 : Int) + (i : Int)) % (n : Int) := by rw [← e2, ← h]
    have : ((offset r r0 n : Nat) : Int) = (i : Int) := by
      rw [e1, h', Int.emod_add_emod]
      have : (r0 : Int) + (i : Int) + -(r0 : Int) = (i : Int) := by ring
      rw [this, Int.emod_eq_of_lt (by omega) (by omega)]
    exact Int.ofNat.inj this

theorem offset_torus_index (r r0 : Nat) (d : Int) (n : Nat) (hn : 1 ≤ n) :
    offset (torus_index r d n) r0 n = torus_index (offset r r0 n) d n :=
  torus_index_comm r d _ n hn

theorem moore_offsets_range :
    ∀ d ∈ moore_offsets, (d.1 = -1 ∨ d.1 = 0 ∨ d.1 = 1) ∧ (d.2 = -1 ∨ d.2 = 0 ∨ d.2 = 1) := by
  decide

/-- On one axis, the plane coordinate `kappa` tracks the window: a torus
neighbour of offset `i` is inside the window exactly when the plane neighbour
of `kappa i` is, and then the two coincide. -/
theorem kappa_axis (W n i : Nat) (d : Int) (hn : W + 2 ≤ n) (hi : i < n)
    (hd : d = -1 ∨ d = 0 ∨ d = 1) :
    (torus_index i d n < W → kappa W n i + d = (torus_index i d n : Int)) ∧
      (0 ≤ kappa W n i + d → (kappa W n i + d).toNat < W → torus_index i d n < W) := by
  unfold kappa
  rcases hd with hd | hd | hd <;> subst hd
  · rw [torus_index_pred i n hi]
    split <;> split <;> (try split) <;> constructor <;> omega
  · rw [torus_index_zero i n hi]
    split <;> (try split) <;> constructor <;> omega
  · rw [torus_index_succ i n hi]
    split <;> split <;> (try split) <;> constructor <;> omega

theorem kappa_range (W n i : Nat) : -1 ≤ kappa W n i ∧ kappa W n i ≤ (W : Int) + 2 := by
  unfold kappa
  split <;> (try split) <;> constructor <;> omega

theorem plane_alive_kappa (W : Nat) (cells : List (Nat × Nat)) {rows cols i j : Nat}
    {d e : Int} (hr : W + 2 ≤ rows) (hc : W + 2 ≤ cols) (hi : i < rows) (hj : j < cols)
    (hd : d = -1 ∨ d = 0 ∨ d = 1) (he : e = -1 ∨ e = 0 ∨ e = 1) :
    plane_alive W cells (kappa W rows i + d) (kappa W cols j + e)
      = in_window W cells (torus_index i d rows) (torus_index j e cols) := by
  obtain ⟨a1, a2⟩ := kappa_axis W rows i d hr hi hd
  obtain ⟨b1, b2⟩ := kappa_axis W cols j e hc hj he
  unfold plane_alive in_window
  by_cases h1 : torus_index i d rows < W
  · by_cases h2 : torus_index j e cols < W
    · have ex := a1 h1
      have ey := b1 h2
      rw [ex, ey]
      simp [h1, h2]
    · have : ¬ (0 ≤ kappa W cols j + e ∧ (kappa W cols j + e).toNat < W) :=
        fun h => h2 (b2 h.1 h.2)
      by_cases h3 : 0 ≤ kappa W cols j + e
      · have h4 : ¬ (kappa W cols j + e).toNat < W := fun h => this ⟨h3, h⟩
        simp [h2, h4]
      · simp [h2, h3]
  · have : ¬ (0 ≤ kappa W rows i + d ∧ (kappa W rows i + d).toNat < W) :=
      fun h => h1 (a2 h.1 h.2)
    by_cases h3 : 0 ≤ kappa W rows i + d
    · have h4 : ¬ (kappa W rows i + d).toNat < W := fun h => this ⟨h3, h⟩
      simp [h1, h4]
    · simp [h1, h3]

theorem plane_check_at {W : Nat} {cells cells' : List (Nat × Nat)}
    (h : plane_check W cells cells' = true) (x y : Int) (hx1 : -1 ≤ x)
    (hx2 : x ≤ (W : Int) + 2) (hy1 : -1 ≤ y) (hy2 : y ≤ (W : Int) + 2) :
    plane_next W cells x y = plane_alive W cells' x y := by
  unfold plane_check at h
  rw [List.all_eq_true] at h
  have h1 := h (x + 1).toNat (List.mem_range.mpr (by omega))
  rw [List.all_eq_true] at h1
  have h2 := h1 (y + 1).toNat (List.mem_range.mpr (by omega))
  have ex : (((x + 1).toNat : Nat) : Int) - 1 = x := by omega
  have ey : (((y + 1).toNat : Nat) : Int) - 1 = y := by omega
  rw [ex, ey] at h2
  exact beq_iff_eq.mp h2

theorem rule_congr {v v' : Nat} (n : Nat) (h : v = 1 ↔ v' = 1) : rule v n = rule v' n := by
  unfold rule
  by_cases h1 : v = 1
  · rw [if_pos h1, if_pos (h.mp h1)]
  · rw [if_neg h1, if_neg (fun h' => h1 (h.mpr h'))]

/-- The neighbour count on the torus of a grid that shows the pattern `cells`
at the origin `(r0, c0)` is the neighbour count of the pattern on the plane. -/
theorem torus_count_pattern (W : Nat) (cells : List (Nat × Nat)) {rows cols : Nat}
    (hr : W + 2 ≤ rows) (hc : W + 2 ≤ cols) (r0 c0 : Nat) {g : List (List Nat)}
    (H : ∀ r c, r < rows → c < cols →
      (cell_at g r c = some 1 ↔
        in_window W cells (offset r r0 rows) (offset c c0 cols) = true))
    {r c : Nat} (hrr : r < rows) (hcc : c < cols) :
    torus_count g rows cols r c
      = plane_count W cells (kappa W rows (offset r r0 rows))
          (kappa W cols (offset c c0 cols)) := by
  have hi := offset_lt r r0 rows (by omega)
  have hj := offset_lt c c0 cols (by omega)
  unfold torus_count plane_count
  apply List.countP_congr
  intro d hd
  obtain ⟨d1, d2⟩ := moore_offsets_range d hd
  rw [plane_alive_kappa W cells hr hc hi hj d1 d2, decide_eq_true_iff,
    H _ _ (torus_index_lt r d.1 rows (by omega)) (torus_index_lt c d.2 cols (by omega)),
    offset_torus_index r r0 d.1 rows (by omega), offset_torus_index c c0 d.2 cols (by omega)]

/-- One transition of a pattern on a torus that leaves room around its
window: when the pattern `cells'` is the next generation of `cells` on the
plane, a grid that shows `cells` at the origin `(r0, c0)` becomes the grid
that shows `cells'` at the same origin. -/
theorem pattern_step (W : Nat) (cells cells' : List (Nat × Nat))
    (hcheck : plane_check W cells cells' = true) {rows cols : Nat}
    (hr : W + 2 ≤ rows) (hc : W + 2 ≤ cols)
    (hrb : rows < 2147483648) (hcb : cols < 2147483648) (r0 c0 : Nat)
    {g : List (List Nat)} (hg : Rect rows cols g)
    (H : ∀ r c, r < rows → c < cols →
      (cell_at g r c = some 1 ↔
        in_window W cells (offset r r0 rows) (offset c c0 cols) = true)) :
    ∃ g', next_grid rows cols g = some g' ∧ Rect rows cols g' ∧
      ∀ r c, r < rows → c < cols → cell_at g' r c
        = some (if in_window W cells' (offset r r0 rows) (offset c c0 cols) then 1 else 0) := by
  obtain ⟨g', h1, h2, h3⟩ := next_grid_spec hg hrb hcb
  refine ⟨g', h1, h2, fun r c hrr hcc => ?_⟩
  have hi := offset_lt r r0 rows (by omega)
  have hj := offset_lt c c0 cols (by omega)
  have hcount := torus_count_pattern W cells hr hc r0 c0 H hrr hcc
  have hself : ∀ cs : List (Nat × Nat),
      plane_alive W cs (kappa W rows (offset r r0 rows)) (kappa W cols (offset c c0 cols))
        = in_window W cs (offset r r0 rows) (offset c c0 cols) := by
    intro cs
    have := plane_alive_kappa W cs hr hc hi hj (d := 0) (e := 0) (by omega) (by omega)
    rw [Int.add_zero, Int.add_zero, torus_index_zero _ _ hi, torus_index_zero _ _ hj] at this
    exact this
  obtain ⟨v, hv⟩ := hg.cell_at_some hrr hcc
  have hv1 : v = 1 ↔
      (if plane_alive W cells (kappa W rows (offset r r0 rows))
        (kappa W cols (offset c c0 cols)) then 1 else 0) = 1 := by
    rw [hself cells]
    have := H r c hrr hcc
    rw [hv] at this
    constructor
    · intro e
      rw [if_pos (this.mp (by rw [e]))]
    · intro e
      by_cases hw : in_window W cells (offset r r0 rows) (offset c c0 cols) = true
      · exact Option.some.inj (this.mpr hw)
      · rw [if_neg hw] at e
        exact absurd e (by decide)
  obtain ⟨k1, k2⟩ := kappa_range W rows (offset r r0 rows)
  obtain ⟨k3, k4⟩ := kappa_range W cols (offset c c0 cols)
  rw [h3 r c hrr hcc]
  unfold next_cell
  rw [hv, Option.map_some', hcount, rule_congr _ hv1, ← hself cells',
    ← plane_check_at hcheck _ _ k1 k2 k3 k4]
  rfl

/-! ## Patterns placed on the grid -/

theorem place_rect (cells : List (Nat × Nat)) (rows cols r0 c0 : Nat) :
    Rect rows cols (place cells rows cols r0 c0) := grid_of_rect _ _ _

theorem place_in_window {W : Nat} {cells : List (Nat × Nat)}
    (hfit : fits_window W cells = true) {rows cols : Nat} (hr : W ≤ rows) (hc : W ≤ cols)
    (r0 c0 : Nat) {r c : Nat} (hrr : r < rows) (hcc : c < cols) :
    cells.any (fun p => decide (r = (r0 + p.1) % rows ∧ c = (c0 + p.2) % cols))
      = in_window W cells (offset r r0 rows) (offset c c0 cols) := by
  have hi := offset_lt r r0 rows (by omega)
  have hj := offset_lt c c0 cols (by omega)
  unfold fits_window at hfit
  rw [List.all_eq_true] at hfit
  rw [Bool.eq_iff_iff]
  simp only [List.any_eq_true, decide_eq_true_eq, in_window, Bool.and_eq_true,
    List.contains_eq_any_beq, beq_iff_eq]
  constructor
  · rintro ⟨p, hp, e1, e2⟩
    have hw := hfit p hp
    simp only [Bool.and_eq_true, decide_eq_true_eq] at hw
    have o1 := (offset_eq_iff r0 hrr (show p.1 < rows by omega)).mpr e1
    have o2 := (offset_eq_iff c0 hcc (show p.2 < cols by omega)).mpr e2
    rw [o1, o2]
    exact ⟨⟨hw.1, hw.2⟩, p, hp, rfl⟩
  · rintro ⟨-, p, hm, e⟩
    refine ⟨p, hm, ?_⟩
    rw [← e]
    exact ⟨(offset_eq_iff r0 hrr hi).mp rfl, (offset_eq_iff c0 hcc hj).mp rfl⟩

theorem cell_at_place {W : Nat} {cells : List (Nat × Nat)}
    (hfit : fits_window W cells = true) {rows cols : Nat} (hr : W ≤ rows) (hc : W ≤ cols)
    (r0 c0 : Nat) {r c : Nat} (hrr : r < rows) (hcc : c < cols) :
    cell_at (place cells rows cols r0 c0) r c
      = some (if in_window W cells (offset r r0 rows) (offset c c0 cols) then 1 else 0) := by
  unfold place
  rw [cell_at_grid_of _ _ _ hrr hcc, place_in_window hfit hr hc r0 c0 hrr hcc]

/-- One transition of a placed pattern. -/
theorem place_step (W : Nat) (cells cells' : List (Nat × Nat))
    (hcheck : plane_check W cells cells' = true) (hfit : fits_window W cells = true)
    (hfit' : fits_window W cells' = true) {rows cols : Nat}
    (hr : W + 2 ≤ rows) (hc : W + 2 ≤ cols)
    (hrb : rows < 2147483648) (hcb : cols < 2147483648) (r0 c0 : Nat) :
    next_grid rows cols (place cells rows cols r0 c0) = some (place cells' rows cols r0 c0) := by
  obtain ⟨g', h1, h2, h3⟩ := pattern_step W cells cells' hcheck hr hc hrb hcb r0 c0
    (place_rect cells rows cols r0 c0) (fun r c hrr hcc => by
      rw [cell_at_place hfit (by omega) (by omega) r0 c0 hrr hcc]
      by_cases hw : in_window W cells (offset r r0 rows) (offset c c0 cols) = true
      · simp [hw]
      · simp [hw])
  rw [h1]
  congr 1
  apply grid_ext h2 (place_rect cells' rows cols r0 c0)
  intro r c hrr hcc
  rw [h3 r c hrr hcc, cell_at_place hfit' (by omega) (by omega) r0 c0 hrr hcc]

/-- A pattern placed one row down and one column right is the pattern with
every cell moved by `(1, 1)`, placed at the same origin. -/
theorem place_moved (cells : List (Nat × Nat)) (rows cols r0 c0 : Nat) :
    place cells rows cols ((r0 + 1) % rows) ((c0 + 1) % cols)
      = place (cells.map (fun p => (p.1 + 1, p.2 + 1))) rows cols r0 c0 := by
  unfold place
  congr 1
  funext r c
  have e : (fun p : Nat × Nat =>
      decide (r = ((r0 + 1) % rows + p.1) % rows ∧ c = ((c0 + 1) % cols + p.2) % cols))
      = (fun p : Nat × Nat => decide (r = (r0 + p.1) % rows ∧ c = (c0 + p.2) % cols)) ∘
        (fun p : Nat × Nat => (p.1 + 1, p.2 + 1)) := by
    funext p
    simp only [Function.comp, Nat.mod_add_mod, Nat.add_assoc, Nat.add_comm 1]
  rw [List.any_map, e]

/-- Four transitions of a placed glider. -/
theorem glider_four_steps {rows cols : Nat} (hr : 6 ≤ rows) (hc : 6 ≤ cols)
    (hrb : rows < 2147483648) (hcb : cols < 2147483648) (r0 c0 : Nat) :
    next_grids rows cols 4 (place glider_cells rows cols r0 c0)
      = some (place glider_moved rows cols r0 c0) := by
  have s1 : next_grid rows cols (place glider_cells rows cols r0 c0)
      = some (place glider_phase2 rows cols r0 c0) :=
    place_step 4 glider_cells glider_phase2 (by decide) (by decide) (by decide) hr hc hrb hcb r0 c0
  have s2 : next_grid rows cols (place glider_phase2 rows cols r0 c0)
      = some (place glider_phase3 rows cols r0 c0) :=
    place_step 4 glider_phase2 glider_phase3 (by decide) (by decide) (by decide) hr hc hrb hcb r0 c0
  have s3 : next_grid rows cols (place glider_phase3 rows cols r0 c0)
      = some (place glider_phase4 rows cols r0 c0) :=
    place_step 4 glider_phase3 glider_phase4 (by decide) (by decide) (by decide) hr hc hrb hcb r0 c0
  have s4 : next_grid rows cols (place glider_phase4 rows cols r0 c0)
      = some (place glider_moved rows cols r0 c0) :=
    place_step 4 glider_phase4 glider_moved (by decide) (by decide) (by decide) hr hc hrb hcb r0 c0
  simp only [next_grids, s1, s2, s3, s4, Option.some_bind]

/-- A placed pattern shifted cyclically is the pattern placed at the shifted
origin. -/
theorem shift_table_place (cells : List (Nat × Nat)) {rows cols : Nat} (hr : 1 ≤ rows)
    (hc : 1 ≤ cols) (r0 c0 : Nat) (a b : Int) :
    shift_table rows cols a b (place cells rows cols r0 c0)
      = place cells rows cols (torus_index r0 a rows) (torus_index c0 b cols) := by
  have key : ∀ (n : Nat), 1 ≤ n → ∀ (r r0 i : Nat) (a : Int), r < n →
      (torus_index r (-a) n = (r0 + i) % n ↔ r = (torus_index r0 a n + i) % n) := by
    intro n hn r r0 i a hrn
    have c1 := torus_index_cast r (-a) n hn
    have c2 := torus_index_cast r0 a n hn
    have e1 : (((r0 + i) % n : Nat) : Int) = ((r0 : Int) + (i : Int)) % (n : Int) := by
      push_cast
      rfl
    have e2 : (((torus_index r0 a n + i) % n : Nat) : Int)
        = ((r0 : Int) + a + (i : Int)) % (n : Int) := by
      push_cast
      rw [c2, Int.emod_add_emod]
    constructor
    · intro h
      have h' : ((r : Int) + -a) % (n : Int) = ((r0 : Int) + (i : Int)) % (n : Int) := by
        rw [← c1, h, e1]
      have : ((r : Nat) : Int) = (((torus_index r0 a n + i) % n : Nat) : Int) := by
        rw [e2]
        have t1 : (r : Int) = (((r : Int) + -a) % (n : Int) + a) % (n : Int) := by
          rw [Int.emod_add_emod]
          have : (r : Int) + -a + a = (r : Int) := by ring
          rw [this, Int.emod_eq_of_lt (by omega) (by omega)]
        rw [t1, h', Int.emod_add_emod]
        congr 1
        ring
      exact Int.ofNat.inj this
    · intro h
      have h' : (r : Int) = ((r0 : Int) + a + (i : Int)) % (n : Int) := by
        rw [← e2, ← h]
      have : ((torus_index r (-a) n : Nat) : Int) = (((r0 + i) % n : Nat) : Int) := by
        rw [c1, e1, h', Int.emod_add_emod]
        congr 1
        ring
      exact Int.ofNat.inj this
  apply grid_ext (shift_table_rect rows cols a b _) (place_rect cells rows cols _ _)
  intro r c hrr hcc
  rw [cell_at_shift_table (place_rect cells rows cols r0 c0) a b hrr hcc]
  unfold place
  rw [cell_at_grid_of _ _ _ (torus_index_lt r (-a) rows hr) (torus_index_lt c (-b) cols hc),
    cell_at_grid_of _ _ _ hrr hcc]
  have e : (fun p : Nat × Nat => decide (torus_index r (-a) rows = (r0 + p.1) % rows ∧
        torus_index c (-b) cols = (c0 + p.2) % cols))
      = (fun p : Nat × Nat => decide (r = (torus_index r0 a rows + p.1) % rows ∧
        c = (torus_index c0 b cols + p.2) % cols)) := by
    funext p
    rw [decide_eq_decide, key rows hr r r0 p.1 a hrr, key cols hc c c0 p.2 b hcc]
  rw [e]

theorem torus_index_one (idx n : Nat) (hn : 1 ≤ n) : torus_index idx 1 n = (idx + 1) % n := by
  have e : ((torus_index idx 1 n : Nat) : Int) = (((idx + 1) % n : Nat) : Int) := by
    rw [torus_index_cast idx 1 n hn]
    push_cast
    rfl
  exact Int.ofNat.inj e

/-- No cell of a grid whose cells are all `0` is alive. -/
theorem not_has_alive_of_zero {rows cols : Nat} {t : List (List Nat)} (h : Rect rows cols t)
    (hz : ∀ r c, r < rows → c < cols → cell_at t r c = some 0) : ¬ has_alive t := by
  rintro ⟨row, hrow, hone⟩
  obtain ⟨r, hr, e1⟩ := List.getElem_of_mem hrow
  obtain ⟨c, hc, e2⟩ := List.getElem_of_mem hone
  subst e1
  have hlen := h.2 _ hrow
  have := hz r c (by rw [← h.1]; exact hr) (by rw [← hlen]; exact hc)
  rw [cell_at_getElem t r c hr hc, e2] at this
  exact absurd this (by decide)

/-! ## Bytes of a pixel write -/

/-- The bytes a pixel write inside the canvas touches: the four bytes of the
pixel, all inside the buffer; every other byte is kept. -/
theorem Canvas.pixel_set_bytes (cv : Canvas) (hwf : CanvasWF cv) (x y : Nat) (c : Color)
    (hx : x < cv.m_width) (hy : y < cv.m_height) :
    ∃ cv', cv.pixel_set x y c = some cv' ∧
      (y * cv.m_width + x) * 4 + 3 < cv.m_width * cv.m_height * 4 ∧
      ∀ k, (k < (y * cv.m_width + x) * 4 ∨ (y * cv.m_width + x) * 4 + 3 < k) →
        cv'.m_pixels[k]? = cv.m_pixels[k]? := by
  obtain ⟨hlen, hsize⟩ := hwf
  have hlt := pixel_offset_lt hx hy
  have hmod : ((y * cv.m_width + x) * 4) % 18446744073709551616 = (y * cv.m_width + x) * 4 :=
    Nat.mod_eq_of_lt (by omega)
  have hidx : (y * cv.m_width + x) * 4 + 3 < cv.m_pixels.length := by omega
  refine ⟨{ cv with m_pixels := set_pixel_bytes cv.m_pixels ((y * cv.m_width + x) * 4) c },
    ?_, by omega, fun k hk => ?_⟩
  · simp [Canvas.pixel_set, hx, hy, hmod, write_pixel_eq, hidx]
  · exact getElem?_set_pixel_bytes_outside cv.m_pixels _ c hidx k hk

/-! ## The claims -/

/-- C1: on every rectangular grid with `rows, cols >= 1` (dimensions within
the range of `int`) and every cell `(r, c)` inside it, the neighbour count
computed by `set_alive` is the number of the eight Moore offsets `(dr, dc)`
for which the cell at `((r + dr) mod rows, (c + dc) mod cols)` is `1`. In
particular, on a grid of at least 3x3 a live cell at `(rows - 1, cols - 1)`
is counted as a neighbour of `(0, 0)`: the count there is at least one, and
exactly one when the corner is the only live cell. -/
theorem C1_neighbour_count_toroidal (t : List (List Nat)) (rows cols r c : Nat)
    (h : Rect rows cols t) (hr1 : 1 ≤ rows) (hc1 : 1 ≤ cols)
    (hrb : rows < 2147483648) (hcb : cols < 2147483648) (hr : r < rows) (hc : c < cols) :
    set_alive_n_alives t r c = some (torus_count t rows cols r c) ∧
    (3 ≤ rows → 3 ≤ cols → cell_at t (rows - 1) (cols - 1) = some 1 →
      ∃ n, set_alive_n_alives t 0 0 = some n ∧ 1 ≤ n ∧
        ((∀ x y, cell_at t x y = some 1 → x = rows - 1 ∧ y = cols - 1) → n = 1)) := by
  refine ⟨set_alive_n_alives_eq h hr1 hc1 hrb hcb hr hc, ?_⟩
  intro hr3 hc3 hcorner
  refine ⟨_, set_alive_n_alives_eq h hr1 hc1 hrb hcb (by omega) (by omega), ?_, ?_⟩
  · apply List.countP_pos_iff.mpr
    refine ⟨(-1, -1), by simp [moore_offsets], ?_⟩
    simp only [torus_index_pred 0 rows (by omega), torus_index_pred 0 cols (by omega)]
    simpa using hcorner
  · intro honly
    have key : ∀ x y, ¬ (x = rows - 1 ∧ y = cols - 1) → ¬ cell_at t x y = some 1 :=
      fun x y hxy hcell => hxy (honly x y hcell)
    have r0 : torus_index 0 0 rows = 0 := torus_index_zero 0 rows (by omega)
    have c0 : torus_index 0 0 cols = 0 := torus_index_zero 0 cols (by omega)
    have r1 : torus_index 0 1 rows = 1 := by
      rw [torus_index_succ 0 rows (by omega), if_neg (by omega)]
    have c1 : torus_index 0 1 cols = 1 := by
      rw [torus_index_succ 0 cols (by omega), if_neg (by omega)]
    have rp : torus_index 0 (-1) rows = rows - 1 := by
      rw [torus_index_pred 0 rows (by omega), if_pos rfl]
    have cp : torus_index 0 (-1) cols = cols - 1 := by
      rw [torus_index_pred 0 cols (by omega), if_pos rfl]
    simp only [torus_count, moore_offsets, List.countP_cons, List.countP_nil, decide_eq_true_eq,
      r0, c0, r1, c1, rp, cp]
    rw [if_pos hcorner, if_neg (key _ _ (by omega)), if_neg (key _ _ (by omega)),
      if_neg (key _ _ (by omega)), if_neg (key _ _ (by omega)), if_neg (key _ _ (by omega)),
      if_neg (key _ _ (by omega)), if_neg (key _ _ (by omega))]

/-- C1, witness: the 3x3 grid whose only live cell is the corner `(2, 2)`,
read at the cell `(0, 0)`. -/
theorem C1_neighbour_count_toroidal_witness :
    set_alive_n_alives [[0, 0, 0], [0, 0, 0], [0, 0, 1]] 0 0
        = some (torus_count [[0, 0, 0], [0, 0, 0], [0, 0, 1]] 3 3 0 0) ∧
      torus_count [[0, 0, 0], [0, 0, 0], [0, 0, 1]] 3 3 0 0 = 1 :=
  ⟨(C1_neighbour_count_toroidal [[0, 0, 0], [0, 0, 0], [0, 0, 1]] 3 3 0 0
      (by decide) (by decide) (by decide) (by decide) (by decide) (by decide) (by decide)).1,
    by decide⟩

/-- C2: for every `rows x cols` grid (dimensions within the range of `int`)
`update_gen` returns, and the grid it produces has at every cell `(r, c)` the
value `1` exactly when, in the grid as it was before the step, the cell was
alive (`1`) with 2 or 3 alive toroidal neighbours or dead (not `1`) with
exactly 3, and `0` otherwise. The cell and the neighbour count on the right
are those of the grid before the step, so no new value depends on a cell
already written in the same step. -/
theorem C2_update_gen_applies_rule (s : LifeCfg) (h : Rect s.m_rows s.m_cols s.m_table)
    (hrb : s.m_rows < 2147483648) (hcb : s.m_cols < 2147483648) :
    ∃ s', update_gen s = some s' ∧
      ∀ r c, r < s.m_rows → c < s.m_cols →
        ∃ v, cell_at s.m_table r c = some v ∧
          cell_at s'.m_table r c = some
            (if (v = 1 ∧ (torus_count s.m_table s.m_rows s.m_cols r c = 2 ∨
                  torus_count s.m_table s.m_rows s.m_cols r c = 3)) ∨
                (v ≠ 1 ∧ torus_count s.m_table s.m_rows s.m_cols r c = 3)
              then 1 else 0) := by
  obtain ⟨s', h1, -, -, -, -, -, -, -, -, hcells, -⟩ := update_gen_spec s h
  refine ⟨s', h1, fun r c hr hc => ?_⟩
  obtain ⟨v, hv⟩ := h.cell_at_some hr hc
  refine ⟨v, hv, ?_⟩
  rw [hcells r c hr hc, written_cell_eq_next_cell h hrb hcb hr hc, next_cell, hv,
    Option.map_some']
  by_cases hrule : rule v (torus_count s.m_table s.m_rows s.m_cols r c) = true
  · rw [if_pos hrule, if_pos ((rule_iff _ _).mp hrule)]
  · rw [if_neg hrule, if_neg (fun hp => hrule ((rule_iff _ _).mpr hp))]

/-- C2, witness: the 3x3 state `line_state`. -/
theorem C2_update_gen_applies_rule_witness :
    Rect line_state.m_rows line_state.m_cols line_state.m_table ∧
    ∃ s', update_gen line_state = some s' ∧
      ∀ r c, r < line_state.m_rows → c < line_state.m_cols →
        ∃ v, cell_at line_state.m_table r c = some v ∧
          cell_at s'.m_table r c = some
            (if (v = 1 ∧
                  (torus_count line_state.m_table line_state.m_rows line_state.m_cols r c = 2 ∨
                  torus_count line_state.m_table line_state.m_rows line_state.m_cols r c = 3)) ∨
                (v ≠ 1 ∧
                  torus_count line_state.m_table line_state.m_rows line_state.m_cols r c = 3)
              then 1 else 0) :=
  ⟨by decide, C2_update_gen_applies_rule line_state (by decide) (by decide) (by decide)⟩

/-- C3: for every state whose grid is rectangular with `rows x cols` cells,
`update_gen` returns a state with the same `rows` and `cols` whose grid is
again rectangular with `rows x cols` cells, every one of them `0` or `1`. -/
theorem C3_update_gen_preserves_shape (s : LifeCfg)
    (h : Rect s.m_rows s.m_cols s.m_table) :
    ∃ s', update_gen s = some s' ∧ s'.m_rows = s.m_rows ∧ s'.m_cols = s.m_cols ∧
      Rect s'.m_rows s'.m_cols s'.m_table ∧ Binary s'.m_table :=
  update_gen_rect_binary s h

/-- C3, witness: the 3x3 state `line_state`. -/
theorem C3_update_gen_preserves_shape_witness :
    Rect line_state.m_rows line_state.m_cols line_state.m_table ∧
    ∃ s', update_gen line_state = some s' ∧ s'.m_rows = line_state.m_rows ∧
      s'.m_cols = line_state.m_cols ∧ Rect s'.m_rows s'.m_cols s'.m_table ∧
      Binary s'.m_table :=
  ⟨by decide, C3_update_gen_preserves_shape line_state (by decide)⟩

/-- C4: for every state with the stop flag not yet set (grid rectangular with
the recorded dimensions), one call of `update_gen` returns and sets the stop
flag if and only if at least one of the three predicates holds for the grid
it was called on: its snapshot is already in the history, the incremented
generation counter equals the configured maximum, or the snapshot contains no
alive cell (no character `1`). When none holds, the stop flag and the
termination cause are left unchanged. -/
theorem C4_stop_iff_some_predicate (s : LifeCfg) (h : Rect s.m_rows s.m_cols s.m_table)
    (hstop : s.m_stop = false) :
    ∃ s', update_gen s = some s' ∧
      (s'.m_stop = true ↔
        (table_to_string s.m_table ∈ s.m_old_tables ∨
          (s.m_n_gen + 1) % 4294967296 = s.m_maxgen ∨
          ∀ ch ∈ table_to_string s.m_table, ch ≠ '1')) ∧
      (¬ (table_to_string s.m_table ∈ s.m_old_tables ∨
          (s.m_n_gen + 1) % 4294967296 = s.m_maxgen ∨
          ∀ ch ∈ table_to_string s.m_table, ch ≠ '1') →
        s'.m_stop = s.m_stop ∧ s'.m_ending = s.m_ending) := by
  obtain ⟨s', h1, -, -, -, -, -, -, -, -, -, hs, he⟩ := update_gen_spec s h
  refine ⟨s', h1, ?_, ?_⟩
  · rw [hs, hstop, ← compare_iff_mem, ← all_dead_iff]
    simp [or_assoc]
  · intro hnone
    rw [← compare_iff_mem, ← all_dead_iff] at hnone
    have n1 : ¬ compare s.m_old_tables (table_to_string s.m_table) = true :=
      fun hc => hnone (Or.inl hc)
    have n2 : ¬ (s.m_n_gen + 1) % 4294967296 = s.m_maxgen :=
      fun hc => hnone (Or.inr (Or.inl hc))
    have n3 : ¬ all_dead (table_to_string s.m_table) = true :=
      fun hc => hnone (Or.inr (Or.inr hc))
    rw [hs, he]
    simp [n1, n2, n3]

/-- C4, witness: the 3x3 state `line_state`, whose stop flag is clear. -/
theorem C4_stop_iff_some_predicate_witness :
    Rect line_state.m_rows line_state.m_cols line_state.m_table ∧
    line_state.m_stop = false ∧
    ∃ s', update_gen line_state = some s' ∧
      (s'.m_stop = true ↔
        (table_to_string line_state.m_table ∈ line_state.m_old_tables ∨
          (line_state.m_n_gen + 1) % 4294967296 = line_state.m_maxgen ∨
          ∀ ch ∈ table_to_string line_state.m_table, ch ≠ '1')) ∧
      (¬ (table_to_string line_state.m_table ∈ line_state.m_old_tables ∨
          (line_state.m_n_gen + 1) % 4294967296 = line_state.m_maxgen ∨
          ∀ ch ∈ table_to_string line_state.m_table, ch ≠ '1') →
        s'.m_stop = line_state.m_stop ∧ s'.m_ending = line_state.m_ending) :=
  ⟨by decide, rfl, C4_stop_iff_some_predicate line_state (by decide) rfl⟩

/-- C5, as stated, fails on the code. In the run on `block_file` with maximum
3 the second advance step finds the snapshot in the history and the counter
at the maximum, and records MAXGEN, not STABILITY. In the run on `dead_file`
with maximum 2 the first advance step finds the counter at the maximum and
the grid all dead, not a repeat, and records EXTINCTION, not MAXGEN. -/
theorem C5_counterexample :
    (updates block_file 2 (start 3 LifeCfg.init) = Except.ok block_state ∧
      compare block_state.m_old_tables (table_to_string block_state.m_table) = true ∧
      (block_state.m_n_gen + 1) % 4294967296 = block_state.m_maxgen ∧
      (update_gen block_state).map LifeCfg.m_ending = some ending_e.MAXGEN) ∧
    (updates dead_file 1 (start 2 LifeCfg.init) = Except.ok dead_state ∧
      compare dead_state.m_old_tables (table_to_string dead_state.m_table) = false ∧
      (dead_state.m_n_gen + 1) % 4294967296 = dead_state.m_maxgen ∧
      all_dead (table_to_string dead_state.m_table) = true ∧
      (update_gen dead_state).map LifeCfg.m_ending = some ending_e.EXTINCTION) :=
  ⟨⟨rfl, rfl, rfl, rfl⟩, ⟨rfl, rfl, rfl, rfl, rfl⟩⟩

/-- C5, amended: the three tests of `update_gen` run one after the other and
each one that holds overwrites the cause, so the cause recorded is the last
one that holds in the order Stability, MaxGenerationsReached, Extinction:
Extinction whenever the snapshot has no alive cell (even if it is a repeat or
the counter has reached the maximum), MaxGenerationsReached when the counter
has reached the maximum and some cell is alive (even if the snapshot is a
repeat), Stability when the snapshot is a repeat and neither of the other two
holds. -/
theorem C5_last_predicate_wins (s : LifeCfg) (h : Rect s.m_rows s.m_cols s.m_table) :
    ∃ s', update_gen s = some s' ∧
      ((∀ ch ∈ table_to_string s.m_table, ch ≠ '1') →
        s'.m_ending = ending_e.EXTINCTION) ∧
      (¬ (∀ ch ∈ table_to_string s.m_table, ch ≠ '1') →
        (s.m_n_gen + 1) % 4294967296 = s.m_maxgen → s'.m_ending = ending_e.MAXGEN) ∧
      (¬ (∀ ch ∈ table_to_string s.m_table, ch ≠ '1') →
        ¬ (s.m_n_gen + 1) % 4294967296 = s.m_maxgen →
        table_to_string s.m_table ∈ s.m_old_tables → s'.m_ending = ending_e.STABILITY) := by
  obtain ⟨s', h1, -, -, -, -, -, -, -, -, -, -, he⟩ := update_gen_spec s h
  refine ⟨s', h1, ?_, ?_, ?_⟩
  · intro hd
    rw [he, if_pos ((all_dead_iff _).mpr hd)]
  · intro hd hm
    rw [he, if_neg (fun hc => hd ((all_dead_iff _).mp hc)), if_pos hm]
  · intro hd hm hc
    rw [he, if_neg (fun hc => hd ((all_dead_iff _).mp hc)), if_neg hm,
      if_pos ((compare_iff_mem _ _).mpr hc)]

/-- C5 amended, witness: the state `block_state`, where the snapshot is a
repeat, the counter reaches the maximum and some cell is alive. -/
theorem C5_last_predicate_wins_witness :
    Rect block_state.m_rows block_state.m_cols block_state.m_table ∧
    table_to_string block_state.m_table ∈ block_state.m_old_tables ∧
    (block_state.m_n_gen + 1) % 4294967296 = block_state.m_maxgen ∧
    ¬ (∀ ch ∈ table_to_string block_state.m_table, ch ≠ '1') ∧
    ∃ s', update_gen block_state = some s' ∧ s'.m_ending = ending_e.MAXGEN := by
  have hd : ¬ (∀ ch ∈ table_to_string block_state.m_table, ch ≠ '1') := by decide
  obtain ⟨s', h1, -, h2, -⟩ := C5_last_predicate_wins block_state (by decide)
  exact ⟨by decide, by decide, rfl, hd, s', h1, h2 hd rfl⟩

/-- C6: in every run of the controller from its initial state (any input
file, any maximum), once `n` update calls have left the termination cause
different from UNDEFINED, every later update call returns and leaves the
cause unchanged: after any `k` further calls the cause is the same. -/
theorem C6_cause_never_changes (file : GridFile) (gen n k : Nat) (s : LifeCfg)
    (hrun : updates file n (start gen LifeCfg.init) = Except.ok s)
    (hcause : s.m_ending ≠ ending_e.UNDEFINED) :
    ∃ s', updates file k s = Except.ok s' ∧ s'.m_ending = s.m_ending := by
  have h0 : cause_set_inv (start gen LifeCfg.init) := fun hc => absurd rfl hc
  exact updates_of_cause_set file k s hcause (updates_inv file n _ s h0 hrun)

/-- C6, witness: the run on `dead_file` with maximum 2; two update calls
record EXTINCTION, three more leave it in place. -/
theorem C6_cause_never_changes_witness :
    ∃ s, updates dead_file 2 (start 2 LifeCfg.init) = Except.ok s ∧
      s.m_ending = ending_e.EXTINCTION ∧
      ∃ s', updates dead_file 3 s = Except.ok s' ∧ s'.m_ending = s.m_ending :=
  ⟨_, rfl, rfl,
    C6_cause_never_changes dead_file 2 2 3 _ rfl (by decide)⟩

/-- C7: in every run of advance steps from a binary initial grid with an empty
history, the `k`-th step (it processes the grid of generation `k`) returns its
stability test, and the test is true if and only if the grid of generation
`k` is equal, cell for cell, to the grid of some earlier generation `j < k`.
So when the run enters a 2-cycle (`g3 = g1`, `g2 != g1`) the test is true at
the step that processes generation 3 and false at the two steps before. -/
theorem C7_stability_iff_repeat (s0 : LifeCfg) (h : Rect s0.m_rows s0.m_cols s0.m_table)
    (hb : Binary s0.m_table) (hhist : s0.m_old_tables = []) :
    (∀ k, 1 ≤ k → ∃ gk b, generation s0 k = some gk ∧ stability_at_step s0 k = some b ∧
      (b = true ↔ ∃ j, 1 ≤ j ∧ j < k ∧ generation s0 j = some gk)) ∧
    (generation s0 3 = generation s0 1 → generation s0 2 ≠ generation s0 1 →
      stability_at_step s0 3 = some true ∧ stability_at_step s0 2 = some false ∧
        stability_at_step s0 1 = some false) := by
  have main : ∀ k, 1 ≤ k → ∃ gk b, generation s0 k = some gk ∧
      stability_at_step s0 k = some b ∧
      (b = true ↔ ∃ j, 1 ≤ j ∧ j < k ∧ generation s0 j = some gk) := by
    intro k hk
    obtain ⟨k', rfl⟩ : ∃ k', k = k' + 1 := ⟨k - 1, by omega⟩
    obtain ⟨sk, h1, hiff⟩ := compare_iff_earlier_grid s0 h hb hhist k'
    refine ⟨sk.m_table, compare sk.m_old_tables (table_to_string sk.m_table), ?_, ?_, ?_⟩
    · simp [generation, h1]
    · simp [stability_at_step, h1]
    · rw [hiff]
      constructor
      · rintro ⟨i, hi, hgi⟩
        exact ⟨i + 1, by omega, by omega, hgi⟩
      · rintro ⟨j, hj1, hjk, hgj⟩
        obtain ⟨i, rfl⟩ : ∃ i, j = i + 1 := ⟨j - 1, by omega⟩
        exact ⟨i, by omega, hgj⟩
  refine ⟨main, fun h31 h21 => ?_⟩
  obtain ⟨g3, b3, e3, t3, i3⟩ := main 3 (by omega)
  obtain ⟨g2, b2, e2, t2, i2⟩ := main 2 (by omega)
  obtain ⟨g1, b1, e1, t1, i1⟩ := main 1 (by omega)
  refine ⟨?_, ?_, ?_⟩
  · rw [t3]
    congr 1
    exact i3.mpr ⟨1, by omega, by omega, by rw [← h31]; exact e3⟩
  · rw [t2]
    congr 1
    cases hb2 : b2 with
    | false => rfl
    | true =>
      exfalso
      obtain ⟨j, hj1, hj2, hgj⟩ := i2.mp hb2
      have hj : j = 1 := by omega
      subst hj
      exact h21 (by rw [e2, hgj])
  · rw [t1]
    congr 1
    cases hb1 : b1 with
    | false => rfl
    | true =>
      exfalso
      obtain ⟨j, hj1, hj2, -⟩ := i1.mp hb1
      omega

/-- C7, witness: the blinker of `blinker_state`, a 2-cycle; the stability
test is true at the third step and false at the first two. -/
theorem C7_stability_iff_repeat_witness :
    Rect blinker_state.m_rows blinker_state.m_cols blinker_state.m_table ∧
    Binary blinker_state.m_table ∧ blinker_state.m_old_tables = [] ∧
    generation blinker_state 3 = generation blinker_state 1 ∧
    generation blinker_state 2 ≠ generation blinker_state 1 ∧
    stability_at_step blinker_state 3 = some true ∧
    stability_at_step blinker_state 2 = some false ∧
    stability_at_step blinker_state 1 = some false :=
  ⟨by decide, by decide, rfl, by decide, by decide,
    (C7_stability_iff_repeat blinker_state (by decide) (by decide) rfl).2
      (by decide) (by decide)⟩

/-- C8: for every list of snapshots `olds` and every snapshot `t`,
`compare olds t` is true if and only if `t` is equal to some element of
`olds`; it is the membership test of the set built from the list, and so any
list with the same elements (reordered, with duplicates) gives the same
answer. -/
theorem C8_compare_is_set_membership (olds : List (List Char)) (t : List Char) :
    (compare olds t = true ↔ t ∈ olds) ∧
    compare olds t = history_set_contains olds.toFinset t ∧
    (∀ olds' : List (List Char), (∀ x, x ∈ olds ↔ x ∈ olds') →
      compare olds' t = compare olds t) := by
  refine ⟨compare_iff_mem olds t, ?_, ?_⟩
  · rw [Bool.eq_iff_iff, compare_iff_mem]
    simp [history_set_contains]
  · intro olds' hsame
    rw [Bool.eq_iff_iff, compare_iff_mem, compare_iff_mem]
    exact (hsame t).symm

/-- C8, witness: a history of two snapshots, scanned in both orders and with
a duplicate. -/
theorem C8_compare_is_set_membership_witness :
    compare [['1', '\n'], ['0', '\n'], ['1', '\n']] ['0', '\n'] =
      compare [['0', '\n'], ['1', '\n']] ['0', '\n'] :=
  (C8_compare_is_set_membership [['0', '\n'], ['1', '\n']] ['0', '\n']).2.2
    [['1', '\n'], ['0', '\n'], ['1', '\n']] (by intro x; simp; tauto)

/-- C9: for every run of `update_gen` from an initial state with an empty
history and generation counter 1 (grid rectangular with the recorded
dimensions), the `k` executions all return and after them the history has
exactly `k` entries, entry `i` (0-based) is the snapshot of the grid of
generation `i + 1`, the history after any `j <= k` executions is a prefix of
the history after `k`, and the generation counter equals `k + 1` as long as
`k + 1` fits 32 bits. -/
theorem C9_history_one_entry_per_generation (s0 : LifeCfg)
    (h : Rect s0.m_rows s0.m_cols s0.m_table) (hhist : s0.m_old_tables = [])
    (hgen : s0.m_n_gen = 1) (k : Nat) :
    ∃ sk, update_gens k s0 = some sk ∧
      sk.m_old_tables.length = k ∧
      (∀ i, i < k → ∃ g, generation s0 (i + 1) = some g ∧
        sk.m_old_tables[i]? = some (table_to_string g)) ∧
      (∀ j, j ≤ k → ∃ sj, update_gens j s0 = some sj ∧
        sj.m_old_tables <+: sk.m_old_tables) ∧
      (k + 1 < 4294967296 → sk.m_n_gen = k + 1) := by
  obtain ⟨sk, h1, -, -, -, -, hn, hlen, -, hent⟩ := update_gens_spec s0 h k
  rw [hhist, List.length_nil, Nat.zero_add] at hlen
  refine ⟨sk, h1, hlen, ?_, ?_, ?_⟩
  · intro i hi
    obtain ⟨si, hsi, hget⟩ := hent i hi
    rw [hhist, List.length_nil, Nat.zero_add] at hget
    exact ⟨si.m_table, by simp [generation, hsi], hget⟩
  · intro j hj
    exact update_gens_prefix s0 h j k hj sk h1
  · intro hk
    rw [hn (by rw [hgen]; decide), hgen, Nat.add_comm 1 k]
    exact Nat.mod_eq_of_lt hk

/-- C9, witness: three executions of `update_gen` from `blinker_state`. -/
theorem C9_history_one_entry_per_generation_witness :
    Rect blinker_state.m_rows blinker_state.m_cols blinker_state.m_table ∧
    blinker_state.m_old_tables = [] ∧ blinker_state.m_n_gen = 1 ∧
    ∃ sk, update_gens 3 blinker_state = some sk ∧
      sk.m_old_tables.length = 3 ∧
      (∀ i, i < 3 → ∃ g, generation blinker_state (i + 1) = some g ∧
        sk.m_old_tables[i]? = some (table_to_string g)) ∧
      (∀ j, j ≤ 3 → ∃ sj, update_gens j blinker_state = some sj ∧
        sj.m_old_tables <+: sk.m_old_tables) ∧
      (3 + 1 < 4294967296 → sk.m_n_gen = 3 + 1) :=
  ⟨by decide, rfl, rfl,
    C9_history_one_entry_per_generation blinker_state (by decide) rfl rfl 3⟩

/-- C10: for every binary grid (rectangular with the recorded dimensions),
`update_gen` called on it returns; when the grid has no alive cell the stop
flag is set and the cause is EXTINCTION; when at least one cell is alive the
call does not record EXTINCTION (a cause other than EXTINCTION before the
call is other than EXTINCTION after it). `all_dead` of the snapshot is true
exactly when every cell is `0`. -/
theorem C10_extinction_iff_all_dead (s : LifeCfg) (h : Rect s.m_rows s.m_cols s.m_table)
    (hb : Binary s.m_table) :
    ∃ s', update_gen s = some s' ∧
      ((∀ row ∈ s.m_table, ∀ cell ∈ row, cell = 0) →
        s'.m_stop = true ∧ s'.m_ending = ending_e.EXTINCTION) ∧
      ((∃ row ∈ s.m_table, ∃ cell ∈ row, cell = 1) →
        s.m_ending ≠ ending_e.EXTINCTION → s'.m_ending ≠ ending_e.EXTINCTION) ∧
      (all_dead (table_to_string s.m_table) = true ↔
        ∀ row ∈ s.m_table, ∀ cell ∈ row, cell = 0) := by
  obtain ⟨s', h1, -, -, -, -, -, -, -, -, -, hs, he⟩ := update_gen_spec s h
  refine ⟨s', h1, ?_, ?_, all_dead_snapshot_iff _ hb⟩
  · intro hz
    have hd := (all_dead_snapshot_iff _ hb).mpr hz
    rw [hs, he, if_pos hd, hd]
    simp
  · rintro ⟨row, hrow, cell, hcell, hone⟩ hne
    have hd : ¬ all_dead (table_to_string s.m_table) = true := by
      intro hd
      have := (all_dead_snapshot_iff _ hb).mp hd row hrow cell hcell
      omega
    rw [he, if_neg hd]
    split
    · exact fun hc => by cases hc
    · split
      · exact fun hc => by cases hc
      · exact hne

/-- C10, witness: the all-dead state `dead_state`. -/
theorem C10_extinction_iff_all_dead_witness :
    Rect dead_state.m_rows dead_state.m_cols dead_state.m_table ∧
    Binary dead_state.m_table ∧
    (∀ row ∈ dead_state.m_table, ∀ cell ∈ row, cell = 0) ∧
    ∃ s', update_gen dead_state = some s' ∧ s'.m_stop = true ∧
      s'.m_ending = ending_e.EXTINCTION := by
  have hz : ∀ row ∈ dead_state.m_table, ∀ cell ∈ row, cell = 0 := by decide
  obtain ⟨s', h1, h2, -⟩ := C10_extinction_iff_all_dead dead_state (by decide) (by decide)
  exact ⟨by decide, by decide, hz, s', h1, h2 hz⟩

/-- C11, on the code: with the maximum set to 1 the counter, which starts at
1 and is incremented before it is compared, never equals the maximum. In the
run on `blinker_file` with maximum 1 the controller is still in RUNNING after
`M + 1 = 2` update calls, with the counter at 2 and the stop flag clear; it
stops two steps later, for stability, with the counter at 4. -/
theorem C11_maximum_one_is_overrun :
    (∃ s, updates blinker_file 2 (start 1 LifeCfg.init) = Except.ok s ∧
      s.m_maxgen = 1 ∧ s.m_state = state_e.RUNNING ∧ s.m_stop = false ∧ s.m_n_gen = 2) ∧
    (∃ s, updates blinker_file 4 (start 1 LifeCfg.init) = Except.ok s ∧
      s.m_state = state_e.RUNNING ∧ s.m_stop = true ∧ s.m_n_gen = 4 ∧
      s.m_ending = ending_e.STABILITY) ∧
    (∃ s, updates blinker_file 5 (start 1 LifeCfg.init) = Except.ok s ∧
      s.m_state = state_e.END ∧ s.m_n_gen = 4) :=
  ⟨⟨_, rfl, rfl, rfl, rfl, rfl⟩, ⟨_, rfl, rfl, rfl, rfl, rfl⟩, ⟨_, rfl, rfl, rfl⟩⟩

/-- C12, as stated, fails on the code. In the run on `blinker_file` with
maximum 5 the third advance step finds generation 3 equal to generation 1:
after four update calls the stop flag is set with the counter at 4, before it
reaches 5, and the cause recorded is STABILITY, not MAXGEN. -/
theorem C12_counterexample :
    (∃ s, updates blinker_file 3 (start 5 LifeCfg.init) = Except.ok s ∧
      s.m_stop = false ∧ s.m_n_gen = 3) ∧
    (∃ s, updates blinker_file 4 (start 5 LifeCfg.init) = Except.ok s ∧
      s.m_maxgen = 5 ∧ s.m_stop = true ∧ s.m_n_gen = 4 ∧
      s.m_ending = ending_e.STABILITY) :=
  ⟨⟨_, rfl, rfl, rfl⟩, ⟨_, rfl, rfl, rfl, rfl, rfl⟩⟩

/-- C12, amended: with the maximum generation count set to 5, in a run of
advance steps from a binary grid (empty history, counter 1, stop flag clear,
cause UNDEFINED): if generations 1, 2 and 3 are pairwise different and
generations 1 to 4 each have an alive cell, the stop flag is not set before
the counter reaches 5 and the step that brings the counter to 5 records
MAXGEN; if instead the pattern has period 2 (generation 3 equal to generation
1, generation 2 different, both alive), the stop flag is set one step
earlier, with the counter at 4, and the cause recorded is STABILITY. -/
theorem C12_maxgen_five_or_stability (s0 : LifeCfg)
    (h : Rect s0.m_rows s0.m_cols s0.m_table) (hb : Binary s0.m_table)
    (hhist : s0.m_old_tables = []) (hgen : s0.m_n_gen = 1) (hstop : s0.m_stop = false)
    (hend : s0.m_ending = ending_e.UNDEFINED) (hmax : s0.m_maxgen = 5) :
    ((generation s0 2 ≠ generation s0 1 ∧ generation s0 3 ≠ generation s0 1 ∧
        generation s0 3 ≠ generation s0 2) →
      (∀ k, 1 ≤ k → k ≤ 4 → ∃ g, generation s0 k = some g ∧ has_alive g) →
      (∀ k, k ≤ 3 → ∃ s, update_gens k s0 = some s ∧ s.m_stop = false ∧
        s.m_n_gen = k + 1) ∧
      ∃ s4, update_gens 4 s0 = some s4 ∧ s4.m_stop = true ∧ s4.m_n_gen = 5 ∧
        s4.m_ending = ending_e.MAXGEN) ∧
    (generation s0 3 = generation s0 1 → generation s0 2 ≠ generation s0 1 →
      (∀ k, 1 ≤ k → k ≤ 2 → ∃ g, generation s0 k = some g ∧ has_alive g) →
      (∀ k, k ≤ 2 → ∃ s, update_gens k s0 = some s ∧ s.m_stop = false ∧
        s.m_n_gen = k + 1) ∧
      ∃ s3, update_gens 3 s0 = some s3 ∧ s3.m_stop = true ∧ s3.m_n_gen = 4 ∧
        s3.m_ending = ending_e.STABILITY) := by
  refine ⟨fun hd halive => ?_, fun h31 h21 halive => ?_⟩
  · obtain ⟨d21, d31, d32⟩ := hd
    have hdist : ∀ j k, 1 ≤ j → j < k → k ≤ 3 → generation s0 j ≠ generation s0 k := by
      intro j k hj hjk hk3
      have hcases : (j = 1 ∧ k = 2) ∨ (j = 1 ∧ k = 3) ∨ (j = 2 ∧ k = 3) := by omega
      rcases hcases with ⟨rfl, rfl⟩ | ⟨rfl, rfl⟩ | ⟨rfl, rfl⟩
      · exact Ne.symm d21
      · exact Ne.symm d31
      · exact Ne.symm d32
    have hquiet := quiet_run s0 h hb hhist hgen hstop hend 3 (by decide)
      (fun k hk => by rw [hmax]; omega) hdist
      (fun k hk1 hk3 => halive k hk1 (by omega))
    refine ⟨fun k hk => ?_, ?_⟩
    · obtain ⟨s, h1, hs, -, hn⟩ := hquiet k hk
      exact ⟨s, h1, hs, hn⟩
    · obtain ⟨s, h1, hs, he, -⟩ := hquiet 3 (Nat.le_refl _)
      obtain ⟨sk, sk1, k1, k2, kgen, -, kn, kstop, kend, -, kdead⟩ :=
        update_gens_step s0 h hb hhist hgen 3 (by decide)
      have c3 : ¬ all_dead (table_to_string sk.m_table) = true := by
        intro hdead
        obtain ⟨g, hg, hga⟩ := halive 4 (by omega) (by omega)
        rw [kgen] at hg
        cases hg
        exact kdead.mp hdead hga
      refine ⟨sk1, k2, ?_, kn, ?_⟩
      · rw [kstop, hmax]
        simp
      · rw [kend, hmax, if_neg c3, if_pos rfl]
  · have hdist : ∀ j k, 1 ≤ j → j < k → k ≤ 2 → generation s0 j ≠ generation s0 k := by
      intro j k hj hjk hk2
      have hcases : j = 1 ∧ k = 2 := by omega
      obtain ⟨rfl, rfl⟩ := hcases
      exact Ne.symm h21
    have hquiet := quiet_run s0 h hb hhist hgen hstop hend 2 (by decide)
      (fun k hk => by rw [hmax]; omega) hdist halive
    refine ⟨fun k hk => ?_, ?_⟩
    · obtain ⟨s, h1, hs, -, hn⟩ := hquiet k hk
      exact ⟨s, h1, hs, hn⟩
    · obtain ⟨sk, sk1, k1, k2, kgen, -, kn, kstop, kend, kcmp, kdead⟩ :=
        update_gens_step s0 h hb hhist hgen 2 (by decide)
      have c1 : compare sk.m_old_tables (table_to_string sk.m_table) = true :=
        kcmp.mpr ⟨1, by omega, by omega, by rw [← h31, kgen]⟩
      have c3 : ¬ all_dead (table_to_string sk.m_table) = true := by
        intro hdead
        obtain ⟨g, hg, hga⟩ := halive 1 (by omega) (by omega)
        rw [← h31, kgen] at hg
        cases hg
        exact kdead.mp hdead hga
      refine ⟨sk1, k2, ?_, kn, ?_⟩
      · rw [kstop, c1]
        simp
      · rw [kend, hmax, if_neg c3, if_neg (by decide), if_pos c1]

/-- C12 amended, witness: from `glider_state` (maximum 5) the first four
generations are pairwise different and alive, and the fourth step records
MAXGEN with the counter at 5. -/
theorem C12_maxgen_five_or_stability_witness :
    Rect glider_state.m_rows glider_state.m_cols glider_state.m_table ∧
    Binary glider_state.m_table ∧ glider_state.m_maxgen = 5 ∧
    (generation glider_state 2 ≠ generation glider_state 1 ∧
      generation glider_state 3 ≠ generation glider_state 1 ∧
      generation glider_state 3 ≠ generation glider_state 2) ∧
    (∀ k, k ≤ 3 → ∃ s, update_gens k glider_state = some s ∧ s.m_stop = false ∧
      s.m_n_gen = k + 1) ∧
    ∃ s4, update_gens 4 glider_state = some s4 ∧ s4.m_stop = true ∧ s4.m_n_gen = 5 ∧
      s4.m_ending = ending_e.MAXGEN := by
  have hd : generation glider_state 2 ≠ generation glider_state 1 ∧
      generation glider_state 3 ≠ generation glider_state 1 ∧
      generation glider_state 3 ≠ generation glider_state 2 := by decide
  have halive : ∀ k, 1 ≤ k → k ≤ 4 →
      ∃ g, generation glider_state k = some g ∧ has_alive g := by
    intro k hk1 hk4
    have hcases : k = 1 ∨ k = 2 ∨ k = 3 ∨ k = 4 := by omega
    rcases hcases with rfl | rfl | rfl | rfl
    · exact ⟨_, rfl, by decide⟩
    · exact ⟨_, rfl, by decide⟩
    · exact ⟨_, rfl, by decide⟩
    · exact ⟨_, rfl, by decide⟩
  obtain ⟨hq, h4⟩ := (C12_maxgen_five_or_stability glider_state (by decide) (by decide)
    rfl rfl rfl rfl rfl).1 hd halive
  exact ⟨by decide, by decide, rfl, hd, hq, h4⟩

/-- C13, on the code: the invariant `buffer length = width x height x 4` does
not survive `start_canva`. The member `m_canvas` of the controller, built as
`Canvas(0, 0, 5)` and then given the dimensions of a 3x3 grid by
`start_canva`, has width 3, height 3 and an empty buffer, so that a pixel
write at `(0, 0)` would fall outside the buffer. -/
theorem C13_start_canva_leaves_buffer_unsized :
    ∃ cv, starting_canvas 5 3 3 = some cv ∧ cv.m_width = 3 ∧ cv.m_height = 3 ∧
      cv.m_pixels.length = 0 ∧ cv.m_width * cv.m_height * 4 = 36 ∧
      cv.pixel_set 0 0 BLACK = none :=
  ⟨_, rfl, rfl, rfl, rfl, rfl, rfl⟩

/-- C14: for every canvas built by the constructor and every later sequence
of `clear` and pixel-write calls, with any colours and any coordinates, the
alpha byte of every pixel of the buffer (every byte at an index congruent to
3 modulo 4) is `255`; and when `w * h * 4` fits `size_t` every call of the
sequence returns, with the buffer at `w * h * 4` bytes. -/
theorem C14_alpha_always_opaque (w h : Nat) (bs : Int) (ops : List CanvasOp) :
    (∀ cv, (Canvas.new w h bs).bind (fun cv0 => apply_ops cv0 ops) = some cv →
      ∀ i, i < cv.m_pixels.length → i % 4 = 3 → cv.m_pixels[i]? = some 255) ∧
    (w * h * 4 < 18446744073709551616 →
      ∃ cv, (Canvas.new w h bs).bind (fun cv0 => apply_ops cv0 ops) = some cv ∧
        cv.m_pixels.length = w * h * 4) := by
  obtain ⟨cv0, h0, hw, hh, -, hlen, ha⟩ := Canvas.new_spec w h bs
  have h4 : cv0.m_pixels.length % 4 = 0 := by rw [hlen]; omega
  refine ⟨fun cv hcv => ?_, fun hsize => ?_⟩
  · rw [h0, Option.some_bind] at hcv
    exact (apply_ops_keeps ops cv0 cv hcv h4 ha).2.2.2
  · have hwf : CanvasWF cv0 := by
      rw [CanvasWF, hw, hh, hlen, Nat.mod_eq_of_lt hsize]
      exact ⟨rfl, hsize⟩
    obtain ⟨cv, hcv⟩ := apply_ops_total ops cv0 hwf
    refine ⟨cv, by rw [h0, Option.some_bind]; exact hcv, ?_⟩
    rw [(apply_ops_keeps ops cv0 cv hcv h4 ha).2.2.1, hlen, Nat.mod_eq_of_lt hsize]

/-- C14, witness: a 2x1 canvas after a pixel write, a `clear` and a pixel
write outside the canvas. -/
theorem C14_alpha_always_opaque_witness :
    ∃ cv, (Canvas.new 2 1 5).bind (fun cv0 => apply_ops cv0
        [CanvasOp.pixel 1 0 ⟨9, 8, 7⟩, CanvasOp.clear ⟨1, 2, 3⟩,
          CanvasOp.pixel 5 5 ⟨4, 4, 4⟩]) = some cv ∧
      cv.m_pixels.length = 2 * 1 * 4 ∧ cv.m_pixels[3]? = some 255 ∧
      cv.m_pixels[7]? = some 255 := by
  obtain ⟨hall, hsome⟩ := C14_alpha_always_opaque 2 1 5
    [CanvasOp.pixel 1 0 ⟨9, 8, 7⟩, CanvasOp.clear ⟨1, 2, 3⟩, CanvasOp.pixel 5 5 ⟨4, 4, 4⟩]
  obtain ⟨cv, hcv, hlen⟩ := hsome (by decide)
  exact ⟨cv, hcv, hlen, hall cv hcv 3 (by rw [hlen]; decide) rfl,
    hall cv hcv 7 (by rw [hlen]; decide) rfl⟩

/-- C15: for every canvas, every colour and every coordinate `(x, y)` with
`x >= width` or `y >= height`, the pixel write returns and leaves the canvas
as it was: width, height, block size and the buffer byte for byte. -/
theorem C15_pixel_write_outside_is_ignored (cv : Canvas) (x y : Nat) (color : Color)
    (h : cv.m_width ≤ x ∨ cv.m_height ≤ y) : cv.pixel_set x y color = some cv := by
  unfold Canvas.pixel_set
  rw [if_neg (by omega)]

/-- C15, witness: a write at `(2, 0)` on a canvas of width 2. -/
theorem C15_pixel_write_outside_is_ignored_witness :
    (⟨2, 1, 5, [0, 0, 0, 255, 0, 0, 0, 255]⟩ : Canvas).pixel_set 2 0 ⟨9, 8, 7⟩ =
      some ⟨2, 1, 5, [0, 0, 0, 255, 0, 0, 0, 255]⟩ :=
  C15_pixel_write_outside_is_ignored ⟨2, 1, 5, [0, 0, 0, 255, 0, 0, 0, 255]⟩ 2 0 ⟨9, 8, 7⟩
    (Or.inl (by decide))

/-- C16: for every canvas and every coordinate `(x, y)` with `x >= width` or
`y >= height`, the pixel read returns the colour `BLACK`; it does not fail. -/
theorem C16_pixel_read_outside_is_black (cv : Canvas) (x y : Nat)
    (h : cv.m_width ≤ x ∨ cv.m_height ≤ y) : cv.pixel_get x y = some BLACK := by
  unfold Canvas.pixel_get
  rw [if_neg (by omega)]

/-- C16, witness: a read at `(0, 1)` on a canvas of height 1 filled with a
colour other than black. -/
theorem C16_pixel_read_outside_is_black_witness :
    (⟨2, 1, 5, [9, 8, 7, 255, 9, 8, 7, 255]⟩ : Canvas).pixel_get 0 1 = some BLACK :=
  C16_pixel_read_outside_is_black ⟨2, 1, 5, [9, 8, 7, 255, 9, 8, 7, 255]⟩ 0 1
    (Or.inr (by decide))

/-- C17, on the code: a pixel read outside the canvas does not fail. On the
2x2 canvas of the constructor the reads at `(5, 0)` and at `(0, 2)` return
the colour `BLACK`, where the doc comment of the getter announces
`std::invalid_argument`. -/
theorem C17_pixel_read_outside_does_not_throw :
    ∃ cv, Canvas.new 2 2 5 = some cv ∧ cv.pixel_get 5 0 = some BLACK ∧
      cv.pixel_get 0 2 = some BLACK :=
  ⟨_, rfl, rfl, rfl⟩

/-- C18: for every binary `rows x cols` grid with at least one row, every
alive and dead colour and every block size, the canvas rendered for a
generation (constructed with the width `cols` and the height `rows` that
`m_canvas` carries, then filled by `paint_pixel`) is returned, has width
`cols`, height `rows` and one pixel of four bytes per cell, and for every
`r < rows` and `c < cols` the pixel read at `(x = c, y = r)` is the alive
colour if cell `(r, c)` is `1` and the dead colour if it is `0`. The product
`cols * rows * 4` is taken to fit `size_t`. -/
theorem C18_render_one_pixel_per_cell (t : List (List Nat)) (rows cols : Nat)
    (ht : Rect rows cols t) (hb : Binary t) (hr1 : 1 ≤ rows)
    (hsize : cols * rows * 4 < 18446744073709551616) (m_canvas : Canvas)
    (hw : m_canvas.m_width = cols) (hh : m_canvas.m_height = rows) (m_pixel : Nat)
    (alive dead : Color) :
    ∃ cv, render_generation t m_canvas m_pixel alive dead = some cv ∧
      cv.m_width = cols ∧ cv.m_height = rows ∧ cv.m_pixels.length = cols * rows * 4 ∧
      ∀ r c, r < rows → c < cols →
        ∃ v, cell_at t r c = some v ∧ (v = 1 → cv.pixel_get c r = some alive) ∧
          (v = 0 → cv.pixel_get c r = some dead) := by
  obtain ⟨cv, h1, hwf, hw1, hh1, -, hget⟩ :=
    render_generation_spec ht hb hr1 hsize m_canvas hw hh m_pixel alive dead
  refine ⟨cv, h1, hw1, hh1, by rw [hwf.1, hw1, hh1], fun r c hr hc => ?_⟩
  obtain ⟨v, hv⟩ := ht.cell_at_some hr hc
  refine ⟨v, hv, fun h => ?_, fun h => ?_⟩
  · rw [hget c r hc hr, cell_colour, hv, Option.map_some', if_pos h]
  · rw [hget c r hc hr, cell_colour, hv, Option.map_some', if_neg (by omega)]

/-- C18, witness: the 3x3 grid whose only live cell is at row 1, column 2,
rendered in red on green: the pixel at `(x = 2, y = 1)` is red, the other
eight are green. -/
theorem C18_render_one_pixel_per_cell_witness :
    (∃ cv, render_generation one_cell_table ⟨3, 3, 5, []⟩ 5 ⟨255, 0, 0⟩ ⟨0, 255, 0⟩ = some cv ∧
      cv.m_width = 3 ∧ cv.m_height = 3 ∧ cv.m_pixels.length = 3 * 3 * 4 ∧
      ∀ r c, r < 3 → c < 3 →
        ∃ v, cell_at one_cell_table r c = some v ∧
          (v = 1 → cv.pixel_get c r = some ⟨255, 0, 0⟩) ∧
          (v = 0 → cv.pixel_get c r = some ⟨0, 255, 0⟩)) ∧
    (∃ cv, render_generation one_cell_table ⟨3, 3, 5, []⟩ 5 ⟨255, 0, 0⟩ ⟨0, 255, 0⟩ = some cv ∧
      cv.pixel_get 2 1 = some ⟨255, 0, 0⟩ ∧
      cv.pixel_get 0 0 = some ⟨0, 255, 0⟩ ∧ cv.pixel_get 1 0 = some ⟨0, 255, 0⟩ ∧
      cv.pixel_get 2 0 = some ⟨0, 255, 0⟩ ∧ cv.pixel_get 0 1 = some ⟨0, 255, 0⟩ ∧
      cv.pixel_get 1 1 = some ⟨0, 255, 0⟩ ∧ cv.pixel_get 0 2 = some ⟨0, 255, 0⟩ ∧
      cv.pixel_get 1 2 = some ⟨0, 255, 0⟩ ∧ cv.pixel_get 2 2 = some ⟨0, 255, 0⟩) :=
  ⟨C18_render_one_pixel_per_cell one_cell_table 3 3 (by decide) (by decide) (by decide)
      (by decide) ⟨3, 3, 5, []⟩ rfl rfl 5 ⟨255, 0, 0⟩ ⟨0, 255, 0⟩,
    ⟨_, rfl, rfl, rfl, rfl, rfl, rfl, rfl, rfl, rfl, rfl⟩⟩

/-- C19: one call of `update` performs one transition of the state machine.
In STARTING it returns exactly when the load does and then leaves the loaded
state in RUNNING. In RUNNING with the stop flag set it goes to END and leaves
the grid, the history and the generation counter unchanged. In RUNNING with
the stop flag clear (grid rectangular with the recorded dimensions) it
returns the state of one advance step, `update_gen`, still in RUNNING. In END
it stays in END and sets the exit flag. No call made in STARTING or RUNNING
changes the exit flag. -/
theorem C19_update_one_transition (file : GridFile) (s : LifeCfg) :
    (s.m_state = state_e.STARTING →
      (∀ s1, read_file file s = Except.ok s1 →
        update file s = Except.ok { s1 with m_state := state_e.RUNNING }) ∧
      (∀ e, read_file file s = Except.error e → update file s = Except.error e)) ∧
    (s.m_state = state_e.RUNNING → s.m_stop = true →
      ∃ s', update file s = Except.ok s' ∧ s'.m_state = state_e.END ∧
        s'.m_table = s.m_table ∧ s'.m_old_tables = s.m_old_tables ∧
        s'.m_n_gen = s.m_n_gen ∧ s'.m_exit = s.m_exit) ∧
    (s.m_state = state_e.RUNNING → s.m_stop = false →
      Rect s.m_rows s.m_cols s.m_table →
      ∃ s', update file s = Except.ok s' ∧ update_gen s = some s' ∧
        s'.m_state = state_e.RUNNING ∧ s'.m_exit = s.m_exit) ∧
    (s.m_state = state_e.END →
      ∃ s', update file s = Except.ok s' ∧ s'.m_state = state_e.END ∧ s'.m_exit = true) ∧
    (∀ s', s.m_state = state_e.STARTING ∨ s.m_state = state_e.RUNNING →
      update file s = Except.ok s' → s'.m_exit = s.m_exit) := by
  refine ⟨fun hst => ⟨fun s1 h1 => ?_, fun e he => ?_⟩, fun hst hstop => ?_,
    fun hst hstop hrect => ?_, fun hst => ?_, fun s' hst hu => ?_⟩
  · simp [update, hst, h1]
  · simp [update, hst, he]
  · exact ⟨{ s with m_state := state_e.END }, by simp [update, hst, hstop], rfl, rfl, rfl,
      rfl, rfl⟩
  · obtain ⟨s', h1, -, -, -, -, -, e6, e7, -⟩ := update_gen_spec s hrect
    exact ⟨s', by simp [update, hst, hstop, h1], h1, by rw [e6, hst], e7⟩
  · exact ⟨{ s with m_exit := true }, by simp [update, hst], hst, rfl⟩
  · rcases hst with hst | hst
    · unfold update at hu
      simp only [hst] at hu
      split at hu
      · cases hu
      · next s1 h1 =>
        cases hu
        unfold read_file at h1
        split at h1
        · cases h1
        · split at h1
          · cases h1
          · cases h1
          · simp only [] at h1
            split at h1
            · cases h1
            · split at h1
              · cases h1
              · cases h1
                rfl
    · unfold update at hu
      simp only [hst] at hu
      split at hu
      · cases hu
        rfl
      · split at hu
        · cases hu
        · next s1 h1 =>
          cases hu
          exact (update_gen_fields s s' h1).2.2.2.2.2.2.1

/-- C19, witness: the run on `dead_file` with maximum 2, call by call:
STARTING to RUNNING, one advance step in RUNNING, RUNNING to END, END with
the exit flag set. -/
theorem C19_update_one_transition_witness :
    (∃ s', update dead_file dead_state = Except.ok s' ∧ update_gen dead_state = some s' ∧
      s'.m_state = state_e.RUNNING ∧ s'.m_exit = dead_state.m_exit) ∧
    (∃ s', update dead_file (start 2 LifeCfg.init) = Except.ok s' ∧
      s'.m_state = state_e.RUNNING) :=
  ⟨(C19_update_one_transition dead_file dead_state).2.2.1 rfl rfl (by decide),
    ⟨_, ((C19_update_one_transition dead_file (start 2 LifeCfg.init)).1 rfl).1 _ rfl, rfl⟩⟩

/-- C20, on the code: a header that declares a negative number of rows is not
rejected. `read_file` stores the value `std::stoi` returns in the unsigned
`m_rows`; for the header `-1 3` that is `4294967295`, the test
`m_cols < 3 || m_rows < 3` is false and the load goes on to build the table
instead of ending with `EXIT_FAILURE`. -/
theorem C20_negative_rows_pass_the_check :
    ∃ s1, read_file negative_file LifeCfg.init = Except.ok s1 ∧
      s1.m_rows = 4294967295 ∧ s1.m_cols = 3 :=
  ⟨_, rfl, rfl, rfl⟩

/-- C21: for every torus with `rows >= 4` and `cols >= 4` (dimensions that
fit `int`) and every position `(r0, c0)` of a 2x2 block of alive cells with
all other cells dead, one application of the transition returns the same
grid, and so do two applications. -/
theorem C21_block_is_fixed_point (rows cols r0 c0 : Nat) (hr : 4 ≤ rows) (hc : 4 ≤ cols)
    (hrb : rows < 2147483648) (hcb : cols < 2147483648) :
    next_grid rows cols (place block_cells rows cols r0 c0)
        = some (place block_cells rows cols r0 c0) ∧
      next_grids rows cols 2 (place block_cells rows cols r0 c0)
        = some (place block_cells rows cols r0 c0) := by
  have s1 : next_grid rows cols (place block_cells rows cols r0 c0)
      = some (place block_cells rows cols r0 c0) :=
    place_step 2 block_cells block_cells (by decide) (by decide) (by decide) hr hc hrb hcb r0 c0
  exact ⟨s1, by simp only [next_grids, s1, Option.some_bind]⟩

/-- C21, witness: the block at the corner `(3, 3)` of the 4x4 torus, where it
wraps in both directions. -/
theorem C21_block_is_fixed_point_witness :
    place block_cells 4 4 3 3 = [[1, 0, 0, 1], [0, 0, 0, 0], [0, 0, 0, 0], [1, 0, 0, 1]] ∧
      next_grid 4 4 [[1, 0, 0, 1], [0, 0, 0, 0], [0, 0, 0, 0], [1, 0, 0, 1]]
        = some [[1, 0, 0, 1], [0, 0, 0, 0], [0, 0, 0, 0], [1, 0, 0, 1]] ∧
      next_grids 4 4 2 [[1, 0, 0, 1], [0, 0, 0, 0], [0, 0, 0, 0], [1, 0, 0, 1]]
        = some [[1, 0, 0, 1], [0, 0, 0, 0], [0, 0, 0, 0], [1, 0, 0, 1]] :=
  ⟨by decide, C21_block_is_fixed_point 4 4 3 3 (by decide) (by decide) (by decide) (by decide)⟩

/-- C22: for every grid with `rows >= 3` and `cols >= 3` (dimensions that fit
`int`) whose only alive cell is the cell `(r0, c0)`, that cell has no alive
neighbour, and the transition returns a grid of the same dimensions in which
every cell is dead. -/
theorem C22_single_cell_dies (rows cols : Nat) (g : List (List Nat)) (r0 c0 : Nat)
    (hr : 3 ≤ rows) (hc : 3 ≤ cols) (hrb : rows < 2147483648) (hcb : cols < 2147483648)
    (hg : Rect rows cols g) (hr0 : r0 < rows) (hc0 : c0 < cols)
    (H : ∀ r c, r < rows → c < cols → (cell_at g r c = some 1 ↔ r = r0 ∧ c = c0)) :
    torus_count g rows cols r0 c0 = 0 ∧
      ∃ g', next_grid rows cols g = some g' ∧ Rect rows cols g' ∧
        (∀ r c, r < rows → c < cols → cell_at g' r c = some 0) ∧ ¬ has_alive g' := by
  have H' : ∀ r c, r < rows → c < cols →
      (cell_at g r c = some 1 ↔
        in_window 1 [(0, 0)] (offset r r0 rows) (offset c c0 cols) = true) := by
    intro r c hrr hcc
    rw [H r c hrr hcc]
    have o1 := offset_eq_iff (i := 0) r0 hrr (by omega)
    have o2 := offset_eq_iff (i := 0) c0 hcc (by omega)
    rw [Nat.add_zero, Nat.mod_eq_of_lt hr0] at o1
    rw [Nat.add_zero, Nat.mod_eq_of_lt hc0] at o2
    rw [← o1, ← o2]
    simp only [in_window, Bool.and_eq_true, decide_eq_true_eq, List.contains_eq_any_beq,
      List.any_cons, List.any_nil, Bool.or_false, beq_iff_eq, Prod.mk.injEq]
    omega
  constructor
  · rw [torus_count_pattern 1 [(0, 0)] hr hc r0 c0 H' hr0 hc0]
    have o1 : offset r0 r0 rows = 0 :=
      (offset_eq_iff r0 hr0 (by omega)).mpr (by rw [Nat.add_zero, Nat.mod_eq_of_lt hr0])
    have o2 : offset c0 c0 cols = 0 :=
      (offset_eq_iff c0 hc0 (by omega)).mpr (by rw [Nat.add_zero, Nat.mod_eq_of_lt hc0])
    rw [o1, o2]
    have k : ∀ n, kappa 1 n 0 = 0 := fun n => by simp [kappa]
    rw [k, k]
    decide
  · obtain ⟨g', h1, h2, h3⟩ := pattern_step 1 [(0, 0)] []
      (by decide) hr hc hrb hcb r0 c0 hg H'
    have hz : ∀ r c, r < rows → c < cols → cell_at g' r c = some 0 := by
      intro r c hrr hcc
      rw [h3 r c hrr hcc]
      simp [in_window]
    exact ⟨g', h1, h2, hz, not_has_alive_of_zero h2 hz⟩

/-- C22, witness: the 3x3 grid whose only alive cell is `(1, 2)`. -/
theorem C22_single_cell_dies_witness :
    torus_count one_cell_table 3 3 1 2 = 0 ∧
      ∃ g', next_grid 3 3 one_cell_table = some g' ∧ Rect 3 3 g' ∧
        (∀ r c, r < 3 → c < 3 → cell_at g' r c = some 0) ∧ ¬ has_alive g' :=
  C22_single_cell_dies 3 3 one_cell_table 1 2 (by decide) (by decide) (by decide) (by decide)
    (by decide) (by decide) (by decide)
    (fun r c hr hc => by interval_cases r <;> interval_cases c <;> decide)

/-- C23: for every torus with `rows >= 6` and `cols >= 6` (dimensions that
fit `int`) and every placement `(r0, c0)` of the glider, four applications of
the transition give the glider placed at `((r0 + 1) mod rows, (c0 + 1) mod
cols)`, which is the starting grid shifted cyclically by one row down and one
column right. -/
theorem C23_glider_moves_diagonally (rows cols r0 c0 : Nat) (hr : 6 ≤ rows) (hc : 6 ≤ cols)
    (hrb : rows < 2147483648) (hcb : cols < 2147483648) :
    next_grids rows cols 4 (place glider_cells rows cols r0 c0)
        = some (place glider_cells rows cols ((r0 + 1) % rows) ((c0 + 1) % cols)) ∧
      place glider_cells rows cols ((r0 + 1) % rows) ((c0 + 1) % cols)
        = shift_table rows cols 1 1 (place glider_cells rows cols r0 c0) := by
  constructor
  · rw [glider_four_steps hr hc hrb hcb r0 c0, place_moved]
    rfl
  · rw [shift_table_place glider_cells (by omega) (by omega) r0 c0 1 1,
      torus_index_one r0 rows (by omega), torus_index_one c0 cols (by omega)]

/-- C23, witness: the glider placed at `(5, 4)` of the 6x6 torus, where it
wraps in both directions, is after four transitions the glider placed at
`(0, 5)`. -/
theorem C23_glider_moves_diagonally_witness :
    place glider_cells 6 6 5 4 =
        [[1, 0, 0, 0, 0, 0], [1, 0, 0, 0, 1, 1], [0, 0, 0, 0, 0, 0],
          [0, 0, 0, 0, 0, 0], [0, 0, 0, 0, 0, 0], [0, 0, 0, 0, 0, 1]] ∧
      next_grids 6 6 4 (place glider_cells 6 6 5 4) =
        some [[1, 0, 0, 0, 0, 0], [0, 1, 0, 0, 0, 0], [1, 1, 0, 0, 0, 1],
          [0, 0, 0, 0, 0, 0], [0, 0, 0, 0, 0, 0], [0, 0, 0, 0, 0, 0]] ∧
      shift_table 6 6 1 1 (place glider_cells 6 6 5 4) =
        [[1, 0, 0, 0, 0, 0], [0, 1, 0, 0, 0, 0], [1, 1, 0, 0, 0, 1],
          [0, 0, 0, 0, 0, 0], [0, 0, 0, 0, 0, 0], [0, 0, 0, 0, 0, 0]] := by
  obtain ⟨h1, h2⟩ := C23_glider_moves_diagonally 6 6 5 4 (by decide) (by decide) (by decide)
    (by decide)
  refine ⟨by decide, ?_, ?_⟩
  · rw [h1]
    decide
  · rw [← h2]
    decide

/-- C24: `table_to_string` is injective on binary grids of any dimensions:
two grids whose cells are all `0` or `1` and whose snapshots are equal are
the same grid; so when the history scan `compare` finds the snapshot of a
binary grid among the snapshots of binary grids, that very grid is among
them. -/
theorem C24_snapshot_injective_on_binary :
    (∀ t1 t2 : List (List Nat), Binary t1 → Binary t2 →
      table_to_string t1 = table_to_string t2 → t1 = t2) ∧
    (∀ (hist : List (List (List Nat))) (t : List (List Nat)),
      (∀ g ∈ hist, Binary g) → Binary t →
      compare (hist.map table_to_string) (table_to_string t) = true → t ∈ hist) := by
  refine ⟨table_to_string_inj_of_binary, fun hist t hh ht hc => ?_⟩
  rw [compare_iff_mem, List.mem_map] at hc
  obtain ⟨g, hg, e⟩ := hc
  rw [← table_to_string_inj_of_binary g t (hh g hg) ht e]
  exact hg

/-- C24, witness: two binary grids with the same cells in another shape have
different snapshots, and the scan of a history of two grids does not report
a third. -/
theorem C24_snapshot_injective_on_binary_witness :
    table_to_string [[0, 1], [1, 0]] ≠ table_to_string [[0, 1, 1, 0]] ∧
      compare ([[[0, 1], [1, 0]], [[1, 1], [0, 0]]].map table_to_string)
        (table_to_string [[0, 1], [1, 1]]) = false := by
  refine ⟨fun h => ?_, ?_⟩
  · exact absurd (C24_snapshot_injective_on_binary.1 _ _ (by decide) (by decide) h) (by decide)
  · cases hc : compare ([[[0, 1], [1, 0]], [[1, 1], [0, 0]]].map table_to_string)
        (table_to_string [[0, 1], [1, 1]]) with
    | false => rfl
    | true =>
      exact absurd (C24_snapshot_injective_on_binary.2 _ _ (by decide) (by decide) hc)
        (by decide)

/-- C25: the transition commutes with the cyclic shift: for every
rectangular grid `g` (dimensions that fit `int`) and every shift `(a, b)`,
the transition of `g` returns a grid `g'`, and the transition of `g` shifted
by `(a, b)` returns `g'` shifted by `(a, b)`. -/
theorem C25_transition_commutes_with_shift (rows cols : Nat) (g : List (List Nat))
    (a b : Int) (hg : Rect rows cols g) (hrb : rows < 2147483648)
    (hcb : cols < 2147483648) :
    ∃ g', next_grid rows cols g = some g' ∧ Rect rows cols g' ∧
      next_grid rows cols (shift_table rows cols a b g)
        = some (shift_table rows cols a b g') :=
  next_grid_shift_table hg hrb hcb a b

/-- C25, witness: the 3x3 grid with one alive cell, shifted by 4 rows up and
7 columns right. -/
theorem C25_transition_commutes_with_shift_witness :
    shift_table 3 3 (-4) 7 one_cell_table = [[1, 0, 0], [0, 0, 0], [0, 0, 0]] ∧
      ∃ g', next_grid 3 3 one_cell_table = some g' ∧ Rect 3 3 g' ∧
        next_grid 3 3 (shift_table 3 3 (-4) 7 one_cell_table)
          = some (shift_table 3 3 (-4) 7 g') :=
  ⟨by decide, C25_transition_commutes_with_shift 3 3 one_cell_table (-4) 7 (by decide)
    (by decide) (by decide)⟩

/-- C26: for every canvas built by the constructor with width `w` and height
`h` (with `w * h * 4` inside `size_t`) and changed by any sequence of `clear`
and pixel-write calls, every colour `c` and every coordinate with `x < w` and
`y < h`: the pixel write returns; after it the pixel read at `(x, y)` returns
`c` and the pixel read at every other coordinate inside the canvas returns
what it returned before; width, height and buffer length are unchanged; and
the four bytes written lie below `w * h * 4`, every other byte is kept. -/
theorem C26_pixel_write_then_read (w h : Nat) (bs : Int) (ops : List CanvasOp)
    (x y : Nat) (c : Color) (hsize : w * h * 4 < 18446744073709551616)
    (hx : x < w) (hy : y < h) :
    ∃ cv cv', (Canvas.new w h bs).bind (fun cv0 => apply_ops cv0 ops) = some cv ∧
      cv.pixel_set x y c = some cv' ∧
      cv'.pixel_get x y = some c ∧
      (∀ x' y', x' < w → y' < h → ¬ (x' = x ∧ y' = y) →
        cv'.pixel_get x' y' = cv.pixel_get x' y') ∧
      cv.m_width = w ∧ cv.m_height = h ∧ cv.m_pixels.length = w * h * 4 ∧
      cv'.m_width = w ∧ cv'.m_height = h ∧ cv'.m_pixels.length = w * h * 4 ∧
      (y * w + x) * 4 + 3 < w * h * 4 ∧
      (∀ k, (k < (y * w + x) * 4 ∨ (y * w + x) * 4 + 3 < k) →
        cv'.m_pixels[k]? = cv.m_pixels[k]?) := by
  obtain ⟨cv0, h0, hw, hh, -, hlen, ha⟩ := Canvas.new_spec w h bs
  have h4 : cv0.m_pixels.length % 4 = 0 := by rw [hlen]; omega
  have hwf0 : CanvasWF cv0 := by
    rw [CanvasWF, hw, hh, hlen, Nat.mod_eq_of_lt hsize]
    exact ⟨rfl, hsize⟩
  obtain ⟨cv, hcv⟩ := apply_ops_total ops cv0 hwf0
  obtain ⟨kw, kh, klen, -⟩ := apply_ops_keeps ops cv0 cv hcv h4 ha
  have ew : cv.m_width = w := by rw [kw, hw]
  have eh : cv.m_height = h := by rw [kh, hh]
  have el : cv.m_pixels.length = w * h * 4 := by rw [klen, hlen, Nat.mod_eq_of_lt hsize]
  have hwf : CanvasWF cv := by
    rw [CanvasWF, ew, eh, el]
    exact ⟨rfl, hsize⟩
  obtain ⟨cv', h1, hwf', hw', hh', -, hget⟩ :=
    Canvas.pixel_set_get cv hwf x y c (by rw [ew]; exact hx) (by rw [eh]; exact hy)
  obtain ⟨cv2, k1, k2, k3⟩ :=
    Canvas.pixel_set_bytes cv hwf x y c (by rw [ew]; exact hx) (by rw [eh]; exact hy)
  rw [h1] at k1
  cases k1
  rw [ew, eh] at k2
  rw [ew] at k3
  rw [ew, eh] at hget
  refine ⟨cv, cv', by rw [h0, Option.some_bind]; exact hcv, h1, ?_, ?_, ew, eh, el,
    by rw [hw', ew], by rw [hh', eh], ?_, k2, k3⟩
  · rw [hget x y hx hy, if_pos ⟨rfl, rfl⟩]
  · intro x' y' hx' hy' hne
    rw [hget x' y' hx' hy', if_neg hne]
  · rw [hwf'.1, hw', hh', ew, eh]

/-- C26, witness: on the 2x2 canvas after a `clear`, the write of the pixel
`(1, 0)` changes the bytes 4 to 7 of the 16 and the pixel read at `(1, 0)`
only. -/
theorem C26_pixel_write_then_read_witness :
    ∃ cv cv', (Canvas.new 2 2 5).bind
        (fun cv0 => apply_ops cv0 [CanvasOp.clear ⟨1, 2, 3⟩]) = some cv ∧
      cv.pixel_set 1 0 ⟨9, 8, 7⟩ = some cv' ∧
      cv'.pixel_get 1 0 = some ⟨9, 8, 7⟩ ∧
      cv'.pixel_get 0 1 = cv.pixel_get 0 1 ∧
      cv'.m_pixels.length = 2 * 2 * 4 ∧
      cv'.m_pixels[8]? = cv.m_pixels[8]? := by
  obtain ⟨cv, cv', h1, h2, h3, h4, -, -, -, -, -, h5, -, h6⟩ :=
    C26_pixel_write_then_read 2 2 5 [CanvasOp.clear ⟨1, 2, 3⟩] 1 0 ⟨9, 8, 7⟩
      (by decide) (by decide) (by decide)
  exact ⟨cv, cv', h1, h2, h3, h4 0 1 (by decide) (by decide) (by decide), h5,
    h6 8 (by decide)⟩

/-- C27: in a run of calls of `make_words` from the start of the program
(fewer than 2^31 / 3 calls, so that the `int` counter does not overflow), the
`k`-th call (`k` from 0) with directory `dir` returns `dir`, a slash and the
three letters at the alphabet positions `3k`, `3k + 1`, `3k + 2` modulo 26,
whatever the directories of the other calls; two calls less than 26 apart
with the same directory give different names, and the calls `k` and `k + 26`
with the same directory give the same name. -/
theorem C27_make_words_names (dirs : List (List Char))
    (h : 3 * dirs.length < 2147483648) :
    ∃ names, make_words_run dirs 0 = some (names, 3 * dirs.length) ∧
      names.length = dirs.length ∧
      (∀ k dir, dirs[k]? = some dir →
        names[k]? = some (dir ++ '/' :: [alphabet_letter (3 * k),
          alphabet_letter (3 * k + 1), alphabet_letter (3 * k + 2)])) ∧
      (∀ j k dir, j < k → k < j + 26 → dirs[j]? = some dir → dirs[k]? = some dir →
        names[j]? ≠ names[k]?) ∧
      (∀ k dir, dirs[k]? = some dir → dirs[k + 26]? = some dir →
        names[k + 26]? = names[k]?) := by
  obtain ⟨names, h1, hlen, hget⟩ := make_words_run_spec dirs 0 (by omega)
  simp only [Nat.zero_add] at h1 hget
  refine ⟨names, h1, hlen, hget, ?_, ?_⟩
  · intro j k dir hjk hk26 hj hk heq
    rw [hget j dir hj, hget k dir hk] at heq
    simp only [Option.some.injEq, List.append_cancel_left_eq, List.cons.injEq, true_and,
      and_true] at heq
    have := alphabet_letter_inj _ _ heq.1
    omega
  · intro k dir hk hk26
    rw [hget k dir hk, hget (k + 26) dir hk26]
    have e0 : alphabet_letter (3 * (k + 26)) = alphabet_letter (3 * k) := by
      unfold alphabet_letter
      congr 2
      omega
    have e1 : alphabet_letter (3 * (k + 26) + 1) = alphabet_letter (3 * k + 1) := by
      unfold alphabet_letter
      congr 2
      omega
    have e2 : alphabet_letter (3 * (k + 26) + 2) = alphabet_letter (3 * k + 2) := by
      unfold alphabet_letter
      congr 2
      omega
    rw [e0, e1, e2]

/-- C27, witness: 27 calls with the directory `img`: the first name is
`img/abc`, the ninth `img/yza`, and the 27th is the first again. -/
theorem C27_make_words_names_witness :
    ∃ names, make_words_run (List.replicate 27 ['i', 'm', 'g']) 0 = some (names, 81) ∧
      names[0]? = some ['i', 'm', 'g', '/', 'a', 'b', 'c'] ∧
      names[8]? = some ['i', 'm', 'g', '/', 'y', 'z', 'a'] ∧
      names[0]? ≠ names[8]? ∧ names[26]? = names[0]? := by
  obtain ⟨names, h1, -, h2, h3, h4⟩ :=
    C27_make_words_names (List.replicate 27 ['i', 'm', 'g']) (by decide)
  exact ⟨names, h1, h2 0 ['i', 'm', 'g'] (by decide), h2 8 ['i', 'm', 'g'] (by decide),
    h3 0 8 ['i', 'm', 'g'] (by decide) (by decide) (by decide) (by decide),
    h4 0 ['i', 'm', 'g'] (by decide) (by decide)⟩

end life
